import Mathlib

/-!
iRODS FUSE client: the preload engine (`iFuseLib.Preload.c`) and the file
operations that use it (`iFuseOper.c`)

A shallow embedding of the preload cache of the iRODS FUSE client and a
verification of its admission, eviction and publish logic, of its start-up
clean-up, of the table of open cache files, and of the way the file
operations of the client call into it.

* The local file system is a tree of directories and regular files.  A
  directory listing is kept in `readdir` order; the entries `.` and `..`
  are not part of a listing.
* C strings are `String`, the text their bytes encode in UTF-8; a path handed
  to a system call is resolved component by component from the root
  directory.
* `off_t`, `time_t` and `rodsLong_t` values are `Int` (the sizes involved are
  far below `2^63`; the size of a file on disk is a `Nat`).
* The byte content of a file is represented by an identifier `data`; its
  length is `st_size`.
* System calls fail with `-1` as in C; permission errors are not modelled,
  so `unlink` of an existing regular file always succeeds.
* Every function runs under the global `PreloadLock` where the source takes
  it, so each is one atomic transition of the state.
* The `NULL` tests of the functions are left out: every caller passes the
  address of a buffer.
* `snprintf` into a buffer of `MAX_NAME_LEN` bytes keeps the first
  `MAX_NAME_LEN - 1` bytes of the UTF-8 text (`takeBytes`; a character that
  the limit would cut is left out whole).  The paths built during a directory
  walk are kept as component lists: every entry the engine creates has a path
  that fits the buffer.
* The thread is created with `pthread_create` (the build without Boost).
-/

namespace IFuse

/-! ## The local file system -/

/-- A resolved path: the list of its components, from the root directory. -/
abbrev Path := List String

/-- A regular file: the fields of `struct stat` the code reads, and its content. -/
structure Inode where
  st_size : Nat
  st_atime : Int
  st_mtime : Int
  data : Nat
deriving DecidableEq

/-- The `struct stat` fields of a directory. -/
structure DirStat where
  st_size : Nat
  st_atime : Int
  st_mtime : Int
deriving DecidableEq

/-- A directory listing in `readdir` order: each entry is a regular file or a
directory with its own listing, followed by the remaining entries. -/
inductive Tree where
  | nil : Tree
  | file (name : String) (ino : Inode) (rest : Tree) : Tree
  | dir (name : String) (ds : DirStat) (sub : Tree) (rest : Tree) : Tree
deriving DecidableEq

/-- What a path resolves to. -/
inductive Node where
  | file (ino : Inode) : Node
  | dir (ds : DirStat) (sub : Tree) : Node
deriving DecidableEq

/-- The `struct stat` fields used by the preload engine. -/
structure struct_stat where
  st_isdir : Bool
  st_size : Int
  st_atime : Int
  st_mtime : Int
deriving DecidableEq

/-- The `struct stat` of a regular file. -/
def Inode.toStat (i : Inode) : struct_stat :=
  { st_isdir := false, st_size := i.st_size, st_atime := i.st_atime, st_mtime := i.st_mtime }

/-- The `struct stat` of a node. -/
def Node.toStat : Node → struct_stat
  | .file i => i.toStat
  | .dir d _ =>
    { st_isdir := true, st_size := d.st_size, st_atime := d.st_atime, st_mtime := d.st_mtime }

/-- Splitting of a path string at `/`; `cur` is the component being read, reversed. -/
def splitAux : List Char → List Char → List String
  | [], cur => if cur = [] then [] else [String.mk cur.reverse]
  | c :: cs, cur =>
    if c = '/' then
      (if cur = [] then splitAux cs [] else String.mk cur.reverse :: splitAux cs [])
    else splitAux cs (c :: cur)

/-- The components of a path string.  Empty components (repeated or trailing
slashes) are dropped; relative paths are taken from the root directory; the
names `.` and `..` are not interpreted (no entry carries them). -/
def splitPath (s : String) : Path := splitAux s.data []

/-- The entry called `n` of a listing. -/
def Tree.find (n : String) : Tree → Option Node
  | .nil => none
  | .file m i rest => if m = n then some (.file i) else rest.find n
  | .dir m d sub rest => if m = n then some (.dir d sub) else rest.find n

/-- Put a node in front of a listing under the name `n`. -/
def Tree.cons (n : String) : Node → Tree → Tree
  | .file i, rest => .file n i rest
  | .dir d sub, rest => .dir n d sub rest

/-- Rewrite the entry called `n` of a listing: `f` receives the current entry
(if any) and returns the new one (or `none` to drop it).  An existing entry is
replaced in place, a new one is appended. -/
def Tree.alterEntry (n : String) (f : Option Node → Option Node) : Tree → Tree
  | .nil =>
    match f none with
    | none => .nil
    | some nd => Tree.cons n nd .nil
  | .file m i rest =>
    if m = n then
      (match f (some (.file i)) with
       | none => rest
       | some nd => Tree.cons n nd rest)
    else .file m i (Tree.alterEntry n f rest)
  | .dir m d sub rest =>
    if m = n then
      (match f (some (.dir d sub)) with
       | none => rest
       | some nd => Tree.cons n nd rest)
    else .dir m d sub (Tree.alterEntry n f rest)

/-- Resolve a path from the directory with listing `t` and attributes `d`. -/
def Tree.node : Path → DirStat → Tree → Option Node
  | [], d, t => some (.dir d t)
  | n :: ns, _, t =>
    match t.find n with
    | none => none
    | some (.file i) => if ns = [] then some (.file i) else none
    | some (.dir d sub) => Tree.node ns d sub

/-- Attributes reported for the root directory. -/
def rootStat : DirStat := { st_size := 0, st_atime := 0, st_mtime := 0 }

/-- Resolve a path from the root. -/
def Tree.lookup (fs : Tree) (p : Path) : Option Node := Tree.node p rootStat fs

/-- Rewrite the entry at path `p`; fails when `p` is the root or when the
parent of `p` is not an existing directory. -/
def Tree.alter : Path → (Option Node → Option Node) → Tree → Option Tree
  | [], _, _ => none
  | [n], f, t => some (t.alterEntry n f)
  | n :: m :: ms, f, t =>
    match t.find n with
    | some (.dir d sub) =>
      (Tree.alter (m :: ms) f sub).map (fun sub1 => t.alterEntry n (fun _ => some (.dir d sub1)))
    | _ => none

/-- All regular files of a listing with their paths, in traversal order;
`path` is the path of the directory the listing belongs to. -/
def Tree.files (path : Path) : Tree → List (Path × Inode)
  | .nil => []
  | .file n i rest => (path ++ [n], i) :: Tree.files path rest
  | .dir n _ sub rest => Tree.files (path ++ [n]) sub ++ Tree.files path rest

/-- Total size of the regular files of a listing, subdirectories included. -/
def Tree.totalSize : Tree → Nat
  | .nil => 0
  | .file _ i rest => i.st_size + rest.totalSize
  | .dir _ _ sub rest => sub.totalSize + rest.totalSize

/-- Number of regular files of a listing, subdirectories included. -/
def Tree.numFiles : Tree → Nat
  | .nil => 0
  | .file _ _ rest => 1 + rest.numFiles
  | .dir _ _ sub rest => sub.numFiles + rest.numFiles

/-- A listing is well formed when no directory holds two entries of the same name. -/
def Tree.wf : Tree → Bool
  | .nil => true
  | .file n _ rest => (rest.find n).isNone && rest.wf
  | .dir n _ sub rest => (rest.find n).isNone && sub.wf && rest.wf

/-! ### System calls -/

/-- Result of `stat(2)`: `none` is the return value `-1`. -/
def stat (fs : Tree) (path : String) : Option struct_stat :=
  (fs.lookup (splitPath path)).map Node.toStat

/-- Removal of the regular file at a resolved path. -/
def unlinkAt (fs : Tree) (p : Path) : Option Tree :=
  match fs.lookup p with
  | some (.file _) => fs.alter p (fun _ => none)
  | _ => none

/-- Result of `unlink(2)`: the new file system, or `none` for `-1` (no such
file, or a directory). -/
def unlink (fs : Tree) (path : String) : Option Tree := unlinkAt fs (splitPath path)

/-- Result of `utime(2)`: access and modification time of an existing node are set. -/
def utime (fs : Tree) (path : String) (actime modtime : Int) : Option Tree :=
  match fs.lookup (splitPath path) with
  | none => none
  | some _ =>
    fs.alter (splitPath path) (fun o =>
      match o with
      | some (.file i) => some (.file { i with st_atime := actime, st_mtime := modtime })
      | some (.dir d sub) => some (.dir { d with st_atime := actime, st_mtime := modtime } sub)
      | none => none)

/-- Whether path `p` is a proper or improper initial segment of `q`. -/
def Path.startsWith : Path → Path → Bool
  | _, [] => true
  | [], _ :: _ => false
  | a :: q, b :: p => a = b && Path.startsWith q p

/-- Result of `rename(2)`.  The old path must exist.  Renaming a path to itself
succeeds and changes nothing.  A regular file replaces an existing regular file
but not a directory; a directory replaces only an empty directory and cannot be
moved below itself.  The parent of the new path must be an existing directory. -/
def rename (fs : Tree) (oldpath newpath : String) : Option Tree :=
  let o := splitPath oldpath
  let n := splitPath newpath
  match fs.lookup o with
  | none => none
  | some src =>
    if o = n then some fs
    else if o = [] then none
    else
      let allowed : Bool :=
        match src, fs.lookup n with
        | _, none => true
        | .file _, some (.file _) => true
        | .file _, some (.dir _ _) => false
        | .dir _ _, some (.file _) => false
        | .dir _ _, some (.dir _ sub) => decide (sub = .nil)
      if allowed && !(Path.startsWith n o) then
        match fs.alter o (fun _ => none) with
        | none => none
        | some fs1 => fs1.alter n (fun _ => some src)
      else none

/-- Create the directories of a path that do not exist yet, as `mkdir -p`
does; stops at a component that is a regular file. -/
def Tree.mkdirs : Path → Tree → Tree
  | [], t => t
  | n :: ns, t =>
    match t.find n with
    | none => t.alterEntry n (fun _ => some (.dir rootStat (Tree.mkdirs ns .nil)))
    | some (.dir d sub) => t.alterEntry n (fun _ => some (.dir d (Tree.mkdirs ns sub)))
    | some (.file _) => t

/-- Create or overwrite the regular file at a resolved path; a directory at
that path or a missing parent directory makes the write fail. -/
def writeFileAt (fs : Tree) (p : Path) (ino : Inode) : Option Tree :=
  match fs.lookup p with
  | some (.dir _ _) => none
  | _ => fs.alter p (fun _ => some (.file ino))

/-! ## Configuration and state of the preload engine -/

/-- The preload configuration (`preloadConfig_t`); the two sizes are
`rodsLong_t`, printed with `%lld` by `initPreload`. -/
structure preloadConfig_t where
  preload : Int
  clearCache : Int
  cachePath : String
  cacheMaxSize : Int
  preloadMinSize : Int

/-- What the rest of the client provides to `iFuseLib.Preload.c`: the two
compile-time constants of the headers, the global `PreloadConfig`, the path
conversion `getiRODSPath` (its status and the converted path), and whether the
configured user is the public user. -/
structure Ctx where
  MAX_NAME_LEN : Nat
  PRELOAD_FILES_IN_DOWNLOADING_EXT : String
  PreloadConfig : preloadConfig_t
  getiRODSPath : String → Int × String
  userIsPublic : Bool

/-- The two values of `preloadThreadInfo_t.running`. -/
inductive RunState where
  | PRELOAD_THREAD_RUNNING : RunState
  | PRELOAD_THREAD_IDLE : RunState
deriving DecidableEq

/-- A `preloadThreadInfo_t` record; `addr` is the address `malloc` returned,
the identity under which the list and the table hold it. -/
structure preloadThreadInfo_t where
  addr : Nat
  path : String
  running : RunState
deriving DecidableEq

/-- The argument of `_preloadThread`. -/
structure preloadThreadData_t where
  path : String
  stbuf : struct_stat
  threadInfo : preloadThreadInfo_t
deriving DecidableEq

/-- A `preloadFileHandleInfo_t` record. -/
structure preloadFileHandleInfo_t where
  path : String
  handle : Int
deriving DecidableEq

/-- Where a running `_preloadThread` stands: at the start of `_download`,
inside `getUtil`, waiting for the lock to run `_completeDownload`, or back
from `_download` with its status and waiting to unregister. -/
inductive Phase where
  | starting : Phase
  | transferring : Phase
  | publishing : Phase
  | returned (status : Int) : Phase
deriving DecidableEq

/-- A running background thread. -/
structure Thread where
  data : preloadThreadData_t
  phase : Phase
deriving DecidableEq

/-- The state the preload engine works on: the local file system, the three
global tables, the running background threads and the next fresh address. -/
structure PreloadState where
  fs : Tree
  PreloadThreadList : List preloadThreadInfo_t
  PreloadThreadTable : List (String × preloadThreadInfo_t)
  PreloadFileHandleTable : List (String × preloadFileHandleInfo_t)
  threads : List Thread
  nextAddr : Nat

/-! ### Hash table and list of the client library -/

/-- Modelled from the spec: `lookupFromHashTable` of the hash table library,
which is not among the sources; the first entry under the key. -/
def lookupFromHashTable {α : Type} : List (String × α) → String → Option α
  | [], _ => none
  | (k, v) :: h, key => if k = key then some v else lookupFromHashTable h key

/-- Modelled from the spec: `insertIntoHashTable`; a new entry is added without
looking for an existing one under the same key. -/
def insertIntoHashTable {α : Type} (h : List (String × α)) (key : String) (v : α) :
    List (String × α) :=
  h ++ [(key, v)]

/-- Modelled from the spec: `deleteFromHashTable`; the first entry under the
key is removed. -/
def deleteFromHashTable {α : Type} : List (String × α) → String → List (String × α)
  | [], _ => []
  | (k, v) :: h, key => if k = key then h else (k, v) :: deleteFromHashTable h key

/-- Modelled from the spec: `addToConcurrentList`; appends. -/
def addToConcurrentList (l : List preloadThreadInfo_t) (v : preloadThreadInfo_t) :
    List preloadThreadInfo_t :=
  l ++ [v]

/-- Modelled from the spec: `removeFromConcurrentList2`; removes the element
that is the given record (same address). -/
def removeFromConcurrentList2 :
    List preloadThreadInfo_t → preloadThreadInfo_t → List preloadThreadInfo_t
  | [], _ => []
  | x :: l, v => if x.addr = v.addr then l else x :: removeFromConcurrentList2 l v

/-! ## The preload engine -/

/-- The longest run of leading characters of a text whose UTF-8 encoding takes
at most `n` bytes.  A character that the limit would cut is left out whole:
the bytes of it that a C buffer would still hold form no character. -/
def takeBytes : Nat → List Char → List Char
  | _, [] => []
  | n, ch :: cs =>
    match ch.utf8Size, n with
    | 1, m + 1 => ch :: takeBytes m cs
    | 2, m + 2 => ch :: takeBytes m cs
    | 3, m + 3 => ch :: takeBytes m cs
    | 4, m + 4 => ch :: takeBytes m cs
    | _, _ => []

/-- The effect of `snprintf (buf, n, ...)` on the formatted text: the buffer
holds at most `n - 1` bytes of it before the terminating zero. -/
def snprintf (n : Nat) (s : String) : String := String.mk (takeBytes (n - 1) s.data)

/-- The function `_getCachePath`: the cache root followed by the iRODS path. -/
def _getCachePath (c : Ctx) (path : String) : String :=
  if path.data.head? = some '/' then
    snprintf c.MAX_NAME_LEN (c.PreloadConfig.cachePath ++ path)
  else
    snprintf c.MAX_NAME_LEN (c.PreloadConfig.cachePath ++ "/" ++ path)

/-- The function `_getCacheWorkPath`: the cache path with the in-download suffix. -/
def _getCacheWorkPath (c : Ctx) (path : String) : String :=
  if path.data.head? = some '/' then
    snprintf c.MAX_NAME_LEN
      (c.PreloadConfig.cachePath ++ path ++ c.PRELOAD_FILES_IN_DOWNLOADING_EXT)
  else
    snprintf c.MAX_NAME_LEN
      (c.PreloadConfig.cachePath ++ "/" ++ path ++ c.PRELOAD_FILES_IN_DOWNLOADING_EXT)

/-- The function `_hasCache`: `0` when `stat` of the cache path succeeds. -/
def _hasCache (c : Ctx) (fs : Tree) (path : String) : Int :=
  match stat fs (_getCachePath c path) with
  | none => -1
  | some _ => 0

/-- The function `_hasValidCache`: `0` when the cache path exists with the
size and the modification time of `stbuf`. -/
def _hasValidCache (c : Ctx) (fs : Tree) (path : String) (stbuf : struct_stat) : Int :=
  match stat fs (_getCachePath c path) with
  | none => -1
  | some stbufCache =>
    if stbufCache.st_size ≠ stbuf.st_size then -1
    else if stbufCache.st_mtime ≠ stbuf.st_mtime then -1
    else 0

/-- Modelled from the spec: `isDirectory` of `iFuseLib.FSUtils`, which is not
among the sources; `0` when the path is an existing directory. -/
def isDirectory (fs : Tree) (path : String) : Int :=
  match stat fs path with
  | some st => if st.st_isdir then 0 else -1
  | none => -1

/-- Modelled from the spec: `removeDirRecursive` of `iFuseLib.FSUtils`; the
directory and everything below it is removed. -/
def removeDirRecursive (fs : Tree) (path : String) : Int × Tree :=
  match fs.alter (splitPath path) (fun _ => none) with
  | some fs1 => (0, fs1)
  | none => (-1, fs)

/-- The function `_invalidateCache`: status and new file system. -/
def _invalidateCache (c : Ctx) (fs : Tree) (path : String) : Int × Tree :=
  let cacheWorkPath := _getCacheWorkPath c path
  let cachePath := _getCachePath c path
  if isDirectory fs cachePath = 0 then
    removeDirRecursive fs cachePath
  else
    let fs1 := (unlink fs cacheWorkPath).getD fs
    match unlink fs1 cachePath with
    | none => (-1, fs1)
    | some fs2 => (0, fs2)

/-- The comparison step of `_findOldestCache`: the candidate is taken when
none is set yet or when the one set has a strictly later access time. -/
def keepOldest (oldest : Option (Path × struct_stat)) (cand : Path × struct_stat) :
    Option (Path × struct_stat) :=
  match oldest with
  | none => some cand
  | some o => if o.2.st_atime > cand.2.st_atime then some cand else some o

/-- The `readdir` loop of `_findOldestCache` over the listing of the directory
at `path`; `oldest` is the pair `oldestCachePath`, `oldestStatBuf` (`none`
while the path is empty).  A subdirectory is searched by the recursive call,
which starts with no candidate. -/
def _findOldestCache_readdir (path : Path) :
    Tree → Option (Path × struct_stat) → Option (Path × struct_stat)
  | .nil, oldest => oldest
  | .file n i rest, oldest =>
    _findOldestCache_readdir path rest (keepOldest oldest (path ++ [n], i.toStat))
  | .dir n _ sub rest, oldest =>
    match _findOldestCache_readdir (path ++ [n]) sub none with
    | some temp => _findOldestCache_readdir path rest (keepOldest oldest temp)
    | none => _findOldestCache_readdir path rest oldest

/-- The function `_findOldestCache`: `none` is the status `-1`, otherwise the
path and `struct stat` it writes.  A directory that cannot be opened has no
entries. -/
def _findOldestCache (fs : Tree) (path : Path) : Option (Path × struct_stat) :=
  match fs.lookup path with
  | some (.dir _ sub) => _findOldestCache_readdir path sub none
  | _ => none

/-- Outcome of `_evictOldCache`: its status, the file system it leaves, the
files it unlinked in order (path and `struct stat` found), and whether the
loop was cut off before it ended. -/
structure EvictResult where
  status : Int
  fs : Tree
  removed : List (Path × struct_stat)
  exhausted : Bool

/-- The `while` loop of `_evictOldCache`, cut off after `fuel` iterations. -/
def _evictOldCache_loop (c : Ctx) (sizeNeeded : Int) :
    Nat → Tree → Int → List (Path × struct_stat) → EvictResult
  | 0, fs, _, log => { status := 0, fs := fs, removed := log, exhausted := true }
  | fuel + 1, fs, removedCacheSize, log =>
    if sizeNeeded > removedCacheSize then
      match _findOldestCache fs (splitPath c.PreloadConfig.cachePath) with
      | none => { status := -1, fs := fs, removed := log, exhausted := false }
      | some (oldCachePath, statbuf) =>
        let cacheSize : Int := if statbuf.st_size > 0 then statbuf.st_size else 0
        match unlinkAt fs oldCachePath with
        | none => { status := -1, fs := fs, removed := log, exhausted := false }
        | some fs1 =>
          _evictOldCache_loop c sizeNeeded fuel fs1 (removedCacheSize + cacheSize)
            (log ++ [(oldCachePath, statbuf)])
    else { status := 0, fs := fs, removed := log, exhausted := false }

/-- The function `_evictOldCache`.  Every iteration that does not return
unlinks a file, so one more iteration than there are files is enough. -/
def _evictOldCache (c : Ctx) (fs : Tree) (sizeNeeded : Int) : EvictResult :=
  if sizeNeeded ≤ 0 then { status := 0, fs := fs, removed := [], exhausted := false }
  else _evictOldCache_loop c sizeNeeded (fs.numFiles + 1) fs 0 []

/-- Modelled from the spec: `getFileSizeRecursive` of `iFuseLib.FSUtils`, the
current usage of a directory: the total size of the regular files below it. -/
def getFileSizeRecursive (fs : Tree) (path : String) : Int :=
  match fs.lookup (splitPath path) with
  | some (.dir _ sub) => sub.totalSize
  | _ => 0

/-- The debug message `preloadFile` logs on the branch it takes. -/
inductive LogMsg where
  | pathFailed : LogMsg
  | alreadyRunning : LogMsg
  | tooSmall : LogMsg
  | tooLarge : LogMsg
  | evictFailed : LogMsg
  | startPreloading : LogMsg
  | alreadyPreloaded : LogMsg
deriving DecidableEq

/-- Outcome of `preloadFile`: the returned status, the new state, the message
logged, the argument of the call of `_evictOldCache` (if it was called) with
the files that call unlinked, and the argument handed to `pthread_create` (if
it was called). -/
structure PreloadResult where
  status : Int
  state : PreloadState
  log : LogMsg
  evictArg : Option Int
  evicted : List (Path × struct_stat)
  created : Option preloadThreadData_t

/-- The tail of `preloadFile`: the new `preloadThreadInfo_t` is put in the list
and in the table, and the thread is created; `pthread_create` is the status of
that call, and the thread runs when it is `0`. -/
def preloadFile_start (s : PreloadState) (fs : Tree) (iRODSPath : String)
    (stbuf : struct_stat) (pthread_create : Int) (evictArg : Option Int)
    (evicted : List (Path × struct_stat)) : PreloadResult :=
  let threadInfo : preloadThreadInfo_t :=
    { addr := s.nextAddr, path := iRODSPath, running := .PRELOAD_THREAD_RUNNING }
  let threadData : preloadThreadData_t :=
    { path := iRODSPath, stbuf := stbuf, threadInfo := threadInfo }
  { status := pthread_create
    state :=
      { fs := fs
        PreloadThreadList := addToConcurrentList s.PreloadThreadList threadInfo
        PreloadThreadTable := insertIntoHashTable s.PreloadThreadTable iRODSPath threadInfo
        PreloadFileHandleTable := s.PreloadFileHandleTable
        threads :=
          if pthread_create = 0 then s.threads ++ [{ data := threadData, phase := .starting }]
          else s.threads
        nextAddr := s.nextAddr + 1 }
    log := .startPreloading
    evictArg := evictArg
    evicted := evicted
    created := some threadData }

/-- The function `preloadFile`; `pthread_create` is the status the thread
creation returns if the call reaches it. -/
def preloadFile (c : Ctx) (s : PreloadState) (path : String) (stbuf : struct_stat)
    (pthread_create : Int) : PreloadResult :=
  let conv := c.getiRODSPath path
  let iRODSPath := conv.2
  if conv.1 < 0 then
    { status := conv.1, state := s, log := .pathFailed, evictArg := none, evicted := [],
      created := none }
  else
    match lookupFromHashTable s.PreloadThreadTable iRODSPath with
    | some _ =>
      { status := 0, state := s, log := .alreadyRunning, evictArg := none, evicted := [],
        created := none }
    | none =>
      if _hasValidCache c s.fs iRODSPath stbuf ≠ 0 then
        let fs1 := (_invalidateCache c s.fs iRODSPath).2
        if stbuf.st_size < c.PreloadConfig.preloadMinSize then
          { status := 0, state := { s with fs := fs1 }, log := .tooSmall, evictArg := none,
            evicted := [], created := none }
        else if c.PreloadConfig.cacheMaxSize > 0 then
          if stbuf.st_size > c.PreloadConfig.cacheMaxSize then
            { status := 0, state := { s with fs := fs1 }, log := .tooLarge, evictArg := none,
              evicted := [], created := none }
          else
            let cacheSize := getFileSizeRecursive fs1 c.PreloadConfig.cachePath
            if cacheSize + stbuf.st_size > c.PreloadConfig.cacheMaxSize then
              let arg := (cacheSize + stbuf.st_size) - c.PreloadConfig.cacheMaxSize
              let ev := _evictOldCache c fs1 arg
              if ev.status < 0 then
                { status := ev.status, state := { s with fs := ev.fs }, log := .evictFailed,
                  evictArg := some arg, evicted := ev.removed, created := none }
              else
                preloadFile_start s ev.fs iRODSPath stbuf pthread_create (some arg) ev.removed
            else preloadFile_start s fs1 iRODSPath stbuf pthread_create none []
        else preloadFile_start s fs1 iRODSPath stbuf pthread_create none []
      else
        { status := 0, state := s, log := .alreadyPreloaded, evictArg := none, evicted := [],
          created := none }

/-- The function `isPreloading`. -/
def isPreloading (c : Ctx) (s : PreloadState) (path : String) : Int :=
  let conv := c.getiRODSPath path
  if conv.1 < 0 then conv.1
  else
    match lookupFromHashTable s.PreloadThreadTable conv.2 with
    | some _ => 0
    | none => -1

/-- The function `_completeDownload`; `now` is `convTime (getCurrentTime ())`. -/
def _completeDownload (fs : Tree) (workPath cachePath : String) (stbuf : struct_stat)
    (now : Int) : Int × Tree :=
  match utime fs workPath now stbuf.st_mtime with
  | none => (-1, fs)
  | some fs1 =>
    match rename fs1 workPath cachePath with
    | none => (-1, fs1)
    | some fs2 => (0, fs2)

/-- What the iRODS client library does in one run of `_download`: the status
of the two path parsers, whether `rcConnect` returns a connection, the status
of `clientLogin` and of `getUtil`, and the file `getUtil` leaves at its
destination (`none` when it writes nothing). -/
structure DownloadEnv where
  parseRodsPath : Int
  parseLocalPath : Int
  rcConnect : Bool
  clientLogin : Int
  getUtil : Int
  fetched : Option Inode

/-- Modelled from the spec: `prepareDir` of `iFuseLib.FSUtils`; the directories
leading to the given file path are created. -/
def prepareDir (fs : Tree) (path : String) : Tree :=
  fs.mkdirs (splitPath path).dropLast

/-- The first part of `_download`: the two path parsers, `rcConnect`,
`clientLogin` unless the user is the public one, and `prepareDir`; `some
status` when `_download` returns there, `none` when it goes on to `getUtil`.
The status `-32` is `-EPIPE`. -/
def _download_connect (c : Ctx) (fs : Tree) (path : String) (e : DownloadEnv) :
    Option Int × Tree :=
  if e.parseRodsPath < 0 then (some e.parseRodsPath, fs)
  else if e.parseLocalPath < 0 then (some e.parseLocalPath, fs)
  else if e.rcConnect = false then (some (-32), fs)
  else if c.userIsPublic = false ∧ e.clientLogin ≠ 0 then (some e.clientLogin, fs)
  else (none, prepareDir fs (_getCachePath c path))

/-- The call of `getUtil` in `_download` and the test of its status: the work
file holds what `getUtil` fetched; `some status` when `_download` returns
there, `none` when it goes on to take the lock and call `_completeDownload`. -/
def _download_getUtil (c : Ctx) (fs : Tree) (path : String) (e : DownloadEnv) :
    Option Int × Tree :=
  let fs2 :=
    match e.fetched with
    | none => fs
    | some ino => (writeFileAt fs (splitPath (_getCacheWorkPath c path)) ino).getD fs
  if e.getUtil < 0 then (some e.getUtil, fs2) else (none, fs2)

/-- The part of `_download` that runs without the lock, up to the return of
`getUtil`. -/
def _download_transfer (c : Ctx) (fs : Tree) (path : String) (e : DownloadEnv) :
    Option Int × Tree :=
  match _download_connect c fs path e with
  | (some status, fs1) => (some status, fs1)
  | (none, fs1) => _download_getUtil c fs1 path e

/-- The function `_download`, run without interleaving: status and new file system. -/
def _download (c : Ctx) (fs : Tree) (path : String) (stbufIn : struct_stat)
    (e : DownloadEnv) (now : Int) : Int × Tree :=
  match _download_transfer c fs path e with
  | (some status, fs1) => (status, fs1)
  | (none, fs1) =>
    let r := _completeDownload fs1 (_getCacheWorkPath c path) (_getCachePath c path) stbufIn now
    if r.1 < 0 then (r.1, r.2) else (0, r.2)

/-- The locked tail of `_preloadThread`: the record of the thread leaves the
list and the table. -/
def _preloadThread_finish (s : PreloadState) (threadData : preloadThreadData_t) :
    PreloadState :=
  { s with
    PreloadThreadList := removeFromConcurrentList2 s.PreloadThreadList threadData.threadInfo
    PreloadThreadTable := deleteFromHashTable s.PreloadThreadTable threadData.threadInfo.path }

/-! ## The engine as a transition system -/

/-- The atomic steps of the engine.  `request` is a call of `preloadFile` (under
the lock).  The other steps belong to the background thread at position `i` of
`threads`: `connect` runs `_download` up to `prepareDir`, `progress` is a point
inside `getUtil` at which the work file holds what was written so far,
`transfer` is the return of `getUtil`, `publish` is `_completeDownload` under
the lock, and `finish` is the locked tail of `_preloadThread`. -/
inductive Event where
  | request (path : String) (stbuf : struct_stat) (pthread_create : Int) : Event
  | connect (i : Nat) (e : DownloadEnv) : Event
  | progress (i : Nat) (written : Inode) : Event
  | transfer (i : Nat) (e : DownloadEnv) : Event
  | publish (i : Nat) (now : Int) : Event
  | finish (i : Nat) : Event

/-- The phase after a part of `_download` that returned `r`. -/
def nextPhase (r : Option Int) (next : Phase) : Phase :=
  match r with
  | some status => .returned status
  | none => next

/-- One step; a step of a thread that is not in the phase for it changes nothing. -/
def step (c : Ctx) (s : PreloadState) : Event → PreloadState
  | .request path stbuf pthread_create => (preloadFile c s path stbuf pthread_create).state
  | .connect i e =>
    match s.threads[i]? with
    | some { data := td, phase := .starting } =>
      { s with
        fs := (_download_connect c s.fs td.path e).2
        threads := s.threads.set i
          { data := td, phase := nextPhase (_download_connect c s.fs td.path e).1 .transferring } }
    | _ => s
  | .progress i written =>
    match s.threads[i]? with
    | some { data := td, phase := .transferring } =>
      { s with
        fs := (writeFileAt s.fs (splitPath (_getCacheWorkPath c td.path)) written).getD s.fs }
    | _ => s
  | .transfer i e =>
    match s.threads[i]? with
    | some { data := td, phase := .transferring } =>
      { s with
        fs := (_download_getUtil c s.fs td.path e).2
        threads := s.threads.set i
          { data := td, phase := nextPhase (_download_getUtil c s.fs td.path e).1 .publishing } }
    | _ => s
  | .publish i now =>
    match s.threads[i]? with
    | some { data := td, phase := .publishing } =>
      let r := _completeDownload s.fs (_getCacheWorkPath c td.path) (_getCachePath c td.path)
        td.stbuf now
      { s with
        fs := r.2
        threads := s.threads.set i { data := td, phase := .returned (if r.1 < 0 then r.1 else 0) } }
    | _ => s
  | .finish i =>
    match s.threads[i]? with
    | some { data := td, phase := .returned _ } =>
      { _preloadThread_finish s td with threads := s.threads.eraseIdx i }
    | _ => s

/-- A run: the steps of a list of events, in order. -/
def run (c : Ctx) : PreloadState → List Event → PreloadState
  | s, [] => s
  | s, e :: es => run c (step c s e) es

/-- The state after `initPreload`: empty tables, no thread. -/
def initState (fs : Tree) : PreloadState :=
  { fs := fs, PreloadThreadList := [], PreloadThreadTable := [], PreloadFileHandleTable := [],
    threads := [], nextAddr := 0 }

/-- Total size of the regular files under the cache root. -/
def cacheUsage (c : Ctx) (s : PreloadState) : Int :=
  getFileSizeRecursive s.fs c.PreloadConfig.cachePath

/-! ## Example configuration -/

/-- A configuration with cache root `/cache`, a quota of 10 MB and a minimum
preload size of 1 MB; iRODS paths are used as they are. -/
def exCtx : Ctx :=
  { MAX_NAME_LEN := 1088
    PRELOAD_FILES_IN_DOWNLOADING_EXT := ".part"
    PreloadConfig :=
      { preload := 1, clearCache := 0, cachePath := "/cache", cacheMaxSize := 10485760,
        preloadMinSize := 1048576 }
    getiRODSPath := fun p => (0, p)
    userIsPublic := false }

/-- A file system that holds the empty cache root only. -/
def exFs : Tree := .dir "cache" rootStat .nil .nil

/-- Attributes of a remote object of 6 MB. -/
def exStat6 (mtime : Int) : struct_stat :=
  { st_isdir := false, st_size := 6291456, st_atime := 0, st_mtime := mtime }

/-- A run of `_download` in which every call of the client library succeeds
and `getUtil` writes a 6 MB file. -/
def exEnv (data : Nat) (now : Int) : DownloadEnv :=
  { parseRodsPath := 0, parseLocalPath := 0, rcConnect := true, clientLogin := 0, getUtil := 0,
    fetched := some { st_size := 6291456, st_atime := now, st_mtime := now, data := data } }

/-! ## Notions used in the statements -/

/-- Well-formedness of a node: that of its listing, for a directory. -/
def Node.wf : Node → Bool
  | .file _ => true
  | .dir _ sub => sub.wf

/-- Number of regular files at or below an entry. -/
def Node.numFiles : Option Node → Nat
  | none => 0
  | some (.file _) => 1
  | some (.dir _ sub) => sub.numFiles

/-- Total size of the regular files at or below an entry. -/
def Node.totalSize : Option Node → Nat
  | none => 0
  | some (.file i) => i.st_size
  | some (.dir _ sub) => sub.totalSize

/-- The regular files at or below the entry called `n` of the directory at `pre`. -/
def Node.files (pre : Path) (n : String) : Option Node → List (Path × Inode)
  | none => []
  | some (.file i) => [(pre ++ [n], i)]
  | some (.dir _ sub) => sub.files (pre ++ [n])

/-- A listed file with the `struct stat` that `stat` reports for it. -/
def statOf (x : Path × Inode) : Path × struct_stat := (x.1, x.2.toStat)

/-- The regular files below the cache root, in the order `_findOldestCache` meets them. -/
def cacheFiles (c : Ctx) (fs : Tree) : List (Path × struct_stat) :=
  match fs.lookup (splitPath c.PreloadConfig.cachePath) with
  | some (.dir _ sub) => (sub.files (splitPath c.PreloadConfig.cachePath)).map statOf
  | _ => []

/-- The first file of a list with the smallest access time. -/
def oldestOf (L : List (Path × struct_stat)) : Option (Path × struct_stat) :=
  L.foldl keepOldest none

/-- Sum of the sizes of a list of files. -/
def sizeSum (L : List (Path × struct_stat)) : Int := (L.map (fun x => x.2.st_size)).sum

/-- The files `ex` leave the list `F` one after the other, each being the
oldest of those still there, and `F1` is what remains. -/
def EvictSeq : List (Path × struct_stat) → List (Path × struct_stat) →
    List (Path × struct_stat) → Prop
  | F, [], F1 => F1 = F
  | F, m :: rest, F1 => oldestOf F = some m ∧ ∃ A B, F = A ++ m :: B ∧ EvictSeq (A ++ B) rest F1

/-- A cache with three files, one of them in a subdirectory: `a` (4 bytes,
accessed at 30), `d/b` (5 bytes, accessed at 10) and `c` (3 bytes, accessed
at 20). -/
def exFs3 : Tree :=
  .dir "cache" rootStat
    (.file "a" { st_size := 4, st_atime := 30, st_mtime := 1, data := 1 }
      (.dir "d" rootStat
        (.file "b" { st_size := 5, st_atime := 10, st_mtime := 2, data := 2 } .nil)
        (.file "c" { st_size := 3, st_atime := 20, st_mtime := 3, data := 3 } .nil)))
    .nil

/-- The thread bookkeeping is consistent: the list holds the records of the
table in the same order, no key occurs twice, each record is filed under its
own path, addresses are distinct and below the next fresh one, and every
running thread is registered in the table under its path. -/
structure TableInv (s : PreloadState) : Prop where
  list_eq : s.PreloadThreadList = s.PreloadThreadTable.map Prod.snd
  keys_nodup : (s.PreloadThreadTable.map Prod.fst).Nodup
  key_path : ∀ e ∈ s.PreloadThreadTable, e.2.path = e.1
  addr_lt : ∀ e ∈ s.PreloadThreadTable, e.2.addr < s.nextAddr
  addr_nodup : (s.PreloadThreadTable.map (fun e => e.2.addr)).Nodup
  thread_reg : ∀ td ∈ s.threads.map (fun th => th.data),
    (td.path, td.threadInfo) ∈ s.PreloadThreadTable
  thread_nodup : (s.threads.map (fun th => th.data.threadInfo.addr)).Nodup

/-- The state after the 6 MB object `/tempZone/a` was admitted into the empty
cache, downloaded and published, and its thread has finished. -/
def exCached : PreloadState :=
  run exCtx (initState exFs)
    [.request "/tempZone/a" (exStat6 100) 0, .connect 0 (exEnv 1 500), .transfer 0 (exEnv 1 500),
     .publish 0 501, .finish 0]

/-- Attributes of a remote object of 500 KB. -/
def exStatSmall : struct_stat :=
  { st_isdir := false, st_size := 512000, st_atime := 0, st_mtime := 7 }

/-- Attributes of a remote object of 20 MB. -/
def exStatBig : struct_stat :=
  { st_isdir := false, st_size := 20971520, st_atime := 0, st_mtime := 7 }

/-- The example configuration without a quota (`cacheMaxSize` 0). -/
def exCtxUnlimited : Ctx :=
  { exCtx with
    PreloadConfig :=
      { preload := 1, clearCache := 0, cachePath := "/cache", cacheMaxSize := 0,
        preloadMinSize := 1048576 } }

/-- A component of 250 characters. -/
def exLongName : String := String.mk (List.replicate 250 'a')

/-- An iRODS path of 1082 characters, none of its components longer than 250:
with the cache root `/cache` its cache path has 1088 characters, one more than
a buffer of `MAX_NAME_LEN` holds. -/
def exLongPath : String :=
  "/tempZone/" ++ exLongName ++ "/" ++ exLongName ++ "/" ++ exLongName ++ "/" ++ exLongName
    ++ "/" ++ String.mk (List.replicate 68 'b')

/-- The file system after the transfer of `exLongPath` into the empty cache. -/
def exLongFs : Tree := (_download_transfer exCtx exFs exLongPath (exEnv 1 500)).2

/-- Two 6 MB objects are admitted one right after the other, before either
download has written anything; both downloads then complete and publish. -/
def exRace : List Event :=
  [.request "/tempZone/a" (exStat6 100) 0, .request "/tempZone/b" (exStat6 100) 0,
   .connect 0 (exEnv 1 500), .connect 1 (exEnv 2 500), .transfer 0 (exEnv 1 500),
   .transfer 1 (exEnv 2 500), .publish 0 501, .publish 1 502, .finish 0, .finish 0]

/-- Usage of the directory at the resolved path `root`, below the directory
with listing `t`: the total size of its regular files, `0` when `root` is not
a directory. -/
def usageAt : Path → Tree → Nat
  | [], t => t.totalSize
  | r :: rs, t =>
    match t.find r with
    | some (.dir _ sub) => usageAt rs sub
    | _ => 0

/-- Usage of the directory at `rs` below an entry. -/
def nodeUsage (rs : Path) : Option Node → Nat
  | some (.dir _ sub) => usageAt rs sub
  | _ => 0

/-- The file system without whatever is at the resolved path `p`. -/
def rmAt (p : Path) (fs : Tree) : Tree := (fs.alter p (fun _ => none)).getD fs

/-- The condition on a step of a run without overlapping downloads: a request
is made only while no background thread exists; what a thread has written to
its work file at a point of progress or at the return of `getUtil` is no
larger than the `st_size` it was admitted with; and when `getUtil` returns a
status that is not negative it has written the work file. -/
def seqOk (c : Ctx) (s : PreloadState) : Event → Bool
  | .request _ _ _ => s.threads.isEmpty
  | .connect _ _ => true
  | .progress i written =>
    match s.threads[i]? with
    | some th => decide ((written.st_size : Int) ≤ th.data.stbuf.st_size)
    | none => true
  | .transfer i e =>
    match s.threads[i]?, e.fetched with
    | some th, some ino =>
      decide ((ino.st_size : Int) ≤ th.data.stbuf.st_size) &&
        (decide (e.getUtil < 0) ||
          (writeFileAt s.fs (splitPath (_getCacheWorkPath c th.data.path)) ino).isSome)
    | some _, none => decide (e.getUtil < 0)
    | none, _ => true
  | .publish _ _ => true
  | .finish _ => true

/-- A run without overlapping downloads: `seqOk` holds at every step. -/
def seqRun (c : Ctx) : PreloadState → List Event → Bool
  | _, [] => true
  | s, e :: es => seqOk c s e && seqRun c (step c s e) es

/-- The room kept for the object a thread downloads: before the transfer the
usage plus the size of the object is within the quota; during the transfer
and until the publish this holds for the usage without the work file; and
when the transfer is over the work file is a regular file no larger than the
object. -/
def threadRoom (c : Ctx) (fs : Tree) (th : Thread) : Prop :=
  match th.phase with
  | .starting =>
    getFileSizeRecursive fs c.PreloadConfig.cachePath + th.data.stbuf.st_size ≤
      c.PreloadConfig.cacheMaxSize
  | .transferring =>
    getFileSizeRecursive (rmAt (splitPath (_getCacheWorkPath c th.data.path)) fs)
      c.PreloadConfig.cachePath + th.data.stbuf.st_size ≤ c.PreloadConfig.cacheMaxSize
  | .publishing =>
    getFileSizeRecursive (rmAt (splitPath (_getCacheWorkPath c th.data.path)) fs)
      c.PreloadConfig.cachePath + th.data.stbuf.st_size ≤ c.PreloadConfig.cacheMaxSize ∧
    ∃ ino, fs.lookup (splitPath (_getCacheWorkPath c th.data.path)) = some (.file ino) ∧
      (ino.st_size : Int) ≤ th.data.stbuf.st_size
  | .returned _ => True

/-- The invariant of a run without overlapping downloads: the file system is
well formed, the usage of the cache root is within the quota, and there is at
most one thread, with room for its object. -/
def QuotaInv (c : Ctx) (s : PreloadState) : Prop :=
  s.fs.wf = true ∧ cacheUsage c s ≤ c.PreloadConfig.cacheMaxSize ∧
  (s.threads = [] ∨ ∃ th, s.threads = [th] ∧ threadRoom c s.fs th)

/-- A file `getUtil` has written half of: 3 MB of the 6 MB object. -/
def exPartial : Inode := { st_size := 3145728, st_atime := 400, st_mtime := 400, data := 0 }

/-- Two 6 MB objects are requested one after the other, the second one when
the thread of the first one has finished. -/
def exSequential : List Event :=
  [.request "/tempZone/a" (exStat6 100) 0, .connect 0 (exEnv 1 500), .progress 0 exPartial,
   .transfer 0 (exEnv 1 500), .publish 0 501, .finish 0,
   .request "/tempZone/b" (exStat6 100) 0, .connect 0 (exEnv 2 600), .progress 0 exPartial,
   .transfer 0 (exEnv 2 600), .publish 0 601, .finish 0]

/-! ## The interface of the preload engine to the file operations -/

/-- The function `isPreloadEnabled`: `0` when preloading is configured. -/
def isPreloadEnabled (c : Ctx) : Int :=
  if c.PreloadConfig.preload = 0 then -1 else 0

/-- The function `isPreloaded`. -/
def isPreloaded (c : Ctx) (s : PreloadState) (path : String) : Int :=
  let conv := c.getiRODSPath path
  if conv.1 < 0 then conv.1 else _hasCache c s.fs conv.2

/-- The assignment `preloadFileHandleInfo->handle = desc` on the record that
`lookupFromHashTable` returned: the first entry under the key. -/
def setHandle : List (String × preloadFileHandleInfo_t) → String → Int →
    List (String × preloadFileHandleInfo_t)
  | [], _, _ => []
  | (k, v) :: h, key, desc =>
    if k = key then (k, { v with handle := desc }) :: h else (k, v) :: setHandle h key desc

/-- Outcome of `openPreloadedFile`: the returned descriptor, the new state, and
the path handed to `open` when the call is made. -/
structure OpenResult where
  desc : Int
  state : PreloadState
  opened : Option String

/-- The function `openPreloadedFile`; `fd` is what `open (preloadCachePath,
O_RDONLY)` returns if the call is made. -/
def openPreloadedFile (c : Ctx) (s : PreloadState) (path : String) (fd : Int) : OpenResult :=
  let conv := c.getiRODSPath path
  let iRODSPath := conv.2
  if conv.1 < 0 then { desc := conv.1, state := s, opened := none }
  else
    let preloadCachePath := _getCachePath c iRODSPath
    match lookupFromHashTable s.PreloadFileHandleTable iRODSPath with
    | some preloadFileHandleInfo =>
      if preloadFileHandleInfo.handle > 0 then
        { desc := preloadFileHandleInfo.handle, state := s, opened := none }
      else if _hasCache c s.fs iRODSPath ≥ 0 then
        { desc := fd
          state :=
            if fd > 0 then
              { s with PreloadFileHandleTable := setHandle s.PreloadFileHandleTable iRODSPath fd }
            else s
          opened := some preloadCachePath }
      else { desc := -1, state := s, opened := none }
    | none =>
      if _hasCache c s.fs iRODSPath ≥ 0 then
        { desc := fd
          state :=
            if fd > 0 then
              { s with
                PreloadFileHandleTable :=
                  insertIntoHashTable s.PreloadFileHandleTable iRODSPath
                    { path := iRODSPath, handle := fd } }
            else s
          opened := some preloadCachePath }
      else { desc := -1, state := s, opened := none }

/-- Outcome of `closePreloadedFile`: the returned status, the new state, and
the descriptor handed to `close` when the call is made. -/
structure CloseResult where
  status : Int
  state : PreloadState
  closed : Option Int

/-- The function `closePreloadedFile`; it returns the status of the path
conversion. -/
def closePreloadedFile (c : Ctx) (s : PreloadState) (path : String) : CloseResult :=
  let conv := c.getiRODSPath path
  let iRODSPath := conv.2
  if conv.1 < 0 then { status := conv.1, state := s, closed := none }
  else
    match lookupFromHashTable s.PreloadFileHandleTable iRODSPath with
    | some preloadFileHandleInfo =>
      { status := conv.1
        state :=
          { s with
            PreloadFileHandleTable := deleteFromHashTable s.PreloadFileHandleTable iRODSPath }
        closed :=
          if preloadFileHandleInfo.handle > 0 then some preloadFileHandleInfo.handle else none }
    | none => { status := conv.1, state := s, closed := none }

/-- The function `invalidatePreloadedCache`: status and new state. -/
def invalidatePreloadedCache (c : Ctx) (s : PreloadState) (path : String) :
    Int × PreloadState :=
  let conv := c.getiRODSPath path
  if conv.1 < 0 then (conv.1, s)
  else
    let r := _invalidateCache c s.fs conv.2
    (r.1, { s with fs := r.2 })

/-- The function `_renameCache`: `rename` of the one cache path to the other. -/
def _renameCache (c : Ctx) (fs : Tree) (fromPath toPath : String) : Int × Tree :=
  match rename fs (_getCachePath c fromPath) (_getCachePath c toPath) with
  | none => (-1, fs)
  | some fs1 => (0, fs1)

/-- The function `renamePreloadedCache`: status and new state. -/
def renamePreloadedCache (c : Ctx) (s : PreloadState) (fromPath toPath : String) :
    Int × PreloadState :=
  let convFrom := c.getiRODSPath fromPath
  if convFrom.1 < 0 then (convFrom.1, s)
  else
    let convTo := c.getiRODSPath toPath
    if convTo.1 < 0 then (convTo.1, s)
    else
      let r := _renameCache c s.fs convFrom.2 convTo.2
      (r.1, { s with fs := r.2 })

/-- Result of `truncate(2)` on a regular file: its size is set (`now` is the
time of the call, which becomes the modification time); a missing path, a
directory or a negative size make it fail. -/
def truncate (fs : Tree) (path : String) (size : Int) (now : Int) : Option Tree :=
  if size < 0 then none
  else
    match fs.lookup (splitPath path) with
    | some (.file i) =>
      fs.alter (splitPath path)
        (fun _ => some (.file { i with st_size := size.toNat, st_mtime := now }))
    | _ => none

/-- The function `_truncateCache`. -/
def _truncateCache (c : Ctx) (fs : Tree) (path : String) (size : Int) (now : Int) : Int × Tree :=
  match truncate fs (_getCachePath c path) size now with
  | none => (-1, fs)
  | some fs1 => (0, fs1)

/-- The function `truncatePreloadedCache`: status and new state. -/
def truncatePreloadedCache (c : Ctx) (s : PreloadState) (path : String) (size : Int)
    (now : Int) : Int × PreloadState :=
  let conv := c.getiRODSPath path
  if conv.1 < 0 then (conv.1, s)
  else
    let r := _truncateCache c s.fs conv.2 size now
    (r.1, { s with fs := r.2 })

/-- The function `_preloadThread`, run without interleaving: `_download`, then
the locked tail in which the record of the thread leaves the list and the
table. -/
def _preloadThread (c : Ctx) (s : PreloadState) (threadData : preloadThreadData_t)
    (e : DownloadEnv) (now : Int) : PreloadState :=
  let r := _download c s.fs threadData.path threadData.stbuf e now
  _preloadThread_finish { s with fs := r.2 } threadData

/-! ## Start-up: clearing the cache and removing incomplete caches -/

/-- The value of `EBADF` in `errno.h`. -/
def EBADF : Int := 9
/-- The value of `ENOENT` in `errno.h`. -/
def ENOENT : Int := 2
/-- The value of `EBUSY` in `errno.h`. -/
def EBUSY : Int := 16
/-- The value of `EEXIST` in `errno.h`. -/
def EEXIST : Int := 17
/-- The value of `ENOTDIR` in `errno.h`. -/
def ENOTDIR : Int := 20

/-- The access mode mask of `fcntl.h`. -/
def O_ACCMODE : Nat := 3
/-- Open for reading only. -/
def O_RDONLY : Nat := 0
/-- Open for writing only. -/
def O_WRONLY : Nat := 1
/-- Open for reading and writing. -/
def O_RDWR : Nat := 2

/-- The remote calls of the iRODS client library made by the operations. -/
inductive Remote where
  | rcObjStat : Remote
  | rcDataObjUnlink : Remote
  | rcDataObjRename : Remote
  | rcDataObjTruncate : Remote
  | rcModDataObjMeta : Remote
  | rcDataObjOpen : Remote
  | rcDataObjGet : Remote
  | dataObjCreateByFusePath : Remote
  | rcRmColl : Remote
  | rcCollCreate : Remote
deriving DecidableEq

/-- The states of a `fileCache_t`. -/
inductive FileCacheState where
  | NO_FILE_CACHE : FileCacheState
  | HAVE_READ_CACHE : FileCacheState
  | HAVE_NEWLY_CREATED_CACHE : FileCacheState
deriving DecidableEq

/-- The fields of a `fileCache_t` the operations read. -/
structure fileCache_t where
  fileCachePath : String
  objPath : String
  state : FileCacheState
  iFd : Int
deriving DecidableEq

/-- The fields of a `pathCache_t` the operations read: the cached attributes
(with the link count of the cached `struct stat`) and the file cache, if one
is attached. -/
structure pathCache_t where
  stbuf : struct_stat
  st_nlink : Nat
  fileCache : Option fileCache_t
deriving DecidableEq

/-- A call an operation makes that reaches the remote service or changes the
attribute cache, the file cache, the descriptor table, a local backing file or
the lazy upload buffer. -/
inductive Call where
  | remote (r : Remote) : Call
  | ifuseReconnect : Call
  | pathExist (path : String) : Call
  | pathNotExist (path : String) : Call
  | clearPathFromCache (path : String) : Call
  | renmeLocalPath (fromPath toPath : String) : Call
  | _updatePathCacheStatFromFileCache (path : String) : Call
  | setCachedMode (path : String) (mode : Nat) : Call
  | setCachedSize (path : String) (size : Int) : Call
  | setFileCacheMode (path : String) (mode : Nat) : Call
  | addFileCache (path : String) (state : FileCacheState) : Call
  | _addFileCacheForPath (path : String) : Call
  | newIFuseDesc (path : String) : Call
  | irodsMknodWithCache (path : String) : Call
  | truncateLocal (fileCachePath : String) (size : Int) : Call
  | openLocal (fileCachePath : String) : Call
  | readPreloadedFile (fileDesc : Int) : Call
  | _ifuseRead (descInx : Int) : Call
  | openLazyUploadBufferedFile (path : String) : Call
  | mknodLazyUploadBufferedFile (path : String) : Call
deriving DecidableEq

/-- What `rcObjStat` reports about an object. -/
inductive objType_t where
  | UNKNOWN_OBJ_T : objType_t
  | DATA_OBJ_T : objType_t
  | COLL_OBJ_T : objType_t
deriving DecidableEq

/-- The fields of `rodsObjStat_t` that `_irodsGetattr` reads; the two times are
the values `atoi` gives. -/
structure rodsObjStat_t where
  objType : objType_t
  objSize : Int
  createTime : Int
  modifyTime : Int
deriving DecidableEq

/-- What the rest of the client answers during one operation.  `reply r k` is
the status of the remote call `r` when it is issued for the `k`-th time within
the operation (counted from `0`), and `rodsObjStatOut k` what the `k`-th
`rcObjStat` hands back.  The other fields are named after the function or
constant they stand for; `newIFuseDesc` is the index of the new descriptor, or
the negative status with which no descriptor is returned; `localTruncate`,
`lseek` and `read` are the results of the system calls on local backing
files; `getAndUseIFuseConn` and `getAndUseConnByPath` are the
status these calls set. -/
structure OperEnv where
  isLazyUploadEnabled : Int
  isFileLazyUploading : String → Int
  openLazyUploadBufferedFile : String → Int
  mknodLazyUploadBufferedFile : String → Int
  parseRodsPathStr : String → Int
  getAndUseIFuseConn : Int
  getAndUseConnByPath : String → Int
  getFileCachePath : String → Int
  reply : Remote → Nat → Int
  rodsObjStatOut : Nat → rodsObjStat_t
  isReadMsgError : Int → Bool
  matchAndLockPathCache : String → Option pathCache_t
  _updatePathCacheStatFromFileCache : String → Int × struct_stat
  renmeLocalPath : String → String → Int
  newIFuseDesc : Int
  irodsMknodWithCache : Int
  checkFuseDesc : Int → Int
  _ifuseRead : Int → Int → Int → Int
  localTruncate : String → Int → Int
  lseek : Int → Int → Int
  read : Int → Int → Int
  MAX_READ_CACHE_SIZE : Int
  DIR_SZ : Int
  CAT_NAME_EXISTS_AS_DATAOBJ : Int
  SYS_DEST_SPEC_COLL_SUB_EXIST : Int

/-- Outcome of an operation: the value returned to the dispatcher, the state of
the preload engine, the calls made (in order), and the descriptor index stored
in `fi` with `SET_IFUSE_DESC_INDEX`, if one was stored. -/
structure OperResult where
  status : Int
  preload : PreloadState
  calls : List Call
  fh : Option Int

/-- Modelled from the spec: `isFilePreloading`, the name under which
`iFuseOper.c` asks whether a path has a preload in flight; its declaration
(`iFuseLib.Preload.h`) is not among the sources.  It is `isPreloading`. -/
def isFilePreloading (c : Ctx) (s : PreloadState) (path : String) : Int := isPreloading c s path

/-- Modelled from the spec: `isPreloadedFile`, the name under which
`iFuseOper.c` asks whether a path has a completed cache.  It is `isPreloaded`. -/
def isPreloadedFile (c : Ctx) (s : PreloadState) (path : String) : Int := isPreloaded c s path

/-- Modelled from the spec: `invalidatePreloadedFile`, the name under which
`iFuseOper.c` drops the cache of a path.  It is `invalidatePreloadedCache`. -/
def invalidatePreloadedFile (c : Ctx) (s : PreloadState) (path : String) : Int × PreloadState :=
  invalidatePreloadedCache c s path

/-- Modelled from the spec: `renamePreloadedFile`, the name under which
`iFuseOper.c` renames the cache of a path.  It is `renamePreloadedCache`. -/
def renamePreloadedFile (c : Ctx) (s : PreloadState) (fromPath toPath : String) :
    Int × PreloadState :=
  renamePreloadedCache c s fromPath toPath

/-- Modelled from the spec: `truncatePreloadedFile`, the name under which
`iFuseOper.c` truncates the cache of a path.  It is `truncatePreloadedCache`. -/
def truncatePreloadedFile (c : Ctx) (s : PreloadState) (path : String) (size : Int)
    (now : Int) : Int × PreloadState :=
  truncatePreloadedCache c s path size now

/-- The `struct stat` after `memset (stbuf, 0, sizeof (struct stat))`. -/
def zeroStat : struct_stat := { st_isdir := false, st_size := 0, st_atime := 0, st_mtime := 0 }

/-- Modelled from the spec: `fillDirStat` of `iFuseLib`: a directory of size
`DIR_SZ` with the given times. -/
def fillDirStat (env : OperEnv) (_ctime mtime atime : Int) : struct_stat :=
  { st_isdir := true, st_size := env.DIR_SZ, st_atime := atime, st_mtime := mtime }

/-- Modelled from the spec: `fillFileStat` of `iFuseLib`: a regular file of the
given size and times. -/
def fillFileStat (size : Int) (_ctime mtime atime : Int) : struct_stat :=
  { st_isdir := false, st_size := size, st_atime := atime, st_mtime := mtime }

/-- A remote call issued once and, when its status is a read-message error,
once more after `ifuseReconnect`: the final status and the calls made.  This is
the macro `RECONNECT_IF_NECESSARY`. -/
def RECONNECT_IF_NECESSARY (env : OperEnv) (r : Remote) : Int × List Call :=
  if env.isReadMsgError (env.reply r 0) then
    (env.reply r 1, [.remote r, .ifuseReconnect, .remote r])
  else (env.reply r 0, [.remote r])

/-- The inline form of the retry in `_irodsGetattr`, `irodsMknod`, `irodsUnlink`
and `irodsRename`: a second call is made, after `ifuseReconnect`, when the
first status is negative and a read-message error.  The final status, the
calls made, and how many times the call was issued. -/
def retryIfNegative (env : OperEnv) (r : Remote) (k : Nat) : Int × List Call × Nat :=
  if env.reply r k < 0 ∧ env.isReadMsgError (env.reply r k) = true then
    (env.reply r (k + 1), [.remote r, .ifuseReconnect, .remote r], 2)
  else (env.reply r k, [.remote r], 1)

/-- The tail of `_irodsGetattr`, after a successful `rcObjStat`. -/
def _irodsGetattr_fill (env : OperEnv) (out : rodsObjStat_t) (calls : List Call) :
    Int × struct_stat × List Call :=
  match out.objType with
  | .COLL_OBJ_T => (0, fillDirStat env out.createTime out.modifyTime out.modifyTime, calls)
  | .UNKNOWN_OBJ_T => (-ENOENT, zeroStat, calls)
  | .DATA_OBJ_T =>
    (0, fillFileStat out.objSize out.createTime out.modifyTime out.modifyTime, calls)

/-- The function `_irodsGetattr`: status, the attributes written to `stbuf`
(which is zeroed first), and the calls made.  `parseRodsPathStr` is given
`path + 1`. -/
def _irodsGetattr (env : OperEnv) (path : String) : Int × struct_stat × List Call :=
  if env.parseRodsPathStr (path.drop 1) < 0 then (-ENOTDIR, zeroStat, [])
  else
    let r := retryIfNegative env .rcObjStat 0
    if r.1 < 0 then (-ENOENT, zeroStat, r.2.1)
    else _irodsGetattr_fill env (env.rodsObjStatOut (r.2.2 - 1)) r.2.1

/-- The remote part of `irodsGetattr`: `_irodsGetattr` and the update of the
attribute cache; `pre` are the calls made before. -/
def irodsGetattr_remote (env : OperEnv) (path : String) (pre : List Call) :
    Int × struct_stat × List Call :=
  let g := _irodsGetattr env path
  if g.1 = -ENOENT then (g.1, g.2.1, pre ++ g.2.2 ++ [.pathNotExist path])
  else (g.1, g.2.1, pre ++ g.2.2 ++ [.pathExist path])

/-- The function `irodsGetattr`: status, the attributes written to `stbuf`,
and the calls made. -/
def irodsGetattr (env : OperEnv) (path : String) : Int × struct_stat × List Call :=
  match env.matchAndLockPathCache path with
  | some tmpPathCache =>
    match tmpPathCache.fileCache with
    | some fileCache =>
      if fileCache.state = .HAVE_NEWLY_CREATED_CACHE then
        let u := env._updatePathCacheStatFromFileCache path
        if u.1 < 0 then
          irodsGetattr_remote env path
            [._updatePathCacheStatFromFileCache path, .clearPathFromCache path]
        else (0, u.2, [._updatePathCacheStatFromFileCache path])
      else irodsGetattr_remote env path []
    | none => irodsGetattr_remote env path []
  | none => irodsGetattr_remote env path []

/-- The hook at the end of `irodsMknod`, `irodsUnlink` and `irodsRmdir`: the
preloaded cache of the path is removed. -/
def removePreloadedCache (c : Ctx) (s : PreloadState) (path : String) : PreloadState :=
  if isPreloadEnabled c = 0 ∧ isPreloadedFile c s path ≥ 0 then
    (invalidatePreloadedFile c s path).2
  else s

/-- The tail of `irodsMknod`, from `addFileCache` on; `calls` are the calls
made before. -/
def irodsMknod_finish (env : OperEnv) (c : Ctx) (s : PreloadState) (path : String)
    (calls : List Call) : OperResult :=
  let calls1 := calls ++ [.addFileCache path .HAVE_NEWLY_CREATED_CACHE, .pathExist path]
  let s1 := removePreloadedCache c s path
  if env.isLazyUploadEnabled = 0 then
    { status := 0, preload := s1, calls := calls1 ++ [.mknodLazyUploadBufferedFile path],
      fh := none }
  else { status := 0, preload := s1, calls := calls1, fh := none }

/-- The function `irodsMknod`. -/
def irodsMknod (env : OperEnv) (c : Ctx) (s : PreloadState) (path : String) (_mode : Nat) :
    OperResult :=
  if env.isLazyUploadEnabled = 0 ∧ env.isFileLazyUploading path ≥ 0 then
    { status := -EBUSY, preload := s, calls := [], fh := none }
  else if isPreloadEnabled c = 0 ∧ isFilePreloading c s path ≥ 0 then
    { status := -EBUSY, preload := s, calls := [], fh := none }
  else
    let g := irodsGetattr env path
    if g.1 ≥ 0 then { status := -EEXIST, preload := s, calls := g.2.2, fh := none }
    else
      let calls1 := g.2.2 ++ [.irodsMknodWithCache path]
      if env.parseRodsPathStr (path.drop 1) < 0 then
        { status := -ENOTDIR, preload := s, calls := calls1, fh := none }
      else if env.getAndUseIFuseConn < 0 then
        let r := retryIfNegative env .dataObjCreateByFusePath 0
        if r.1 < 0 then { status := -ENOENT, preload := s, calls := calls1 ++ r.2.1, fh := none }
        else irodsMknod_finish env c s path (calls1 ++ r.2.1)
      else irodsMknod_finish env c s path calls1

/-- The function `irodsUnlink`. -/
def irodsUnlink (env : OperEnv) (c : Ctx) (s : PreloadState) (path : String) : OperResult :=
  if env.isLazyUploadEnabled = 0 ∧ env.isFileLazyUploading path ≥ 0 then
    { status := -EBUSY, preload := s, calls := [], fh := none }
  else if isPreloadEnabled c = 0 ∧ isFilePreloading c s path ≥ 0 then
    { status := -EBUSY, preload := s, calls := [], fh := none }
  else if env.parseRodsPathStr (path.drop 1) < 0 then
    { status := -ENOTDIR, preload := s, calls := [], fh := none }
  else
    let first := env.reply .rcDataObjUnlink 0
    if first ≥ 0 then
      { status := 0, preload := removePreloadedCache c s path,
        calls := [.remote .rcDataObjUnlink, .pathNotExist path], fh := none }
    else if env.isReadMsgError first then
      let second := env.reply .rcDataObjUnlink 1
      { status := if second < 0 then -ENOENT else second
        preload := removePreloadedCache c s path
        calls := [.remote .rcDataObjUnlink, .ifuseReconnect, .remote .rcDataObjUnlink]
        fh := none }
    else
      { status := -ENOENT, preload := removePreloadedCache c s path,
        calls := [.remote .rcDataObjUnlink], fh := none }

/-- The part of `irodsRename` between the first `rcDataObjRename` and the
preload hook: the status it leaves and the calls made. -/
def irodsRename_remote (env : OperEnv) (fromPath toPath : String) : Int × List Call :=
  let first := env.reply .rcDataObjRename 0
  let exists_ : Bool :=
    decide (first = env.CAT_NAME_EXISTS_AS_DATAOBJ) ||
      decide (first = env.SYS_DEST_SPEC_COLL_SUB_EXIST)
  let status := if exists_ then env.reply .rcDataObjRename 1 else first
  let calls : List Call :=
    if exists_ then [.remote .rcDataObjRename, .remote .rcDataObjUnlink, .remote .rcDataObjRename]
    else [.remote .rcDataObjRename]
  let k : Nat := if exists_ then 2 else 1
  if status ≥ 0 then
    (env.renmeLocalPath fromPath toPath, calls ++ [.renmeLocalPath fromPath toPath])
  else if env.isReadMsgError status then
    let again := env.reply .rcDataObjRename k
    (if again < 0 then -ENOENT else again,
      calls ++ [.ifuseReconnect, .remote .rcDataObjRename])
  else (-ENOENT, calls)

/-- The function `irodsRename`. -/
def irodsRename (env : OperEnv) (c : Ctx) (s : PreloadState) (fromPath toPath : String) :
    OperResult :=
  if env.isLazyUploadEnabled = 0 ∧
      (env.isFileLazyUploading fromPath ≥ 0 ∨ env.isFileLazyUploading toPath ≥ 0) then
    { status := -EBUSY, preload := s, calls := [], fh := none }
  else if isPreloadEnabled c = 0 ∧
      (isFilePreloading c s fromPath ≥ 0 ∨ isFilePreloading c s toPath ≥ 0) then
    { status := -EBUSY, preload := s, calls := [], fh := none }
  else if env.parseRodsPathStr (fromPath.drop 1) < 0 then
    { status := -ENOTDIR, preload := s, calls := [], fh := none }
  else if env.parseRodsPathStr (toPath.drop 1) < 0 then
    { status := -ENOTDIR, preload := s, calls := [], fh := none }
  else
    let r := irodsRename_remote env fromPath toPath
    if isPreloadEnabled c = 0 ∧ isPreloadedFile c s fromPath ≥ 0 then
      let p := renamePreloadedFile c s fromPath toPath
      { status := p.1, preload := p.2, calls := r.2, fh := none }
    else { status := r.1, preload := s, calls := r.2, fh := none }

/-- The function `irodsChmod`; `none` when no entry of the attribute cache
matches the path: the source then reads through the pointer
`matchAndLockPathCache` did not set to an entry. -/
def irodsChmod (env : OperEnv) (c : Ctx) (s : PreloadState) (path : String) (mode : Nat) :
    Option OperResult :=
  if env.isLazyUploadEnabled = 0 ∧ env.isFileLazyUploading path ≥ 0 then
    some { status := -EBUSY, preload := s, calls := [], fh := none }
  else if isPreloadEnabled c = 0 ∧ isFilePreloading c s path ≥ 0 then
    some { status := -EBUSY, preload := s, calls := [], fh := none }
  else
    match env.matchAndLockPathCache path with
    | none => none
    | some tmpPathCache =>
      if (tmpPathCache.fileCache.map (fun fc => fc.state)) = some .HAVE_NEWLY_CREATED_CACHE then
        some { status := 0, preload := s, calls := [.setFileCacheMode path mode], fh := none }
      else if tmpPathCache.st_nlink ≠ 1 then
        some { status := 0, preload := s, calls := [], fh := none }
      else if env.parseRodsPathStr (path.drop 1) < 0 then
        some { status := -ENOTDIR, preload := s, calls := [], fh := none }
      else
        let r := RECONNECT_IF_NECESSARY env .rcModDataObjMeta
        if r.1 ≥ 0 then
          some { status := 0, preload := s, calls := r.2 ++ [.setCachedMode path mode],
                 fh := none }
        else some { status := -ENOENT, preload := s, calls := r.2, fh := none }

/-- The function `irodsTruncate`; `now` is the time of the call.  `none` when
no entry of the attribute cache matches the path: the source then unlocks
through the pointer `matchAndLockPathCache` did not set to an entry. -/
def irodsTruncate (env : OperEnv) (c : Ctx) (s : PreloadState) (path : String) (size : Int)
    (now : Int) : Option OperResult :=
  if env.isLazyUploadEnabled = 0 ∧ env.isFileLazyUploading path ≥ 0 then
    some { status := -EBUSY, preload := s, calls := [], fh := none }
  else if isPreloadEnabled c = 0 ∧ isFilePreloading c s path ≥ 0 then
    some { status := -EBUSY, preload := s, calls := [], fh := none }
  else
    match env.matchAndLockPathCache path with
    | none => none
    | some tmpPathCache =>
      let newlyCreated : Option fileCache_t :=
        tmpPathCache.fileCache.filter (fun fc => fc.state = .HAVE_NEWLY_CREATED_CACHE)
      let pre : List Call :=
        match newlyCreated with
        | some fc => [.truncateLocal fc.fileCachePath size]
        | none => []
      match newlyCreated.filter (fun fc => env.localTruncate fc.fileCachePath size ≥ 0) with
      | some _ =>
        some
          { status := 0
            preload :=
              if isPreloadEnabled c = 0 ∧ isPreloadedFile c s path ≥ 0 then
                (truncatePreloadedFile c s path size now).2
              else s
            calls := pre ++ [._updatePathCacheStatFromFileCache path]
            fh := none }
      | none =>
        if env.parseRodsPathStr (path.drop 1) < 0 then
          some { status := -ENOTDIR, preload := s, calls := pre, fh := none }
        else
          let r := RECONNECT_IF_NECESSARY env .rcDataObjTruncate
          let status : Int := if r.1 ≥ 0 then 0 else -ENOENT
          let calls : List Call :=
            if r.1 ≥ 0 then pre ++ r.2 ++ [.setCachedSize path size] else pre ++ r.2
          if isPreloadEnabled c = 0 ∧ isPreloadedFile c s path ≥ 0 then
            let p := truncatePreloadedFile c s path size now
            some { status := p.1, preload := p.2, calls := calls, fh := none }
          else some { status := status, preload := s, calls := calls, fh := none }

/-- The hook of `irodsOpen` where the preload engine is told of the open: an
open for writing invalidates the preloaded cache of the path (and, when it is
write-only, opens the lazy upload buffer); an open for reading of an object
larger than `MAX_READ_CACHE_SIZE` asks for a preload.  `preload` stands for
the call `preloadFile (path, &stbuf)`: it gives the status returned and the
state left.  The result is the state of the preload engine and the calls
made. -/
def irodsOpen_hook (env : OperEnv) (c : Ctx)
    (preload : PreloadState → String → struct_stat → Int × PreloadState)
    (s : PreloadState) (path : String) (flags : Nat) (stbuf : struct_stat) :
    PreloadState × List Call :=
  if Nat.land flags O_ACCMODE = O_WRONLY ∨ Nat.land flags O_ACCMODE = O_RDWR then
    let s1 :=
      if isPreloadEnabled c = 0 ∧ isPreloadedFile c s path ≥ 0 then
        (invalidatePreloadedFile c s path).2
      else s
    if Nat.land flags O_ACCMODE = O_WRONLY ∧ env.isLazyUploadEnabled = 0 then
      (s1, [.openLazyUploadBufferedFile path])
    else (s1, [])
  else if Nat.land flags O_ACCMODE = O_RDONLY ∧ stbuf.st_size > env.MAX_READ_CACHE_SIZE then
    if isPreloadEnabled c = 0 then ((preload s path stbuf).2, []) else (s, [])
  else (s, [])

/-- The function `irodsOpen` with the call of `preloadFile` as a parameter
(`preload`, see `irodsOpen_hook`); `stbuf0` is what the local variable `stbuf`
holds before anything is written to it. -/
def irodsOpenWith (env : OperEnv) (c : Ctx)
    (preload : PreloadState → String → struct_stat → Int × PreloadState)
    (s : PreloadState) (path : String) (flags : Nat) (stbuf0 : struct_stat) : OperResult :=
  if env.isLazyUploadEnabled = 0 ∧ env.isFileLazyUploading path ≥ 0 then
    { status := -EBUSY, preload := s, calls := [], fh := none }
  else if isPreloadEnabled c = 0 ∧
      (Nat.land flags O_ACCMODE = O_WRONLY ∨ Nat.land flags O_ACCMODE = O_RDWR) ∧
      isFilePreloading c s path ≥ 0 then
    { status := -EBUSY, preload := s, calls := [], fh := none }
  else
    match (env.matchAndLockPathCache path).bind (fun pc => pc.fileCache) |>.filter
        (fun fc => fc.state ≠ .NO_FILE_CACHE) with
    | some fileCache =>
      if env.newIFuseDesc < 0 then
        { status := env.newIFuseDesc, preload := s, calls := [.newIFuseDesc path], fh := none }
      else
        let calls1 : List Call :=
          if fileCache.iFd = 0 then [.newIFuseDesc path, .openLocal fileCache.fileCachePath]
          else [.newIFuseDesc path]
        let h := irodsOpen_hook env c preload s path flags stbuf0
        { status := 0, preload := h.1, calls := calls1 ++ h.2, fh := some env.newIFuseDesc }
    | none =>
      if env.parseRodsPathStr (path.drop 1) < 0 then
        { status := -ENOTDIR, preload := s, calls := [], fh := none }
      else if env.getAndUseConnByPath path < 0 then
        { status := -ENOTDIR, preload := s, calls := [], fh := none }
      else
        let g := _irodsGetattr env path
        let stbuf := g.2.1
        let h := irodsOpen_hook env c preload s path flags stbuf
        let calls1 := g.2.2 ++ h.2
        let attach : Call :=
          match env.matchAndLockPathCache path with
          | none => .pathExist path
          | some _ => ._addFileCacheForPath path
        if Nat.land flags (Nat.lor O_WRONLY O_RDWR) ≠ 0 ∨ g.1 < 0 ∨
            stbuf.st_size > env.MAX_READ_CACHE_SIZE then
          let fd := env.reply .rcDataObjOpen 0
          if fd < 0 then
            { status := -ENOENT, preload := h.1, calls := calls1 ++ [.remote .rcDataObjOpen],
              fh := none }
          else
            let calls2 :=
              calls1 ++ [.remote .rcDataObjOpen, .addFileCache path .NO_FILE_CACHE, attach,
                .newIFuseDesc path]
            if env.newIFuseDesc < 0 then
              { status := -ENOENT, preload := h.1, calls := calls2, fh := none }
            else { status := 0, preload := h.1, calls := calls2, fh := some env.newIFuseDesc }
        else if env.getFileCachePath path < 0 then
          { status := env.getFileCachePath path, preload := h.1, calls := calls1, fh := none }
        else
          let status := env.reply .rcDataObjGet 0
          if status < 0 then
            { status := status, preload := h.1, calls := calls1 ++ [.remote .rcDataObjGet],
              fh := none }
          else
            let calls2 :=
              calls1 ++ [.remote .rcDataObjGet, .openLocal path,
                .addFileCache path .HAVE_READ_CACHE, attach, .newIFuseDesc path]
            if env.newIFuseDesc < 0 then
              { status := env.newIFuseDesc, preload := h.1, calls := calls2, fh := none }
            else { status := 0, preload := h.1, calls := calls2, fh := some env.newIFuseDesc }

/-- The function `irodsOpen`; `pthread_create` is the status of the thread
creation if `preloadFile` reaches it. -/
def irodsOpen (env : OperEnv) (c : Ctx) (s : PreloadState) (path : String) (flags : Nat)
    (stbuf0 : struct_stat) (pthread_create : Int) : OperResult :=
  irodsOpenWith env c
    (fun s1 p stbuf =>
      ((preloadFile c s1 p stbuf pthread_create).status,
        (preloadFile c s1 p stbuf pthread_create).state))
    s path flags stbuf0

/-- The function `readPreloadedFile`: `lseek` to the offset, then `read`. -/
def readPreloadedFile (env : OperEnv) (fileDesc : Int) (size offset : Int) : Int :=
  if env.lseek fileDesc offset ≠ offset then env.lseek fileDesc offset
  else env.read fileDesc size

/-- The function `irodsRead`; `fh` is the descriptor index carried in `fi`, and
`fd` what `open` returns if `openPreloadedFile` calls it. -/
def irodsRead (env : OperEnv) (c : Ctx) (s : PreloadState) (path : String) (size offset : Int)
    (fh : Int) (fd : Int) : OperResult :=
  let o : OpenResult :=
    if isPreloadEnabled c = 0 then openPreloadedFile c s path fd
    else { desc := -1, state := s, opened := none }
  if isPreloadEnabled c = 0 ∧ o.desc > 0 then
    { status := readPreloadedFile env o.desc size offset, preload := o.state,
      calls := [.readPreloadedFile o.desc], fh := none }
  else if env.checkFuseDesc fh < 0 then
    { status := -EBADF, preload := o.state, calls := [], fh := none }
  else
    { status := env._ifuseRead fh size offset, preload := o.state, calls := [._ifuseRead fh],
      fh := none }

/-- Whether a call is a remote call or a reconnect. -/
def Call.isRemote : Call → Bool
  | .remote _ => true
  | .ifuseReconnect => true
  | _ => false

/-- The remote calls and the reconnects among the calls of an operation, in
order. -/
def remoteTrace (calls : List Call) : List Call := calls.filter Call.isRemote

/-- The remote call `r` is issued at most twice among `calls`, the second time
only when the first status was a read-message error and after one reconnect,
and no other remote call is made. -/
def RetriedOnce (env : OperEnv) (r : Remote) (calls : List Call) : Prop :=
  remoteTrace calls = [] ∨ remoteTrace calls = [.remote r] ∨
    (remoteTrace calls = [.remote r, .ifuseReconnect, .remote r] ∧
      env.isReadMsgError (env.reply r 0) = true)

/-- Whether the last component of a path ends with the in-download suffix. -/
def endsWithExt (c : Ctx) (p : Path) : Prop :=
  ∃ n, p.getLast? = some n ∧ List.IsSuffix c.PRELOAD_FILES_IN_DOWNLOADING_EXT.data n.data

/-- A cache in which the work file `a.part` of a download in flight has the
oldest access time, next to the completed cache file `b`. -/
def exWorkFs : Tree :=
  .dir "cache" rootStat
    (.file "a.part" { st_size := 3145728, st_atime := 100, st_mtime := 100, data := 4 }
      (.file "b" { st_size := 6291456, st_atime := 200, st_mtime := 90, data := 5 } .nil))
    .nil

/-- The regular files of the tree under the directory at `root`, with the
`struct stat` of each, in the order `_findOldestCache` meets them; `[]` when
`root` is not a directory. -/
def filesUnder (fs : Tree) (root : Path) : List (Path × struct_stat) :=
  match fs.lookup root with
  | some (.dir _ sub) => (sub.files root).map statOf
  | _ => []

/-- The preload part of `irodsRelease`: the record of the open cache file is
destroyed by `closePreloadedFile` when preloading is configured and
`isPreloadedFile` finds a cache file for the path. -/
def irodsRelease_hook (c : Ctx) (s : PreloadState) (path : String) : PreloadState :=
  if isPreloadEnabled c = 0 ∧ isPreloadedFile c s path ≥ 0 then
    (closePreloadedFile c s path).state
  else s

/-! ## Example states of the interface and of the operations -/

/-- An environment in which every call of the rest of the client succeeds: lazy
upload is off, every path has an entry in the attribute cache without a file
cache, the remote object is a 6 MB data object, and descriptor 3 is the only
valid one. -/
def exOperEnv : OperEnv :=
  { isLazyUploadEnabled := -1
    isFileLazyUploading := fun _ => -1
    openLazyUploadBufferedFile := fun _ => -1
    mknodLazyUploadBufferedFile := fun _ => -1
    parseRodsPathStr := fun _ => 0
    getAndUseIFuseConn := 0
    getAndUseConnByPath := fun _ => 0
    getFileCachePath := fun _ => 0
    reply := fun _ _ => 0
    rodsObjStatOut := fun _ =>
      { objType := .DATA_OBJ_T, objSize := 6291456, createTime := 100, modifyTime := 100 }
    isReadMsgError := fun _ => false
    matchAndLockPathCache := fun _ =>
      some { stbuf := exStat6 100, st_nlink := 1, fileCache := none }
    _updatePathCacheStatFromFileCache := fun _ => (0, exStat6 100)
    renmeLocalPath := fun _ _ => 0
    newIFuseDesc := 3
    irodsMknodWithCache := 4
    checkFuseDesc := fun i => if i = 3 then 0 else -1
    _ifuseRead := fun _ size _ => size
    localTruncate := fun _ _ => 0
    lseek := fun _ offset => offset
    read := fun _ size => size
    MAX_READ_CACHE_SIZE := 1048576
    DIR_SZ := 4096
    CAT_NAME_EXISTS_AS_DATAOBJ := -809000
    SYS_DEST_SPEC_COLL_SUB_EXIST := -165000 }

/-- The environment `exOperEnv` with a remote service that answers every call
with the status `-1`, which is not a read-message error. -/
def exFailEnv : OperEnv := { exOperEnv with reply := fun _ _ => -1 }

/-- The state right after the 6 MB object `/tempZone/a` was admitted: its
download is in flight. -/
def exBusy : PreloadState := run exCtx (initState exFs) [.request "/tempZone/a" (exStat6 100) 0]

/-- The state `exCached` after a read of `/tempZone/a` opened its cache file
with descriptor 5. -/
def exOpened : PreloadState := (openPreloadedFile exCtx exCached "/tempZone/a" 5).state

/-- The state `exOpened` after the cache of `/tempZone/a` was invalidated. -/
def exInvalidated : PreloadState := (invalidatePreloadedCache exCtx exOpened "/tempZone/a").2

/-- The state `exInvalidated` after `/tempZone/a`, changed on the server, was
downloaded again and its new cache file published. -/
def exRefreshed : PreloadState :=
  run exCtx exInvalidated
    [.request "/tempZone/a" (exStat6 200) 0, .connect 0 (exEnv 2 600), .transfer 0 (exEnv 2 600),
     .publish 0 601, .finish 0]

/-- The state `exInvalidated` after `/tempZone/a`, changed on the server, was
admitted again and its download has written half of the work file. -/
def exStale : PreloadState :=
  run exCtx exInvalidated
    [.request "/tempZone/a" (exStat6 200) 0, .connect 0 (exEnv 2 600), .progress 0 exPartial]

/-- The state in which the first download of `/tempZone/a` has written half of
its work file. -/
def exDownloading : PreloadState :=
  run exCtx (initState exFs)
    [.request "/tempZone/a" (exStat6 100) 0, .connect 0 (exEnv 1 500), .progress 0 exPartial]

/-- A run of `_download` in which `getUtil` fails after it has written half of
the object to its destination. -/
def exInterrupted : DownloadEnv :=
  { exEnv 1 500 with getUtil := -1, fetched := some exPartial }

/-- The environment `exOperEnv` in which every path has a file cache in state
`HAVE_READ_CACHE` attached to its entry of the attribute cache. -/
def exReadCacheEnv : OperEnv :=
  { exOperEnv with
    matchAndLockPathCache := fun _ =>
      some { stbuf := exStat6 100, st_nlink := 1,
             fileCache := some { fileCachePath := "/tmp/fuseCache.1", objPath := "/tempZone/a",
                                 state := .HAVE_READ_CACHE, iFd := 7 } } }

/-- What an uninitialised `struct stat` on the stack may hold: a size of 7 MB
and times that belong to no object. -/
def exGarbage : struct_stat :=
  { st_isdir := false, st_size := 7340032, st_atime := -1, st_mtime := 140737488355328 }

/-- The environment `exOperEnv` in which every path has a newly created file
cache and `truncate` of a local backing file returns `localTruncate`. -/
def exNewEnv (localTruncate : Int) : OperEnv :=
  { exOperEnv with
    localTruncate := fun _ _ => localTruncate
    matchAndLockPathCache := fun _ =>
      some { stbuf := exStatSmall, st_nlink := 1,
             fileCache := some { fileCachePath := "/tmp/fuseCache.2", objPath := "/tempZone/n",
                                 state := .HAVE_NEWLY_CREATED_CACHE, iFd := 8 } } }

theorem find_cons (n m : String) (nd : Node) (rest : Tree) :
    (Tree.cons n nd rest).find m = if n = m then some nd else rest.find m := by
  cases nd <;> simp [Tree.cons, Tree.find]

theorem find_alterEntry_ne (n m : String) (f : Option Node → Option Node) (t : Tree)
    (h : m ≠ n) : (t.alterEntry n f).find m = t.find m := by
  induction t with
  | nil =>
    simp only [Tree.alterEntry]
    cases hf : f none with
    | none => rfl
    | some nd => simp [find_cons, Tree.find, Ne.symm h]
  | file k i rest ih =>
    simp only [Tree.alterEntry]
    by_cases hk : k = n
    · subst hk
      simp only [if_true]
      cases hf : f (some (.file i)) with
      | none => simp [Tree.find, Ne.symm h]
      | some nd => simp [find_cons, Tree.find, Ne.symm h]
    · simp [hk, Tree.find, ih]
  | dir k d sub rest _ ih =>
    simp only [Tree.alterEntry]
    by_cases hk : k = n
    · subst hk
      simp only [if_true]
      cases hf : f (some (.dir d sub)) with
      | none => simp [Tree.find, Ne.symm h]
      | some nd => simp [find_cons, Tree.find, Ne.symm h]
    · simp [hk, Tree.find, ih]

theorem find_alterEntry_some (n : String) (f : Option Node → Option Node) (t : Tree)
    (nd : Node) (h : f (t.find n) = some nd) : (t.alterEntry n f).find n = some nd := by
  induction t with
  | nil =>
    simp only [Tree.find] at h
    simp [Tree.alterEntry, h, find_cons]
  | file k i rest ih =>
    by_cases hk : k = n
    · subst hk
      simp only [Tree.find, if_true] at h
      simp [Tree.alterEntry, h, find_cons]
    · simp only [Tree.find, hk, if_false] at h
      simp [Tree.alterEntry, hk, Tree.find, ih h]
  | dir k d sub rest _ ih =>
    by_cases hk : k = n
    · subst hk
      simp only [Tree.find, if_true] at h
      simp [Tree.alterEntry, h, find_cons]
    · simp only [Tree.find, hk, if_false] at h
      simp [Tree.alterEntry, hk, Tree.find, ih h]

theorem find_alterEntry_none (n : String) (f : Option Node → Option Node) (t : Tree)
    (hwf : t.wf = true) (h : f (t.find n) = none) : (t.alterEntry n f).find n = none := by
  induction t with
  | nil =>
    simp only [Tree.find] at h
    simp [Tree.alterEntry, h, Tree.find]
  | file k i rest ih =>
    simp only [Tree.wf, Bool.and_eq_true, Option.isNone_iff_eq_none] at hwf
    by_cases hk : k = n
    · subst hk
      simp only [Tree.find, if_true] at h
      simp [Tree.alterEntry, h, hwf.1]
    · simp only [Tree.find, hk, if_false] at h
      simp [Tree.alterEntry, hk, Tree.find, ih hwf.2 h]
  | dir k d sub rest _ ih =>
    simp only [Tree.wf, Bool.and_eq_true, Option.isNone_iff_eq_none] at hwf
    by_cases hk : k = n
    · subst hk
      simp only [Tree.find, if_true] at h
      simp [Tree.alterEntry, h, hwf.1.1]
    · simp only [Tree.find, hk, if_false] at h
      simp [Tree.alterEntry, hk, Tree.find, ih hwf.2 h]

theorem wf_cons (n : String) (nd : Node) (rest : Tree) :
    (Tree.cons n nd rest).wf = ((rest.find n).isNone && nd.wf && rest.wf) := by
  cases nd <;> simp [Tree.cons, Tree.wf, Node.wf]

theorem wf_alterEntry (n : String) (f : Option Node → Option Node) (t : Tree)
    (hwf : t.wf = true) (hf : ∀ nd, f (t.find n) = some nd → nd.wf = true) :
    (t.alterEntry n f).wf = true := by
  induction t with
  | nil =>
    simp only [Tree.find] at hf
    simp only [Tree.alterEntry]
    cases h : f none with
    | none => rfl
    | some nd => simp [wf_cons, Tree.find, Tree.wf, hf nd h]
  | file k i rest ih =>
    simp only [Tree.wf, Bool.and_eq_true, Option.isNone_iff_eq_none] at hwf
    by_cases hk : k = n
    · subst hk
      simp only [Tree.find, if_true] at hf
      simp only [Tree.alterEntry, if_true]
      cases h : f (some (.file i)) with
      | none => exact hwf.2
      | some nd => simp [wf_cons, hwf.1, hwf.2, hf nd h]
    · simp only [Tree.find, hk, if_false] at hf
      simp [Tree.alterEntry, hk, Tree.wf, find_alterEntry_ne n k f rest hk, hwf.1, ih hwf.2 hf]
  | dir k d sub rest _ ih =>
    simp only [Tree.wf, Bool.and_eq_true, Option.isNone_iff_eq_none] at hwf
    by_cases hk : k = n
    · subst hk
      simp only [Tree.find, if_true] at hf
      simp only [Tree.alterEntry, if_true]
      cases h : f (some (.dir d sub)) with
      | none => exact hwf.2
      | some nd => simp [wf_cons, hwf.1.1, hwf.2, hf nd h]
    · simp only [Tree.find, hk, if_false] at hf
      simp [Tree.alterEntry, hk, Tree.wf, find_alterEntry_ne n k f rest hk, hwf.1.1, hwf.1.2,
        ih hwf.2 hf]

theorem numFiles_cons (n : String) (nd : Node) (rest : Tree) :
    (Tree.cons n nd rest).numFiles = Node.numFiles (some nd) + rest.numFiles := by
  cases nd <;> simp [Tree.cons, Tree.numFiles, Node.numFiles]

theorem totalSize_cons (n : String) (nd : Node) (rest : Tree) :
    (Tree.cons n nd rest).totalSize = Node.totalSize (some nd) + rest.totalSize := by
  cases nd <;> simp [Tree.cons, Tree.totalSize, Node.totalSize]

theorem numFiles_alterEntry (n : String) (f : Option Node → Option Node) (t : Tree) :
    (t.alterEntry n f).numFiles + Node.numFiles (t.find n) =
      t.numFiles + Node.numFiles (f (t.find n)) := by
  induction t with
  | nil =>
    simp only [Tree.alterEntry, Tree.find]
    cases h : f none with
    | none => simp [Node.numFiles, Tree.numFiles]
    | some nd => simp [numFiles_cons, Tree.numFiles, Node.numFiles]
  | file k i rest ih =>
    by_cases hk : k = n
    · subst hk
      simp only [Tree.alterEntry, Tree.find, if_true]
      cases h : f (some (.file i)) with
      | none => simp [Node.numFiles, Tree.numFiles]; omega
      | some nd => simp [numFiles_cons, Tree.numFiles, Node.numFiles]; omega
    · simp only [Tree.alterEntry, Tree.find, hk, if_false, Tree.numFiles]
      omega
  | dir k d sub rest _ ih =>
    by_cases hk : k = n
    · subst hk
      simp only [Tree.alterEntry, Tree.find, if_true]
      cases h : f (some (.dir d sub)) with
      | none => simp [Node.numFiles, Tree.numFiles]; omega
      | some nd => simp [numFiles_cons, Tree.numFiles, Node.numFiles]; omega
    · simp only [Tree.alterEntry, Tree.find, hk, if_false, Tree.numFiles]
      omega

theorem totalSize_alterEntry (n : String) (f : Option Node → Option Node) (t : Tree) :
    (t.alterEntry n f).totalSize + Node.totalSize (t.find n) =
      t.totalSize + Node.totalSize (f (t.find n)) := by
  induction t with
  | nil =>
    simp only [Tree.alterEntry, Tree.find]
    cases h : f none with
    | none => simp [Node.totalSize, Tree.totalSize]
    | some nd => simp [totalSize_cons, Tree.totalSize, Node.totalSize]
  | file k i rest ih =>
    by_cases hk : k = n
    · subst hk
      simp only [Tree.alterEntry, Tree.find, if_true]
      cases h : f (some (.file i)) with
      | none => simp [Node.totalSize, Tree.totalSize]; omega
      | some nd => simp [totalSize_cons, Tree.totalSize, Node.totalSize]; omega
    · simp only [Tree.alterEntry, Tree.find, hk, if_false, Tree.totalSize]
      omega
  | dir k d sub rest _ ih =>
    by_cases hk : k = n
    · subst hk
      simp only [Tree.alterEntry, Tree.find, if_true]
      cases h : f (some (.dir d sub)) with
      | none => simp [Node.totalSize, Tree.totalSize]; omega
      | some nd => simp [totalSize_cons, Tree.totalSize, Node.totalSize]; omega
    · simp only [Tree.alterEntry, Tree.find, hk, if_false, Tree.totalSize]
      omega

theorem alter_cons_dir (n : String) (ns : Path) (hns : ns ≠ []) (f : Option Node → Option Node)
    (t : Tree) (d : DirStat) (sub : Tree) (h : t.find n = some (.dir d sub)) :
    Tree.alter (n :: ns) f t =
      (Tree.alter ns f sub).map (fun sub1 => t.alterEntry n (fun _ => some (.dir d sub1))) := by
  cases ns with
  | nil => exact absurd rfl hns
  | cons m ms => rw [Tree.alter]; simp [h]

theorem alter_cons_none (n : String) (ns : Path) (hns : ns ≠ []) (f : Option Node → Option Node)
    (t : Tree) (h : ∀ d sub, t.find n ≠ some (.dir d sub)) :
    Tree.alter (n :: ns) f t = none := by
  cases ns with
  | nil => exact absurd rfl hns
  | cons m ms =>
    rw [Tree.alter]
    split
    · rename_i d sub hd
      exact absurd hd (h d sub)
    · rfl

/-- A file listed in a well-formed listing can be unlinked by its path, and
the listing of files loses exactly that entry. -/
theorem unlink_listed (t : Tree) : ∀ (pre : Path) (p : Path) (i : Inode), t.wf = true →
    (p, i) ∈ t.files pre →
    ∃ rel t1 A B, p = pre ++ rel ∧ rel ≠ [] ∧ (∀ d, Tree.node rel d t = some (.file i)) ∧
      Tree.alter rel (fun _ => none) t = some t1 ∧ t1.wf = true ∧
      t.files pre = A ++ (p, i) :: B ∧ t1.files pre = A ++ B ∧
      t1.numFiles + 1 = t.numFiles ∧ (∀ m, t.find m = none → t1.find m = none) ∧
      (∃ n ns, rel = n :: ns ∧ t.find n ≠ none) := by
  induction t with
  | nil => intro pre p i _ h; simp [Tree.files] at h
  | file k j rest ih =>
    intro pre p i hwf hmem
    simp only [Tree.wf, Bool.and_eq_true, Option.isNone_iff_eq_none] at hwf
    simp only [Tree.files, List.mem_cons] at hmem
    rcases hmem with h | h
    · obtain ⟨rfl, rfl⟩ := Prod.mk.inj h
      refine ⟨[k], rest, [], rest.files pre, rfl, by simp, ?_, ?_, hwf.2, by simp [Tree.files],
        by simp, by simp [Tree.numFiles]; omega, ?_, ⟨k, [], rfl, by simp [Tree.find]⟩⟩
      · intro d; simp [Tree.node, Tree.find]
      · simp [Tree.alter, Tree.alterEntry]
      · intro m hm
        simp only [Tree.find] at hm
        split at hm
        · exact absurd hm (by simp)
        · exact hm
    · obtain ⟨rel, t1, A, B, hp, hrel, hnode, halt, hwf1, hA, hB, hnum, hfind, n, ns, hn, hfn⟩ :=
        ih pre p i hwf.2 h
      have hkn : k ≠ n := by
        intro hkn; subst hkn; exact hfn hwf.1
      refine ⟨rel, .file k j t1, (pre ++ [k], j) :: A, B, hp, hrel, ?_, ?_, ?_, ?_, ?_, ?_, ?_,
        ⟨n, ns, hn, ?_⟩⟩
      · intro d
        have := hnode d
        subst hn
        simpa [Tree.node, Tree.find, hkn] using this
      · subst hn
        cases ns with
        | nil =>
          simp only [Tree.alter, Option.some.injEq] at halt ⊢
          simp [Tree.alterEntry, hkn, halt]
        | cons m ms =>
          cases hf : rest.find n with
          | none => exact absurd hf hfn
          | some nd =>
            cases nd with
            | file i2 =>
              rw [alter_cons_none n (m :: ms) (by simp) _ rest (by simp [hf])] at halt
              exact absurd halt (by simp)
            | dir d sub =>
              rw [alter_cons_dir n (m :: ms) (by simp) _ rest d sub hf] at halt
              rw [alter_cons_dir n (m :: ms) (by simp) _ (.file k j rest) d sub
                (by simp [Tree.find, hkn, hf])]
              cases hs : Tree.alter (m :: ms) (fun _ => none) sub with
              | none => simp [hs] at halt
              | some s1 =>
                simp only [hs, Option.map_some', Option.some.injEq] at halt ⊢
                simp [Tree.alterEntry, hkn, halt]
      · simp only [Tree.wf, Bool.and_eq_true, Option.isNone_iff_eq_none]
        exact ⟨hfind k hwf.1, hwf1⟩
      · simp [Tree.files, hA]
      · simp [Tree.files, hB]
      · simp only [Tree.numFiles]; omega
      · intro m hm
        simp only [Tree.find] at hm ⊢
        split at hm
        · exact absurd hm (by simp)
        · rename_i hkm; simp [hkm, hfind m hm]
      · simp [Tree.find, hkn, hfn]
  | dir k d sub rest ihs ih =>
    intro pre p i hwf hmem
    simp only [Tree.wf, Bool.and_eq_true, Option.isNone_iff_eq_none] at hwf
    simp only [Tree.files, List.mem_append] at hmem
    rcases hmem with h | h
    · obtain ⟨rel, s1, A, B, hp, hrel, hnode, halt, hwf1, hA, hB, hnum, hfind, n, ns, hn, hfn⟩ :=
        ihs (pre ++ [k]) p i hwf.1.2 h
      refine ⟨k :: rel, .dir k d s1 rest, A, B ++ rest.files pre, by simp [hp], by simp, ?_, ?_,
        ?_, ?_, ?_, ?_, ?_, ⟨k, rel, rfl, by simp [Tree.find]⟩⟩
      · intro d0
        simp [Tree.node, Tree.find, hnode d]
      · rw [alter_cons_dir k rel hrel _ (.dir k d sub rest) d sub (by simp [Tree.find]), halt]
        simp [Tree.alterEntry, Tree.cons]
      · simp only [Tree.wf, Bool.and_eq_true, Option.isNone_iff_eq_none]
        exact ⟨⟨hwf.1.1, hwf1⟩, hwf.2⟩
      · simp [Tree.files, hA]
      · simp [Tree.files, hB]
      · simp only [Tree.numFiles]; omega
      · intro m hm
        simp only [Tree.find] at hm ⊢
        split at hm
        · exact absurd hm (by simp)
        · rename_i hkm; simp [hkm, hm]
    · obtain ⟨rel, t1, A, B, hp, hrel, hnode, halt, hwf1, hA, hB, hnum, hfind, n, ns, hn, hfn⟩ :=
        ih pre p i hwf.2 h
      have hkn : k ≠ n := by
        intro hkn; subst hkn; exact hfn hwf.1.1
      refine ⟨rel, .dir k d sub t1, sub.files (pre ++ [k]) ++ A, B, hp, hrel, ?_, ?_, ?_, ?_, ?_,
        ?_, ?_, ⟨n, ns, hn, ?_⟩⟩
      · intro d0
        have := hnode d0
        subst hn
        simpa [Tree.node, Tree.find, hkn] using this
      · subst hn
        cases ns with
        | nil =>
          simp only [Tree.alter, Option.some.injEq] at halt ⊢
          simp [Tree.alterEntry, hkn, halt]
        | cons m ms =>
          cases hf : rest.find n with
          | none => exact absurd hf hfn
          | some nd =>
            cases nd with
            | file i2 =>
              rw [alter_cons_none n (m :: ms) (by simp) _ rest (by simp [hf])] at halt
              exact absurd halt (by simp)
            | dir d2 sub2 =>
              rw [alter_cons_dir n (m :: ms) (by simp) _ rest d2 sub2 hf] at halt
              rw [alter_cons_dir n (m :: ms) (by simp) _ (.dir k d sub rest) d2 sub2
                (by simp [Tree.find, hkn, hf])]
              cases hs : Tree.alter (m :: ms) (fun _ => none) sub2 with
              | none => simp [hs] at halt
              | some s1 =>
                simp only [hs, Option.map_some', Option.some.injEq] at halt ⊢
                simp [Tree.alterEntry, hkn, halt]
      · simp only [Tree.wf, Bool.and_eq_true, Option.isNone_iff_eq_none]
        exact ⟨⟨hfind k hwf.1.1, hwf.1.2⟩, hwf1⟩
      · simp [Tree.files, hA]
      · simp [Tree.files, hB]
      · simp only [Tree.numFiles]; omega
      · intro m hm
        simp only [Tree.find] at hm ⊢
        split at hm
        · exact absurd hm (by simp)
        · rename_i hkm; simp [hkm, hfind m hm]
      · simp [Tree.find, hkn, hfn]

theorem node_append (r : Path) : ∀ (fs : Tree) (d0 d : DirStat) (sub : Tree) (rel : Path),
    Tree.node r d0 fs = some (.dir d sub) → Tree.node (r ++ rel) d0 fs = Tree.node rel d sub := by
  induction r with
  | nil =>
    intro fs d0 d sub rel h
    simp only [Tree.node, Option.some.injEq, Node.dir.injEq] at h
    obtain ⟨rfl, rfl⟩ := h
    cases rel <;> simp [Tree.node]
  | cons n ns ih =>
    intro fs d0 d sub rel h
    simp only [Tree.node, List.cons_append] at h ⊢
    cases hf : fs.find n with
    | none => simp [hf] at h
    | some nd =>
      cases nd with
      | file i =>
        simp only [hf] at h
        split at h <;> simp at h
      | dir d1 s1 =>
        simp only [hf] at h ⊢
        exact ih s1 d1 d sub rel h

theorem alter_under (r : Path) : ∀ (fs : Tree) (d0 d : DirStat) (sub sub1 : Tree) (rel : Path)
    (f : Option Node → Option Node),
    Tree.node r d0 fs = some (.dir d sub) → rel ≠ [] → Tree.alter rel f sub = some sub1 →
    ∃ fs1, Tree.alter (r ++ rel) f fs = some fs1 ∧ Tree.node r d0 fs1 = some (.dir d sub1) ∧
      (fs.wf = true → sub1.wf = true → fs1.wf = true) ∧
      fs1.numFiles + sub.numFiles = fs.numFiles + sub1.numFiles ∧
      fs1.totalSize + sub.totalSize = fs.totalSize + sub1.totalSize := by
  induction r with
  | nil =>
    intro fs d0 d sub sub1 rel f h hrel halt
    simp only [Tree.node, Option.some.injEq, Node.dir.injEq] at h
    obtain ⟨rfl, rfl⟩ := h
    exact ⟨sub1, by simpa using halt, by simp [Tree.node], fun _ h => h, by omega, by omega⟩
  | cons n ns ih =>
    intro fs d0 d sub sub1 rel f h hrel halt
    simp only [Tree.node] at h
    cases hf : fs.find n with
    | none => simp [hf] at h
    | some nd =>
      cases nd with
      | file i =>
        simp only [hf] at h
        split at h <;> simp at h
      | dir d1 s1 =>
        simp only [hf] at h
        obtain ⟨s2, h2, hnode, hwf, hnum, htot⟩ := ih s1 d1 d sub sub1 rel f h hrel halt
        refine ⟨fs.alterEntry n (fun _ => some (.dir d1 s2)), ?_, ?_, ?_, ?_, ?_⟩
        · rw [List.cons_append, alter_cons_dir n (ns ++ rel) (by simp [hrel]) f fs d1 s1 hf, h2]
          rfl
        · simp only [Tree.node]
          rw [find_alterEntry_some n _ fs (.dir d1 s2) rfl]
          exact hnode
        · intro hfs hs
          apply wf_alterEntry n _ fs hfs
          intro nd hnd
          simp only [Option.some.injEq] at hnd
          subst hnd
          have : s1.wf = true := by
            clear ih h2 hnode hnum htot h halt hwf
            induction fs with
            | nil => simp [Tree.find] at hf
            | file k j rest ihr =>
              simp only [Tree.wf, Bool.and_eq_true] at hfs
              simp only [Tree.find] at hf
              split at hf
              · simp at hf
              · exact ihr hf hfs.2
            | dir k dk sk rest _ ihr =>
              simp only [Tree.wf, Bool.and_eq_true] at hfs
              simp only [Tree.find] at hf
              split at hf
              · simp only [Option.some.injEq, Node.dir.injEq] at hf
                rw [← hf.2]; exact hfs.1.2
              · exact ihr hf hfs.2
          exact hwf this hs
        · have := numFiles_alterEntry n (fun _ => some (.dir d1 s2)) fs
          simp only [hf, Node.numFiles] at this
          omega
        · have := totalSize_alterEntry n (fun _ => some (.dir d1 s2)) fs
          simp only [hf, Node.totalSize] at this
          omega

/-! ## Truncation by `snprintf` -/

/-- What `snprintf` keeps is a beginning of the formatted text. -/
theorem takeBytes_prefix : ∀ (l : List Char) (n : Nat), takeBytes n l <+: l := by
  intro l
  induction l with
  | nil => intro n; simp [takeBytes]
  | cons ch cs ih =>
    intro n
    unfold takeBytes
    split
    · exact (List.prefix_cons_inj ch).2 (ih _)
    · exact (List.prefix_cons_inj ch).2 (ih _)
    · exact (List.prefix_cons_inj ch).2 (ih _)
    · exact (List.prefix_cons_inj ch).2 (ih _)
    · exact List.nil_prefix

/-- What `snprintf` keeps takes at most the given number of bytes in UTF-8. -/
theorem takeBytes_size : ∀ (l : List Char) (n : Nat),
    ((takeBytes n l).map Char.utf8Size).sum ≤ n := by
  intro l
  induction l with
  | nil => intro n; simp [takeBytes]
  | cons ch cs ih =>
    intro n
    unfold takeBytes
    split
    · rename_i h; have := ih ‹Nat›; simp [List.sum_cons, h]; omega
    · rename_i h; simp [List.sum_cons, h]; have := ih ‹Nat›; omega
    · rename_i h; simp [List.sum_cons, h]; have := ih ‹Nat›; omega
    · rename_i h; simp [List.sum_cons, h]; have := ih ‹Nat›; omega
    · simp

/-- A text whose UTF-8 encoding fits is kept whole. -/
theorem takeBytes_fits : ∀ (l : List Char) (n : Nat), (l.map Char.utf8Size).sum ≤ n →
    takeBytes n l = l := by
  intro l
  induction l with
  | nil => intro n _; simp [takeBytes]
  | cons ch cs ih =>
    intro n h
    simp only [List.map_cons, List.sum_cons] at h
    have h4 := Char.utf8Size_le_four ch
    have h1 := Char.utf8Size_pos ch
    unfold takeBytes
    split
    · rename_i m hm; rw [ih]; omega
    · rename_i m hm; rw [ih]; omega
    · rename_i m hm; rw [ih]; omega
    · rename_i m hm; rw [ih]; omega
    · rename_i n0 _ _ a b c d
      exfalso
      rcases (by omega : ch.utf8Size = 1 ∨ ch.utf8Size = 2 ∨ ch.utf8Size = 3 ∨
        ch.utf8Size = 4) with h | h | h | h
      · exact a (n0 - 1) h (by omega)
      · exact b (n0 - 2) h (by omega)
      · exact c (n0 - 3) h (by omega)
      · exact d (n0 - 4) h (by omega)

/-- The limit of `snprintf` counts bytes: of `aé`, three bytes long, a buffer
of four bytes holds all and a buffer of three bytes holds `a`; of an ASCII
text the first `n - 1` characters are kept. -/
theorem snprintf_bytes :
    snprintf 4 "aé" = "aé" ∧ snprintf 3 "aé" = "a" ∧ snprintf 4 "abcdef" = "abc" := by
  decide


/-! ## Eviction -/

theorem keepOldest_assoc (acc : Option (Path × struct_stat)) (x t : Path × struct_stat) :
    keepOldest (keepOldest acc x) t =
      match keepOldest (some x) t with
      | some u => keepOldest acc u
      | none => acc := by
  cases acc with
  | none => simp only [keepOldest]; split_ifs <;> rfl
  | some a =>
    simp only [keepOldest]
    split_ifs <;> simp only [keepOldest] <;> split_ifs <;> first | rfl | omega

theorem foldl_keepOldest (L : List (Path × struct_stat)) : ∀ acc,
    L.foldl keepOldest acc =
      match L.foldl keepOldest none with
      | some t => keepOldest acc t
      | none => acc := by
  induction L with
  | nil => intro acc; rfl
  | cons x L ih =>
    intro acc
    simp only [List.foldl_cons]
    rw [ih (keepOldest acc x), ih (keepOldest none x)]
    cases h : L.foldl keepOldest none with
    | none => simp [keepOldest]
    | some t =>
      simp only []
      rw [keepOldest_assoc]
      simp only [keepOldest]

theorem readdir_eq_foldl (t : Tree) : ∀ (path : Path) (acc : Option (Path × struct_stat)),
    _findOldestCache_readdir path t acc = ((t.files path).map statOf).foldl keepOldest acc := by
  induction t with
  | nil => intro path acc; rfl
  | file n i rest ih =>
    intro path acc
    simp only [_findOldestCache_readdir, Tree.files, List.map_cons, List.foldl_cons, ih]
    rfl
  | dir n d sub rest ihs ih =>
    intro path acc
    simp only [_findOldestCache_readdir, Tree.files, List.map_append, List.foldl_append]
    rw [ihs (path ++ [n]) none, foldl_keepOldest _ acc]
    cases h : ((sub.files (path ++ [n])).map statOf).foldl keepOldest none with
    | none => simp only []; exact ih path acc
    | some t => simp only []; exact ih path _

theorem findOldest_eq (c : Ctx) (fs : Tree) :
    _findOldestCache fs (splitPath c.PreloadConfig.cachePath) = oldestOf (cacheFiles c fs) := by
  unfold _findOldestCache cacheFiles oldestOf
  cases h : fs.lookup (splitPath c.PreloadConfig.cachePath) with
  | none => rfl
  | some nd =>
    cases nd with
    | file i => rfl
    | dir d sub => simp only []; exact readdir_eq_foldl sub _ none

theorem foldl_keepOldest_some (L : List (Path × struct_stat)) : ∀ (a m : Path × struct_stat),
    L.foldl keepOldest (some a) = some m →
      (m = a ∨ m ∈ L) ∧ m.2.st_atime ≤ a.2.st_atime ∧ ∀ x ∈ L, m.2.st_atime ≤ x.2.st_atime := by
  induction L with
  | nil =>
    intro a m h
    simp only [List.foldl_nil, Option.some.injEq] at h
    subst h; simp
  | cons x L ih =>
    intro a m h
    simp only [List.foldl_cons, keepOldest] at h
    split_ifs at h with hc
    · obtain ⟨h1, h2, h3⟩ := ih x m h
      refine ⟨?_, by omega, ?_⟩
      · rcases h1 with h1 | h1
        · right; simp [h1]
        · right; simp [h1]
      · intro y hy
        rcases List.mem_cons.1 hy with rfl | hy
        · exact h2
        · exact h3 y hy
    · obtain ⟨h1, h2, h3⟩ := ih a m h
      refine ⟨?_, h2, ?_⟩
      · rcases h1 with h1 | h1
        · left; exact h1
        · right; simp [h1]
      · intro y hy
        rcases List.mem_cons.1 hy with rfl | hy
        · omega
        · exact h3 y hy

theorem foldl_keepOldest_isSome (L : List (Path × struct_stat)) : ∀ a,
    ∃ m, L.foldl keepOldest (some a) = some m := by
  induction L with
  | nil => intro a; exact ⟨a, rfl⟩
  | cons x L ih =>
    intro a
    simp only [List.foldl_cons, keepOldest]
    split_ifs
    · exact ih x
    · exact ih a

theorem oldestOf_eq_none (L : List (Path × struct_stat)) : oldestOf L = none ↔ L = [] := by
  cases L with
  | nil => simp [oldestOf]
  | cons x L =>
    simp only [oldestOf, List.foldl_cons, keepOldest]
    obtain ⟨m, hm⟩ := foldl_keepOldest_isSome L x
    simp [hm]

theorem oldestOf_some (L : List (Path × struct_stat)) (m : Path × struct_stat)
    (h : oldestOf L = some m) : m ∈ L ∧ ∀ x ∈ L, m.2.st_atime ≤ x.2.st_atime := by
  cases L with
  | nil => simp [oldestOf] at h
  | cons x L =>
    simp only [oldestOf, List.foldl_cons, keepOldest] at h
    obtain ⟨h1, h2, h3⟩ := foldl_keepOldest_some L x m h
    refine ⟨?_, ?_⟩
    · rcases h1 with h1 | h1
      · simp [h1]
      · simp [h1]
    · intro y hy
      rcases List.mem_cons.1 hy with rfl | hy
      · exact h2
      · exact h3 y hy


theorem find_wf (t : Tree) (n : String) (nd : Node) (hwf : t.wf = true)
    (h : t.find n = some nd) : nd.wf = true := by
  induction t with
  | nil => simp [Tree.find] at h
  | file k j rest ih =>
    simp only [Tree.wf, Bool.and_eq_true] at hwf
    simp only [Tree.find] at h
    split at h
    · simp only [Option.some.injEq] at h; subst h; rfl
    · exact ih hwf.2 h
  | dir k d sub rest _ ih =>
    simp only [Tree.wf, Bool.and_eq_true] at hwf
    simp only [Tree.find] at h
    split at h
    · simp only [Option.some.injEq] at h; subst h; exact hwf.1.2
    · exact ih hwf.2 h

theorem node_wf (r : Path) : ∀ (fs : Tree) (d0 : DirStat) (nd : Node), fs.wf = true →
    Tree.node r d0 fs = some nd → nd.wf = true := by
  induction r with
  | nil =>
    intro fs d0 nd hwf h
    simp only [Tree.node, Option.some.injEq] at h
    subst h; exact hwf
  | cons n ns ih =>
    intro fs d0 nd hwf h
    simp only [Tree.node] at h
    cases hf : fs.find n with
    | none => simp [hf] at h
    | some x =>
      have hx := find_wf fs n x hwf hf
      cases x with
      | file i =>
        simp only [hf] at h
        split at h
        · simp only [Option.some.injEq] at h; subst h; rfl
        · simp at h
      | dir d1 s1 =>
        simp only [hf] at h
        exact ih s1 d1 nd hx h

theorem sizeSum_append (A B : List (Path × struct_stat)) :
    sizeSum (A ++ B) = sizeSum A + sizeSum B := by
  simp [sizeSum]

theorem sizeSum_cons (m : Path × struct_stat) (B : List (Path × struct_stat)) :
    sizeSum (m :: B) = m.2.st_size + sizeSum B := by
  simp [sizeSum]

theorem totalSize_eq (t : Tree) : ∀ pre : Path,
    (t.totalSize : Int) = sizeSum ((t.files pre).map statOf) := by
  induction t with
  | nil => intro pre; rfl
  | file n i rest ih =>
    intro pre
    simp only [Tree.totalSize, Tree.files, List.map_cons, sizeSum_cons, Nat.cast_add, ih pre]
    rfl
  | dir n d sub rest ihs ih =>
    intro pre
    simp only [Tree.totalSize, Tree.files, List.map_append, sizeSum_append, Nat.cast_add,
      ihs (pre ++ [n]), ih pre]

theorem usage_eq (c : Ctx) (fs : Tree) :
    getFileSizeRecursive fs c.PreloadConfig.cachePath = sizeSum (cacheFiles c fs) := by
  unfold getFileSizeRecursive cacheFiles
  cases h : fs.lookup (splitPath c.PreloadConfig.cachePath) with
  | none => rfl
  | some nd =>
    cases nd with
    | file i => rfl
    | dir d sub => exact totalSize_eq sub _

theorem cacheFiles_size_nonneg (c : Ctx) (fs : Tree) (m : Path × struct_stat)
    (h : m ∈ cacheFiles c fs) : 0 ≤ m.2.st_size := by
  unfold cacheFiles at h
  cases hl : fs.lookup (splitPath c.PreloadConfig.cachePath) with
  | none => simp [hl] at h
  | some nd =>
    cases nd with
    | file i => simp [hl] at h
    | dir d sub =>
      simp only [hl, List.mem_map] at h
      obtain ⟨x, _, rfl⟩ := h
      simp [statOf, Inode.toStat]

theorem sizeSum_nonneg (L : List (Path × struct_stat)) (h : ∀ m ∈ L, 0 ≤ m.2.st_size) :
    0 ≤ sizeSum L := by
  induction L with
  | nil => simp [sizeSum]
  | cons x L ih =>
    rw [sizeSum_cons]
    have := h x (by simp)
    have := ih (fun m hm => h m (by simp [hm]))
    omega

/-- A file found below the cache root of a well-formed file system can be
unlinked by its path; the list of cached files loses exactly that entry. -/
theorem unlink_cached (c : Ctx) (fs : Tree) (m : Path × struct_stat) (hwf : fs.wf = true)
    (hm : m ∈ cacheFiles c fs) :
    ∃ fs1 A B, unlinkAt fs m.1 = some fs1 ∧ fs1.wf = true ∧ fs1.numFiles + 1 = fs.numFiles ∧
      cacheFiles c fs = A ++ m :: B ∧ cacheFiles c fs1 = A ++ B := by
  unfold cacheFiles at hm ⊢
  unfold Tree.lookup at hm ⊢
  cases hl : Tree.node (splitPath c.PreloadConfig.cachePath) rootStat fs with
  | none => simp [hl] at hm
  | some nd =>
    cases nd with
    | file i => simp [hl] at hm
    | dir d sub =>
      simp only [hl, List.mem_map] at hm
      obtain ⟨⟨p, i⟩, hx, rfl⟩ := hm
      have hsub : sub.wf = true := node_wf _ fs rootStat _ hwf hl
      obtain ⟨rel, t1, A, B, hp, hrel, hnode, halt, hwf1, hA, hB, hnum, _, _⟩ :=
        unlink_listed sub _ p i hsub hx
      obtain ⟨fs1, h1, h2, h3, h4, _⟩ :=
        alter_under _ fs rootStat d sub t1 rel (fun _ => none) hl hrel halt
      refine ⟨fs1, A.map statOf, B.map statOf, ?_, h3 hwf hwf1, by omega, ?_, ?_⟩
      · simp only [unlinkAt, statOf, Tree.lookup, hp]
        rw [node_append _ fs rootStat d sub rel hl, hnode d]
        exact h1
      · simp [hA]
      · simp [h2, hB]


/-- What the loop of `_evictOldCache` does on a well-formed file system, with
enough iterations allowed. -/
theorem evict_loop_spec (c : Ctx) (needed : Int) : ∀ (fuel : Nat) (fs : Tree) (rem : Int)
    (log : List (Path × struct_stat)), fs.wf = true → fs.numFiles < fuel →
    ∃ ex, (_evictOldCache_loop c needed fuel fs rem log).removed = log ++ ex ∧
      (_evictOldCache_loop c needed fuel fs rem log).exhausted = false ∧
      (_evictOldCache_loop c needed fuel fs rem log).fs.wf = true ∧
      EvictSeq (cacheFiles c fs) ex (cacheFiles c (_evictOldCache_loop c needed fuel fs rem log).fs) ∧
      (((_evictOldCache_loop c needed fuel fs rem log).status = 0 ∧ needed ≤ rem + sizeSum ex ∧
          (ex ≠ [] → rem + sizeSum ex.dropLast < needed)) ∨
        ((_evictOldCache_loop c needed fuel fs rem log).status = -1 ∧
          cacheFiles c (_evictOldCache_loop c needed fuel fs rem log).fs = [] ∧
          rem + sizeSum ex < needed)) := by
  intro fuel
  induction fuel with
  | zero => intro fs rem log _ h; omega
  | succ fuel ih =>
    intro fs rem log hwf hfuel
    rw [_evictOldCache_loop]
    by_cases hn : needed > rem
    · simp only [hn, if_true]
      rw [findOldest_eq]
      cases hold : oldestOf (cacheFiles c fs) with
      | none =>
        refine ⟨[], by simp, rfl, hwf, rfl, Or.inr ⟨rfl, ?_, ?_⟩⟩
        · exact (oldestOf_eq_none _).1 hold
        · simp [sizeSum]; omega
      | some m =>
        obtain ⟨p, st⟩ := m
        have hmem := (oldestOf_some _ _ hold).1
        obtain ⟨fs1, A, B, hun, hwf1, hnum, hA, hB⟩ := unlink_cached c fs (p, st) hwf hmem
        have hsz := cacheFiles_size_nonneg c fs (p, st) hmem
        simp only [] at hun hsz
        simp only [hun]
        have hcs : (if st.st_size > 0 then st.st_size else 0) = st.st_size := by
          split_ifs <;> omega
        rw [hcs]
        obtain ⟨ex, h1, h2, h3, h4, h5⟩ :=
          ih fs1 (rem + st.st_size) (log ++ [(p, st)]) hwf1 (by omega)
        refine ⟨(p, st) :: ex, by simp [h1], h2, h3, ?_, ?_⟩
        · exact ⟨hold, A, B, hA, by rw [← hB]; exact h4⟩
        · rcases h5 with ⟨hs, hge, hlast⟩ | ⟨hs, hemp, hlt⟩
          · refine Or.inl ⟨hs, by rw [sizeSum_cons]; simp only []; omega, ?_⟩
            intro _
            cases ex with
            | nil => simp [sizeSum]; omega
            | cons y ys =>
              rw [List.dropLast_cons_of_ne_nil (by simp), sizeSum_cons]
              have := hlast (by simp)
              simp only []; omega
          · exact Or.inr ⟨hs, hemp, by rw [sizeSum_cons]; simp only []; omega⟩
    · rw [if_neg hn]
      exact ⟨[], by simp, rfl, hwf, rfl, Or.inl ⟨rfl, by simp [sizeSum]; omega, by simp⟩⟩

/-- The function `_evictOldCache` on a well-formed file system. -/
theorem evict_spec (c : Ctx) (fs : Tree) (needed : Int) (hwf : fs.wf = true) :
    (_evictOldCache c fs needed).exhausted = false ∧
    (_evictOldCache c fs needed).fs.wf = true ∧
    EvictSeq (cacheFiles c fs) (_evictOldCache c fs needed).removed
      (cacheFiles c (_evictOldCache c fs needed).fs) ∧
    (((_evictOldCache c fs needed).status = 0 ∧
        needed ≤ sizeSum (_evictOldCache c fs needed).removed ∧
        ((_evictOldCache c fs needed).removed ≠ [] →
          sizeSum (_evictOldCache c fs needed).removed.dropLast < needed)) ∨
      ((_evictOldCache c fs needed).status = -1 ∧
        cacheFiles c (_evictOldCache c fs needed).fs = [] ∧
        sizeSum (_evictOldCache c fs needed).removed < needed)) ∧
    (needed ≤ 0 → (_evictOldCache c fs needed).removed = [] ∧
      (_evictOldCache c fs needed).fs = fs) := by
  unfold _evictOldCache
  by_cases hn : needed ≤ 0
  · rw [if_pos hn]
    exact ⟨rfl, hwf, rfl, Or.inl ⟨rfl, by simp [sizeSum]; omega, by simp⟩, fun _ => ⟨rfl, rfl⟩⟩
  · rw [if_neg hn]
    obtain ⟨ex, h1, h2, h3, h4, h5⟩ :=
      evict_loop_spec c needed (fs.numFiles + 1) fs 0 [] hwf (by omega)
    simp only [List.nil_append] at h1
    rw [h1]
    refine ⟨h2, h3, h4, ?_, fun h => absurd h hn⟩
    simpa using h5


theorem evictSeq_perm (ex : List (Path × struct_stat)) : ∀ (F F1 : List (Path × struct_stat)),
    EvictSeq F ex F1 → F.Perm (ex ++ F1) := by
  induction ex with
  | nil => intro F F1 h; simp only [EvictSeq] at h; subst h; simp
  | cons m rest ih =>
    intro F F1 h
    obtain ⟨_, A, B, hF, hrest⟩ := h
    subst hF
    have := ih (A ++ B) F1 hrest
    calc (A ++ m :: B).Perm (m :: (A ++ B)) := List.perm_middle
      _ |>.Perm (m :: (rest ++ F1)) := List.Perm.cons m this

theorem sizeSum_perm (A B : List (Path × struct_stat)) (h : A.Perm B) : sizeSum A = sizeSum B := by
  unfold sizeSum
  exact (h.map _).sum_eq

theorem lookup_none_iff {α : Type} (h : List (String × α)) (k : String) :
    lookupFromHashTable h k = none ↔ k ∉ h.map Prod.fst := by
  induction h with
  | nil => simp [lookupFromHashTable]
  | cons e h ih =>
    obtain ⟨k1, v1⟩ := e
    simp only [lookupFromHashTable, List.map_cons, List.mem_cons, not_or]
    by_cases hk : k1 = k
    · simp [hk]
    · simp [hk, ih, Ne.symm hk]

theorem delete_sublist {α : Type} (h : List (String × α)) (k : String) :
    (deleteFromHashTable h k).Sublist h := by
  induction h with
  | nil => exact List.Sublist.refl _
  | cons e h ih =>
    obtain ⟨k1, v1⟩ := e
    simp only [deleteFromHashTable]
    split_ifs
    · exact List.sublist_cons_self _ _
    · exact List.Sublist.cons₂ _ ih

theorem mem_delete_of_ne {α : Type} (h : List (String × α)) (k : String) (e : String × α)
    (he : e ∈ h) (hne : e.1 ≠ k) : e ∈ deleteFromHashTable h k := by
  induction h with
  | nil => simp at he
  | cons e1 h ih =>
    obtain ⟨k1, v1⟩ := e1
    simp only [deleteFromHashTable]
    rcases List.mem_cons.1 he with rfl | he
    · simp only [] at hne
      simp [hne]
    · split_ifs
      · exact he
      · exact List.mem_cons_of_mem _ (ih he)

theorem delete_eq_remove (h : List (String × preloadThreadInfo_t)) (k : String)
    (v : preloadThreadInfo_t) (hk : (h.map Prod.fst).Nodup)
    (ha : (h.map (fun e => e.2.addr)).Nodup) (hm : (k, v) ∈ h) :
    (deleteFromHashTable h k).map Prod.snd = removeFromConcurrentList2 (h.map Prod.snd) v := by
  induction h with
  | nil => simp at hm
  | cons e h ih =>
    obtain ⟨k1, v1⟩ := e
    simp only [List.map_cons, List.nodup_cons, List.mem_map, not_exists, not_and] at hk ha
    simp only [deleteFromHashTable, List.map_cons, removeFromConcurrentList2]
    rcases List.mem_cons.1 hm with heq | hm
    · obtain ⟨rfl, rfl⟩ := Prod.mk.inj heq
      simp
    · have h1 : k1 ≠ k := by
        intro hh; subst hh
        exact hk.1 (k1, v) hm rfl
      have h2 : v1.addr ≠ v.addr := by
        intro hh
        exact ha.1 (k, v) hm hh.symm
      simp [h1, h2, ih hk.2 ha.2 hm]

theorem getElem?_split {α : Type} (l : List α) : ∀ (i : Nat) (x : α), l[i]? = some x →
    ∃ A B, l = A ++ x :: B ∧ l.eraseIdx i = A ++ B ∧ ∀ y, l.set i y = A ++ y :: B := by
  induction l with
  | nil => intro i x h; simp at h
  | cons a l ih =>
    intro i x h
    cases i with
    | zero =>
      simp only [List.getElem?_cons_zero, Option.some.injEq] at h
      subst h
      exact ⟨[], l, rfl, rfl, fun y => rfl⟩
    | succ i =>
      simp only [List.getElem?_cons_succ] at h
      obtain ⟨A, B, h1, h2, h3⟩ := ih i x h
      refine ⟨a :: A, B, by simp [h1], by simp [h2], fun y => by simp [h3 y]⟩


/-! ## The branches of `preloadFile` -/

theorem preloadFile_pathFailed (c : Ctx) (s : PreloadState) (path : String)
    (stbuf : struct_stat) (pc : Int) (h1 : (c.getiRODSPath path).1 < 0) :
    preloadFile c s path stbuf pc =
      { status := (c.getiRODSPath path).1, state := s, log := .pathFailed, evictArg := none,
        evicted := [], created := none } := by
  unfold preloadFile
  simp only []
  rw [if_pos h1]

theorem preloadFile_running (c : Ctx) (s : PreloadState) (path : String)
    (stbuf : struct_stat) (pc : Int) (v : preloadThreadInfo_t)
    (h1 : ¬ (c.getiRODSPath path).1 < 0)
    (h2 : lookupFromHashTable s.PreloadThreadTable (c.getiRODSPath path).2 = some v) :
    preloadFile c s path stbuf pc =
      { status := 0, state := s, log := .alreadyRunning, evictArg := none, evicted := [],
        created := none } := by
  unfold preloadFile
  simp only []
  rw [if_neg h1, h2]

theorem preloadFile_preloaded (c : Ctx) (s : PreloadState) (path : String)
    (stbuf : struct_stat) (pc : Int) (h1 : ¬ (c.getiRODSPath path).1 < 0)
    (h2 : lookupFromHashTable s.PreloadThreadTable (c.getiRODSPath path).2 = none)
    (h3 : _hasValidCache c s.fs (c.getiRODSPath path).2 stbuf = 0) :
    preloadFile c s path stbuf pc =
      { status := 0, state := s, log := .alreadyPreloaded, evictArg := none, evicted := [],
        created := none } := by
  unfold preloadFile
  simp only []
  rw [if_neg h1, h2]
  simp only []
  rw [if_neg (by simpa using h3)]

theorem preloadFile_tooSmall (c : Ctx) (s : PreloadState) (path : String)
    (stbuf : struct_stat) (pc : Int) (h1 : ¬ (c.getiRODSPath path).1 < 0)
    (h2 : lookupFromHashTable s.PreloadThreadTable (c.getiRODSPath path).2 = none)
    (h3 : _hasValidCache c s.fs (c.getiRODSPath path).2 stbuf ≠ 0)
    (h4 : stbuf.st_size < c.PreloadConfig.preloadMinSize) :
    preloadFile c s path stbuf pc =
      { status := 0,
        state := { s with fs := (_invalidateCache c s.fs (c.getiRODSPath path).2).2 },
        log := .tooSmall, evictArg := none, evicted := [], created := none } := by
  unfold preloadFile
  simp only []
  rw [if_neg h1, h2]
  simp only []
  rw [if_pos h3, if_pos h4]

theorem preloadFile_tooLarge (c : Ctx) (s : PreloadState) (path : String)
    (stbuf : struct_stat) (pc : Int) (h1 : ¬ (c.getiRODSPath path).1 < 0)
    (h2 : lookupFromHashTable s.PreloadThreadTable (c.getiRODSPath path).2 = none)
    (h3 : _hasValidCache c s.fs (c.getiRODSPath path).2 stbuf ≠ 0)
    (h4 : ¬ stbuf.st_size < c.PreloadConfig.preloadMinSize)
    (h5 : c.PreloadConfig.cacheMaxSize > 0)
    (h6 : stbuf.st_size > c.PreloadConfig.cacheMaxSize) :
    preloadFile c s path stbuf pc =
      { status := 0,
        state := { s with fs := (_invalidateCache c s.fs (c.getiRODSPath path).2).2 },
        log := .tooLarge, evictArg := none, evicted := [], created := none } := by
  unfold preloadFile
  simp only []
  rw [if_neg h1, h2]
  simp only []
  rw [if_pos h3, if_neg h4, if_pos h5, if_pos h6]

theorem preloadFile_unlimited (c : Ctx) (s : PreloadState) (path : String)
    (stbuf : struct_stat) (pc : Int) (h1 : ¬ (c.getiRODSPath path).1 < 0)
    (h2 : lookupFromHashTable s.PreloadThreadTable (c.getiRODSPath path).2 = none)
    (h3 : _hasValidCache c s.fs (c.getiRODSPath path).2 stbuf ≠ 0)
    (h4 : ¬ stbuf.st_size < c.PreloadConfig.preloadMinSize)
    (h5 : ¬ c.PreloadConfig.cacheMaxSize > 0) :
    preloadFile c s path stbuf pc =
      preloadFile_start s (_invalidateCache c s.fs (c.getiRODSPath path).2).2
        (c.getiRODSPath path).2 stbuf pc none [] := by
  unfold preloadFile
  simp only []
  rw [if_neg h1, h2]
  simp only []
  rw [if_pos h3, if_neg h4, if_neg h5]

theorem preloadFile_fits (c : Ctx) (s : PreloadState) (path : String)
    (stbuf : struct_stat) (pc : Int) (h1 : ¬ (c.getiRODSPath path).1 < 0)
    (h2 : lookupFromHashTable s.PreloadThreadTable (c.getiRODSPath path).2 = none)
    (h3 : _hasValidCache c s.fs (c.getiRODSPath path).2 stbuf ≠ 0)
    (h4 : ¬ stbuf.st_size < c.PreloadConfig.preloadMinSize)
    (h5 : c.PreloadConfig.cacheMaxSize > 0)
    (h6 : ¬ stbuf.st_size > c.PreloadConfig.cacheMaxSize)
    (h7 : ¬ getFileSizeRecursive (_invalidateCache c s.fs (c.getiRODSPath path).2).2
        c.PreloadConfig.cachePath + stbuf.st_size > c.PreloadConfig.cacheMaxSize) :
    preloadFile c s path stbuf pc =
      preloadFile_start s (_invalidateCache c s.fs (c.getiRODSPath path).2).2
        (c.getiRODSPath path).2 stbuf pc none [] := by
  unfold preloadFile
  simp only []
  rw [if_neg h1, h2]
  simp only []
  rw [if_pos h3, if_neg h4, if_pos h5, if_neg h6, if_neg h7]

theorem preloadFile_evict (c : Ctx) (s : PreloadState) (path : String)
    (stbuf : struct_stat) (pc : Int) (h1 : ¬ (c.getiRODSPath path).1 < 0)
    (h2 : lookupFromHashTable s.PreloadThreadTable (c.getiRODSPath path).2 = none)
    (h3 : _hasValidCache c s.fs (c.getiRODSPath path).2 stbuf ≠ 0)
    (h4 : ¬ stbuf.st_size < c.PreloadConfig.preloadMinSize)
    (h5 : c.PreloadConfig.cacheMaxSize > 0)
    (h6 : ¬ stbuf.st_size > c.PreloadConfig.cacheMaxSize)
    (h7 : getFileSizeRecursive (_invalidateCache c s.fs (c.getiRODSPath path).2).2
        c.PreloadConfig.cachePath + stbuf.st_size > c.PreloadConfig.cacheMaxSize) :
    preloadFile c s path stbuf pc =
      if (_evictOldCache c (_invalidateCache c s.fs (c.getiRODSPath path).2).2
          (getFileSizeRecursive (_invalidateCache c s.fs (c.getiRODSPath path).2).2
            c.PreloadConfig.cachePath + stbuf.st_size - c.PreloadConfig.cacheMaxSize)).status < 0
      then
        { status := (_evictOldCache c (_invalidateCache c s.fs (c.getiRODSPath path).2).2
            (getFileSizeRecursive (_invalidateCache c s.fs (c.getiRODSPath path).2).2
              c.PreloadConfig.cachePath + stbuf.st_size - c.PreloadConfig.cacheMaxSize)).status
          state := { s with fs := (_evictOldCache c
            (_invalidateCache c s.fs (c.getiRODSPath path).2).2
            (getFileSizeRecursive (_invalidateCache c s.fs (c.getiRODSPath path).2).2
              c.PreloadConfig.cachePath + stbuf.st_size - c.PreloadConfig.cacheMaxSize)).fs }
          log := .evictFailed
          evictArg := some (getFileSizeRecursive
            (_invalidateCache c s.fs (c.getiRODSPath path).2).2
              c.PreloadConfig.cachePath + stbuf.st_size - c.PreloadConfig.cacheMaxSize)
          evicted := (_evictOldCache c (_invalidateCache c s.fs (c.getiRODSPath path).2).2
            (getFileSizeRecursive (_invalidateCache c s.fs (c.getiRODSPath path).2).2
              c.PreloadConfig.cachePath + stbuf.st_size - c.PreloadConfig.cacheMaxSize)).removed
          created := none }
      else
        preloadFile_start s
          (_evictOldCache c (_invalidateCache c s.fs (c.getiRODSPath path).2).2
            (getFileSizeRecursive (_invalidateCache c s.fs (c.getiRODSPath path).2).2
              c.PreloadConfig.cachePath + stbuf.st_size - c.PreloadConfig.cacheMaxSize)).fs
          (c.getiRODSPath path).2 stbuf pc
          (some (getFileSizeRecursive (_invalidateCache c s.fs (c.getiRODSPath path).2).2
            c.PreloadConfig.cachePath + stbuf.st_size - c.PreloadConfig.cacheMaxSize))
          (_evictOldCache c (_invalidateCache c s.fs (c.getiRODSPath path).2).2
            (getFileSizeRecursive (_invalidateCache c s.fs (c.getiRODSPath path).2).2
              c.PreloadConfig.cachePath + stbuf.st_size - c.PreloadConfig.cacheMaxSize)).removed := by
  unfold preloadFile
  simp only []
  rw [if_neg h1, h2]
  simp only []
  rw [if_pos h3, if_neg h4, if_pos h5, if_neg h6, if_pos h7]

theorem preloadFile_shape (c : Ctx) (s : PreloadState) (path : String) (stbuf : struct_stat)
    (pc : Int) :
    (∃ fs1, (preloadFile c s path stbuf pc).state = { s with fs := fs1 } ∧
      (preloadFile c s path stbuf pc).created = none) ∨
    (lookupFromHashTable s.PreloadThreadTable (c.getiRODSPath path).2 = none ∧
      ∃ fs1 ea ev, preloadFile c s path stbuf pc =
        preloadFile_start s fs1 (c.getiRODSPath path).2 stbuf pc ea ev) := by
  by_cases h1 : (c.getiRODSPath path).1 < 0
  · rw [preloadFile_pathFailed c s path stbuf pc h1]; exact Or.inl ⟨s.fs, rfl, rfl⟩
  cases h2 : lookupFromHashTable s.PreloadThreadTable (c.getiRODSPath path).2 with
  | some v => rw [preloadFile_running c s path stbuf pc v h1 h2]; exact Or.inl ⟨s.fs, rfl, rfl⟩
  | none =>
    by_cases h3 : _hasValidCache c s.fs (c.getiRODSPath path).2 stbuf = 0
    · rw [preloadFile_preloaded c s path stbuf pc h1 h2 h3]; exact Or.inl ⟨s.fs, rfl, rfl⟩
    by_cases h4 : stbuf.st_size < c.PreloadConfig.preloadMinSize
    · rw [preloadFile_tooSmall c s path stbuf pc h1 h2 h3 h4]; exact Or.inl ⟨_, rfl, rfl⟩
    by_cases h5 : c.PreloadConfig.cacheMaxSize > 0
    swap
    · exact Or.inr ⟨rfl, _, _, _, preloadFile_unlimited c s path stbuf pc h1 h2 h3 h4 h5⟩
    by_cases h6 : stbuf.st_size > c.PreloadConfig.cacheMaxSize
    · rw [preloadFile_tooLarge c s path stbuf pc h1 h2 h3 h4 h5 h6]; exact Or.inl ⟨_, rfl, rfl⟩
    by_cases h7 : getFileSizeRecursive (_invalidateCache c s.fs (c.getiRODSPath path).2).2
        c.PreloadConfig.cachePath + stbuf.st_size > c.PreloadConfig.cacheMaxSize
    swap
    · exact Or.inr ⟨rfl, _, _, _, preloadFile_fits c s path stbuf pc h1 h2 h3 h4 h5 h6 h7⟩
    rw [preloadFile_evict c s path stbuf pc h1 h2 h3 h4 h5 h6 h7]
    split_ifs
    · exact Or.inl ⟨_, rfl, rfl⟩
    · exact Or.inr ⟨rfl, _, _, _, rfl⟩


theorem lookup_of_mem {α : Type} (T : List (String × α)) (k : String) (v : α)
    (hk : (T.map Prod.fst).Nodup) (hm : (k, v) ∈ T) : lookupFromHashTable T k = some v := by
  induction T with
  | nil => simp at hm
  | cons e T ih =>
    obtain ⟨k1, v1⟩ := e
    simp only [List.map_cons, List.nodup_cons, List.mem_map, not_exists, not_and] at hk
    rcases List.mem_cons.1 hm with heq | hm
    · obtain ⟨rfl, rfl⟩ := Prod.mk.inj heq
      simp [lookupFromHashTable]
    · have : k1 ≠ k := fun hh => hk.1 _ hm hh.symm
      simp [lookupFromHashTable, this, ih hk.2 hm]

theorem tableInv_fs (s : PreloadState) (fs1 : Tree) (h : TableInv s) :
    TableInv { s with fs := fs1 } :=
  ⟨h.list_eq, h.keys_nodup, h.key_path, h.addr_lt, h.addr_nodup, h.thread_reg, h.thread_nodup⟩

theorem tableInv_start (s : PreloadState) (fs1 : Tree) (k : String) (stbuf : struct_stat)
    (pc : Int) (ea : Option Int) (ev : List (Path × struct_stat)) (h : TableInv s)
    (hk : lookupFromHashTable s.PreloadThreadTable k = none) :
    TableInv (preloadFile_start s fs1 k stbuf pc ea ev).state := by
  have hk2 := (lookup_none_iff _ _).1 hk
  have hthr : ∀ th ∈ s.threads, th.data.threadInfo.addr < s.nextAddr := by
    intro th hth
    have := h.thread_reg th.data (List.mem_map.2 ⟨th, hth, rfl⟩)
    exact h.addr_lt _ this
  refine ⟨?_, ?_, ?_, ?_, ?_, ?_, ?_⟩
  · simp [preloadFile_start, addToConcurrentList, insertIntoHashTable, h.list_eq]
  · simp only [preloadFile_start, insertIntoHashTable, List.map_append, List.map_cons,
      List.map_nil]
    rw [List.nodup_append]
    refine ⟨h.keys_nodup, by simp, ?_⟩
    intro a ha hb
    simp only [List.mem_singleton] at hb
    subst hb; exact hk2 ha
  · intro e he
    simp only [preloadFile_start, insertIntoHashTable, List.mem_append, List.mem_singleton] at he
    rcases he with he | rfl
    · exact h.key_path e he
    · rfl
  · intro e he
    simp only [preloadFile_start, insertIntoHashTable, List.mem_append, List.mem_singleton] at he
    rcases he with he | rfl
    · have := h.addr_lt e he
      simp only [preloadFile_start]; omega
    · simp [preloadFile_start]
  · simp only [preloadFile_start, insertIntoHashTable, List.map_append, List.map_cons,
      List.map_nil]
    rw [List.nodup_append]
    refine ⟨h.addr_nodup, by simp, ?_⟩
    intro a ha hb
    simp only [List.mem_singleton] at hb
    subst hb
    obtain ⟨e, he, hea⟩ := List.mem_map.1 ha
    have := h.addr_lt e he
    omega
  · intro td htd
    simp only [preloadFile_start, insertIntoHashTable, List.mem_append, List.mem_singleton]
    simp only [preloadFile_start] at htd
    split_ifs at htd
    · simp only [List.map_append, List.map_cons, List.map_nil, List.mem_append,
        List.mem_singleton] at htd
      rcases htd with htd | rfl
      · exact Or.inl (h.thread_reg td htd)
      · exact Or.inr rfl
    · exact Or.inl (h.thread_reg td htd)
  · simp only [preloadFile_start]
    split_ifs
    · simp only [List.map_append, List.map_cons, List.map_nil]
      rw [List.nodup_append]
      refine ⟨h.thread_nodup, by simp, ?_⟩
      intro a ha hb
      simp only [List.mem_singleton] at hb
      subst hb
      obtain ⟨th, hth, hta⟩ := List.mem_map.1 ha
      have := hthr th hth
      omega
    · exact h.thread_nodup

theorem tableInv_set (s : PreloadState) (fs1 : Tree) (i : Nat) (td : preloadThreadData_t)
    (ph ph1 : Phase) (h : TableInv s) (hi : s.threads[i]? = some { data := td, phase := ph }) :
    TableInv { s with fs := fs1, threads := s.threads.set i { data := td, phase := ph1 } } := by
  obtain ⟨A, B, hA, _, hset⟩ := getElem?_split s.threads i _ hi
  have hmap : ∀ {β : Type} (f : preloadThreadData_t → β),
      (s.threads.set i { data := td, phase := ph1 }).map (fun th => f th.data) =
        s.threads.map (fun th => f th.data) := by
    intro β f
    rw [hset, hA]; simp
  refine ⟨h.list_eq, h.keys_nodup, h.key_path, h.addr_lt, h.addr_nodup, ?_, ?_⟩
  · have := hmap (fun d => d)
    simp only [] at this ⊢
    rw [this]; exact h.thread_reg
  · have := hmap (fun d => d.threadInfo.addr)
    simp only [] at this ⊢
    rw [this]; exact h.thread_nodup

theorem tableInv_finish (s : PreloadState) (i : Nat) (td : preloadThreadData_t) (ph : Phase)
    (h : TableInv s) (hi : s.threads[i]? = some { data := td, phase := ph }) :
    TableInv { _preloadThread_finish s td with threads := s.threads.eraseIdx i } := by
  obtain ⟨A, B, hA, hB, _⟩ := getElem?_split s.threads i _ hi
  have hreg : (td.path, td.threadInfo) ∈ s.PreloadThreadTable :=
    h.thread_reg td (List.mem_map.2 ⟨{ data := td, phase := ph }, by rw [hA]; simp, rfl⟩)
  have hpath : td.threadInfo.path = td.path := h.key_path _ hreg
  have hnd := h.thread_nodup
  rw [hA] at hnd
  simp only [List.map_append, List.map_cons] at hnd
  have hnd2 := (List.perm_middle.nodup_iff).1 hnd
  simp only [List.nodup_cons, List.mem_append, List.mem_map, not_or, not_exists, not_and] at hnd2
  have hsub := delete_sublist s.PreloadThreadTable td.threadInfo.path
  refine ⟨?_, ?_, ?_, ?_, ?_, ?_, ?_⟩
  · simp only [_preloadThread_finish]
    rw [h.list_eq, hpath]
    exact (delete_eq_remove _ _ _ h.keys_nodup h.addr_nodup hreg).symm
  · exact h.keys_nodup.sublist (hsub.map _)
  · intro e he; exact h.key_path e (hsub.subset he)
  · intro e he; exact h.addr_lt e (hsub.subset he)
  · exact h.addr_nodup.sublist (hsub.map _)
  · intro td1 htd1
    simp only [hB] at htd1
    obtain ⟨th, hth, rfl⟩ := List.mem_map.1 htd1
    have hth2 : th ∈ s.threads := by
      rw [hA]
      rcases List.mem_append.1 hth with h1 | h1
      · simp [h1]
      · simp [h1]
    have hreg1 := h.thread_reg th.data (List.mem_map.2 ⟨th, hth2, rfl⟩)
    have haddr : th.data.threadInfo.addr ≠ td.threadInfo.addr := by
      rcases List.mem_append.1 hth with h1 | h1
      · exact fun hh => hnd2.1.1 th h1 hh
      · exact fun hh => hnd2.1.2 th h1 hh
    apply mem_delete_of_ne _ _ _ hreg1
    simp only [hpath]
    intro hp
    have hl1 := lookup_of_mem _ _ _ h.keys_nodup hreg
    have hl2 := lookup_of_mem _ _ _ h.keys_nodup hreg1
    rw [← hp] at hl1
    rw [hl1] at hl2
    simp only [Option.some.injEq] at hl2
    exact haddr (by rw [hl2])
  · simp only [hB, List.map_append]
    exact hnd2.2


/-! ## Operations that create no file -/

theorem files_cons (pre : Path) (n : String) (nd : Node) (rest : Tree) :
    (Tree.cons n nd rest).files pre = Node.files pre n (some nd) ++ rest.files pre := by
  cases nd <;> simp [Tree.cons, Tree.files, Node.files]

theorem files_alterEntry_sublist (n : String) (f : Option Node → Option Node) (t : Tree)
    (pre : Path)
    (hf : (Node.files pre n (f (t.find n))).Sublist (Node.files pre n (t.find n))) :
    ((t.alterEntry n f).files pre).Sublist (t.files pre) := by
  induction t with
  | nil =>
    simp only [Tree.find] at hf
    simp only [Tree.alterEntry]
    cases h : f none with
    | none => exact List.Sublist.refl _
    | some nd =>
      rw [h] at hf
      simpa [files_cons, Tree.files, Node.files] using hf
  | file k i rest ih =>
    by_cases hk : k = n
    · subst hk
      simp only [Tree.find, if_true] at hf
      simp only [Tree.alterEntry, if_true]
      cases h : f (some (.file i)) with
      | none => exact List.sublist_cons_self _ _
      | some nd =>
        rw [h] at hf
        simp only [files_cons, Tree.files]
        have := hf.append (List.Sublist.refl (rest.files pre))
        simpa [Node.files] using this
    · simp only [Tree.find, hk, if_false] at hf
      simp only [Tree.alterEntry, hk, if_false, Tree.files]
      exact List.Sublist.cons₂ _ (ih hf)
  | dir k d sub rest _ ih =>
    by_cases hk : k = n
    · subst hk
      simp only [Tree.find, if_true] at hf
      simp only [Tree.alterEntry, if_true]
      cases h : f (some (.dir d sub)) with
      | none => exact List.sublist_append_right _ _
      | some nd =>
        rw [h] at hf
        simp only [files_cons, Tree.files]
        have := hf.append (List.Sublist.refl (rest.files pre))
        simpa [Node.files] using this
    · simp only [Tree.find, hk, if_false] at hf
      simp only [Tree.alterEntry, hk, if_false, Tree.files]
      exact List.Sublist.append (List.Sublist.refl _) (ih hf)

theorem files_alter_none_sublist (p : Path) : ∀ (t t1 : Tree) (pre : Path),
    Tree.alter p (fun _ => none) t = some t1 → (t1.files pre).Sublist (t.files pre) := by
  induction p with
  | nil => intro t t1 pre h; simp [Tree.alter] at h
  | cons n ns ih =>
    intro t t1 pre h
    cases ns with
    | nil =>
      simp only [Tree.alter, Option.some.injEq] at h
      subst h
      exact files_alterEntry_sublist n _ t pre (by simp [Node.files])
    | cons m ms =>
      cases hfd : t.find n with
      | none =>
        rw [alter_cons_none n (m :: ms) (by simp) _ t (by simp [hfd])] at h
        simp at h
      | some nd =>
        cases nd with
        | file i =>
          rw [alter_cons_none n (m :: ms) (by simp) _ t (by simp [hfd])] at h
          simp at h
        | dir d sub =>
          rw [alter_cons_dir n (m :: ms) (by simp) _ t d sub hfd] at h
          cases hs : Tree.alter (m :: ms) (fun _ => none) sub with
          | none => simp [hs] at h
          | some s1 =>
            simp only [hs, Option.map_some', Option.some.injEq] at h
            subst h
            apply files_alterEntry_sublist
            simp only [hfd, Node.files]
            exact ih sub s1 _ hs

theorem unlinkAt_sublist (fs fs1 : Tree) (p : Path) (h : unlinkAt fs p = some fs1) :
    (fs1.files []).Sublist (fs.files []) := by
  unfold unlinkAt at h
  split at h
  · exact files_alter_none_sublist p fs fs1 [] h
  · simp at h

theorem invalidate_sublist (c : Ctx) (fs : Tree) (path : String) :
    ((_invalidateCache c fs path).2.files []).Sublist (fs.files []) := by
  unfold _invalidateCache
  simp only []
  split_ifs
  · unfold removeDirRecursive
    split
    · rename_i fs1 h; exact files_alter_none_sublist _ fs fs1 [] h
    · exact List.Sublist.refl _
  · have h1 : (((unlink fs (_getCacheWorkPath c path)).getD fs).files []).Sublist (fs.files []) := by
      cases h : unlink fs (_getCacheWorkPath c path) with
      | none => exact List.Sublist.refl _
      | some fs1 => exact unlinkAt_sublist fs fs1 _ h
    split
    · exact h1
    · rename_i fs2 h
      exact (unlinkAt_sublist _ fs2 _ h).trans h1


theorem lookup_insert_self {α : Type} (T : List (String × α)) (k : String) (v : α)
    (h : lookupFromHashTable T k = none) :
    lookupFromHashTable (insertIntoHashTable T k v) k = some v := by
  induction T with
  | nil => simp [insertIntoHashTable, lookupFromHashTable]
  | cons e T ih =>
    obtain ⟨k1, v1⟩ := e
    simp only [lookupFromHashTable] at h
    split_ifs at h with hk
    simp only [insertIntoHashTable, List.cons_append, lookupFromHashTable, hk, if_false]
    exact ih h


/-! ## Well-formedness and lookups after a rewrite -/

theorem wf_alter (p : Path) : ∀ (t t1 : Tree) (f : Option Node → Option Node),
    t.wf = true → Tree.alter p f t = some t1 →
    (∀ x nd, f x = some nd → (∀ y, x = some y → y.wf = true) → nd.wf = true) →
    t1.wf = true := by
  induction p with
  | nil => intro t t1 f _ h; simp [Tree.alter] at h
  | cons n ns ih =>
    intro t t1 f hwf h hf
    cases ns with
    | nil =>
      simp only [Tree.alter, Option.some.injEq] at h
      subst h
      exact wf_alterEntry n f t hwf
        (fun nd hnd => hf _ nd hnd (fun y hy => find_wf t n y hwf hy))
    | cons m ms =>
      cases hfd : t.find n with
      | none =>
        rw [alter_cons_none n (m :: ms) (by simp) _ t (by simp [hfd])] at h
        simp at h
      | some nd =>
        cases nd with
        | file i =>
          rw [alter_cons_none n (m :: ms) (by simp) _ t (by simp [hfd])] at h
          simp at h
        | dir d sub =>
          rw [alter_cons_dir n (m :: ms) (by simp) _ t d sub hfd] at h
          cases hs : Tree.alter (m :: ms) f sub with
          | none => simp [hs] at h
          | some s1 =>
            simp only [hs, Option.map_some', Option.some.injEq] at h
            subst h
            have hsub : sub.wf = true := find_wf t n _ hwf hfd
            have hs1 := ih sub s1 f hsub hs hf
            apply wf_alterEntry n _ t hwf
            intro nd hnd
            simp only [Option.some.injEq] at hnd
            subst hnd
            exact hs1

theorem node_single (n : String) (d : DirStat) (t : Tree) : Tree.node [n] d t = t.find n := by
  simp only [Tree.node]
  cases t.find n with
  | none => rfl
  | some nd => cases nd <;> simp [Tree.node]

theorem node_cons_dir (n : String) (ns : Path) (d0 d : DirStat) (t sub : Tree)
    (h : t.find n = some (.dir d sub)) : Tree.node (n :: ns) d0 t = Tree.node ns d sub := by
  simp [Tree.node, h]

/-- After a rewrite that puts a node at `p`, the path resolves to that node. -/
theorem node_alter_self (p : Path) : ∀ (t t1 : Tree) (f : Option Node → Option Node)
    (d0 : DirStat) (nd : Node), p ≠ [] → Tree.alter p f t = some t1 →
    f (Tree.node p d0 t) = some nd → Tree.node p d0 t1 = some nd := by
  induction p with
  | nil => intro t t1 f d0 nd hp; exact absurd rfl hp
  | cons n ns ih =>
    intro t t1 f d0 nd _ h hf
    cases ns with
    | nil =>
      simp only [Tree.alter, Option.some.injEq] at h
      subst h
      rw [node_single] at hf ⊢
      exact find_alterEntry_some n f t nd hf
    | cons m ms =>
      cases hfd : t.find n with
      | none =>
        rw [alter_cons_none n (m :: ms) (by simp) _ t (by simp [hfd])] at h
        simp at h
      | some x =>
        cases x with
        | file i =>
          rw [alter_cons_none n (m :: ms) (by simp) _ t (by simp [hfd])] at h
          simp at h
        | dir d sub =>
          rw [alter_cons_dir n (m :: ms) (by simp) _ t d sub hfd] at h
          cases hs : Tree.alter (m :: ms) f sub with
          | none => simp [hs] at h
          | some s1 =>
            simp only [hs, Option.map_some', Option.some.injEq] at h
            subst h
            rw [node_cons_dir n (m :: ms) d0 d t sub hfd] at hf
            rw [node_cons_dir n (m :: ms) d0 d _ s1 (find_alterEntry_some n _ t _ rfl)]
            exact ih sub s1 f d nd (by simp) hs hf

/-- After a rewrite that drops the entry at `p` of a well-formed tree, the
path resolves to nothing. -/
theorem node_alter_none (p : Path) : ∀ (t t1 : Tree) (f : Option Node → Option Node)
    (d0 : DirStat), p ≠ [] → t.wf = true → Tree.alter p f t = some t1 →
    f (Tree.node p d0 t) = none → Tree.node p d0 t1 = none := by
  induction p with
  | nil => intro t t1 f d0 hp; exact absurd rfl hp
  | cons n ns ih =>
    intro t t1 f d0 _ hwf h hf
    cases ns with
    | nil =>
      simp only [Tree.alter, Option.some.injEq] at h
      subst h
      rw [node_single] at hf ⊢
      exact find_alterEntry_none n f t hwf hf
    | cons m ms =>
      cases hfd : t.find n with
      | none =>
        rw [alter_cons_none n (m :: ms) (by simp) _ t (by simp [hfd])] at h
        simp at h
      | some x =>
        cases x with
        | file i =>
          rw [alter_cons_none n (m :: ms) (by simp) _ t (by simp [hfd])] at h
          simp at h
        | dir d sub =>
          rw [alter_cons_dir n (m :: ms) (by simp) _ t d sub hfd] at h
          cases hs : Tree.alter (m :: ms) f sub with
          | none => simp [hs] at h
          | some s1 =>
            simp only [hs, Option.map_some', Option.some.injEq] at h
            subst h
            rw [node_cons_dir n (m :: ms) d0 d t sub hfd] at hf
            rw [node_cons_dir n (m :: ms) d0 d _ s1 (find_alterEntry_some n _ t _ rfl)]
            exact ih sub s1 f d (by simp) (find_wf t n _ hwf hfd) hs hf

/-- Putting a regular file at `p` leaves every other path that resolved to
nothing resolving to nothing. -/
theorem node_alter_file_other (p : Path) : ∀ (t t1 : Tree) (i : Inode) (q : Path)
    (d0 : DirStat), Tree.alter p (fun _ => some (.file i)) t = some t1 → q ≠ p →
    Tree.node q d0 t = none → Tree.node q d0 t1 = none := by
  induction p with
  | nil => intro t t1 i q d0 h; simp [Tree.alter] at h
  | cons n ns ih =>
    intro t t1 i q d0 h hq hnone
    cases q with
    | nil => simp [Tree.node] at hnone
    | cons a as =>
      by_cases han : a = n
      swap
      · have hfind : t1.find a = t.find a := by
          cases ns with
          | nil =>
            simp only [Tree.alter, Option.some.injEq] at h
            subst h
            exact find_alterEntry_ne n a _ t han
          | cons m ms =>
            cases hfd : t.find n with
            | none =>
              rw [alter_cons_none n (m :: ms) (by simp) _ t (by simp [hfd])] at h
              simp at h
            | some x =>
              cases x with
              | file j =>
                rw [alter_cons_none n (m :: ms) (by simp) _ t (by simp [hfd])] at h
                simp at h
              | dir d sub =>
                rw [alter_cons_dir n (m :: ms) (by simp) _ t d sub hfd] at h
                cases hs : Tree.alter (m :: ms) (fun _ => some (.file i)) sub with
                | none => simp [hs] at h
                | some s1 =>
                  simp only [hs, Option.map_some', Option.some.injEq] at h
                  subst h
                  exact find_alterEntry_ne n a _ t han
        simp only [Tree.node, hfind] at hnone ⊢
        exact hnone
      · subst han
        cases ns with
        | nil =>
          simp only [Tree.alter, Option.some.injEq] at h
          subst h
          have has : as ≠ [] := fun hh => hq (by rw [hh])
          have hfa := find_alterEntry_some a (fun _ => some (Node.file i)) t (.file i) rfl
          simp [Tree.node, hfa, has]
        | cons m ms =>
          cases hfd : t.find a with
          | none =>
            rw [alter_cons_none a (m :: ms) (by simp) _ t (by simp [hfd])] at h
            simp at h
          | some x =>
            cases x with
            | file j =>
              rw [alter_cons_none a (m :: ms) (by simp) _ t (by simp [hfd])] at h
              simp at h
            | dir d sub =>
              rw [alter_cons_dir a (m :: ms) (by simp) _ t d sub hfd] at h
              cases hs : Tree.alter (m :: ms) (fun _ => some (.file i)) sub with
              | none => simp [hs] at h
              | some s1 =>
                simp only [hs, Option.map_some', Option.some.injEq] at h
                subst h
                rw [node_cons_dir a as d0 d t sub hfd] at hnone
                rw [node_cons_dir a as d0 d _ s1 (find_alterEntry_some a _ t _ rfl)]
                exact ih sub s1 i as d hs (fun hh => hq (by rw [hh])) hnone


theorem alter_ne_nil (p : Path) (f : Option Node → Option Node) (t t1 : Tree)
    (h : Tree.alter p f t = some t1) : p ≠ [] := by
  intro hp; subst hp; simp [Tree.alter] at h

/-- What a successful `_completeDownload` does to a regular work file on a
well-formed file system when the two paths differ. -/
theorem completeDownload_spec (fs : Tree) (workPath cachePath : String) (stbuf : struct_stat)
    (now : Int) (ino : Inode) (hwf : fs.wf = true)
    (hwork : fs.lookup (splitPath workPath) = some (.file ino))
    (hne : splitPath workPath ≠ splitPath cachePath)
    (hok : (_completeDownload fs workPath cachePath stbuf now).1 = 0) :
    (_completeDownload fs workPath cachePath stbuf now).2.lookup (splitPath cachePath) =
      some (.file { ino with st_atime := now, st_mtime := stbuf.st_mtime }) ∧
    (_completeDownload fs workPath cachePath stbuf now).2.lookup (splitPath workPath) = none := by
  unfold _completeDownload at hok ⊢
  cases hu : utime fs workPath now stbuf.st_mtime with
  | none => simp [hu] at hok
  | some fs1 =>
    simp only [hu] at hok ⊢
    cases hr : rename fs1 workPath cachePath with
    | none => simp [hr] at hok
    | some fs2 =>
      simp only [hr]
      -- the effect of `utime`
      unfold utime at hu
      rw [hwork] at hu
      simp only [] at hu
      have ho : splitPath workPath ≠ [] := alter_ne_nil _ _ _ _ hu
      have hl1 : fs1.lookup (splitPath workPath) =
          some (.file { ino with st_atime := now, st_mtime := stbuf.st_mtime }) := by
        unfold Tree.lookup at hwork ⊢
        exact node_alter_self _ fs fs1 _ rootStat _ ho hu (by rw [hwork])
      have hwf1 : fs1.wf = true := by
        apply wf_alter _ fs fs1 _ hwf hu
        intro x nd hx hy
        cases x with
        | none => simp at hx
        | some y =>
          cases y with
          | file i => simp only [Option.some.injEq] at hx; subst hx; rfl
          | dir d sub =>
            simp only [Option.some.injEq] at hx; subst hx
            exact hy (.dir d sub) rfl
      -- the effect of `rename`
      unfold rename at hr
      simp only [hl1, if_neg hne, if_neg ho] at hr
      split_ifs at hr with hallowed
      cases ha : Tree.alter (splitPath workPath) (fun _ => none) fs1 with
      | none => simp [ha] at hr
      | some fsA =>
        simp only [ha] at hr
        have hn : splitPath cachePath ≠ [] := alter_ne_nil _ _ _ _ hr
        refine ⟨?_, ?_⟩
        · unfold Tree.lookup
          exact node_alter_self _ fsA fs2 _ rootStat _ hn hr rfl
        · unfold Tree.lookup
          apply node_alter_file_other _ fsA fs2 _ _ rootStat hr hne
          exact node_alter_none _ fs1 fsA _ rootStat ho hwf1 ha rfl


theorem unlinkAt_wf (fs fs1 : Tree) (p : Path) (hwf : fs.wf = true)
    (h : unlinkAt fs p = some fs1) : fs1.wf = true := by
  unfold unlinkAt at h
  split at h
  · exact wf_alter p fs fs1 _ hwf h (fun x nd hx _ => by simp at hx)
  · simp at h

theorem invalidate_wf (c : Ctx) (fs : Tree) (path : String) (hwf : fs.wf = true) :
    (_invalidateCache c fs path).2.wf = true := by
  unfold _invalidateCache
  simp only []
  split_ifs
  · unfold removeDirRecursive
    split
    · rename_i fs1 h
      exact wf_alter _ fs fs1 _ hwf h (fun x nd hx _ => by simp at hx)
    · exact hwf
  · have h1 : ((unlink fs (_getCacheWorkPath c path)).getD fs).wf = true := by
      cases h : unlink fs (_getCacheWorkPath c path) with
      | none => exact hwf
      | some fs1 => exact unlinkAt_wf fs fs1 _ hwf h
    split
    · exact h1
    · rename_i fs2 h
      exact unlinkAt_wf _ fs2 _ h1 h


/-! ## Usage of a directory under rewrites -/

theorem node_usage (r : Path) : ∀ (d0 : DirStat) (t : Tree),
    nodeUsage [] (Tree.node r d0 t) = usageAt r t := by
  induction r with
  | nil => intro d0 t; simp [Tree.node, usageAt, nodeUsage]
  | cons n ns ih =>
    intro d0 t
    simp only [Tree.node, usageAt]
    cases hf : t.find n with
    | none => simp [nodeUsage]
    | some nd =>
      cases nd with
      | file i => simp only []; split_ifs <;> simp [nodeUsage]
      | dir d sub => simp only []; exact ih d sub

theorem getFileSizeRecursive_eq (fs : Tree) (path : String) :
    getFileSizeRecursive fs path = (usageAt (splitPath path) fs : Int) := by
  rw [← node_usage (splitPath path) rootStat fs]
  unfold getFileSizeRecursive Tree.lookup
  cases Tree.node (splitPath path) rootStat fs with
  | none => simp [nodeUsage]
  | some nd => cases nd <;> simp [nodeUsage, usageAt]

theorem find_alterEntry_self (n : String) (f : Option Node → Option Node) (t : Tree)
    (hwf : t.wf = true) : (t.alterEntry n f).find n = f (t.find n) := by
  cases h : f (t.find n) with
  | none => exact find_alterEntry_none n f t hwf h
  | some nd => exact find_alterEntry_some n f t nd h

theorem usageAt_cons (r : String) (rs : Path) (t : Tree) :
    usageAt (r :: rs) t = nodeUsage rs (t.find r) := by
  simp only [usageAt, nodeUsage]

/-- Comparison of the usage after two rewrites of the same path. -/
theorem usageAt_alter_le (p : Path) : ∀ (root : Path) (t t1 t2 : Tree)
    (f g : Option Node → Option Node) (δ : Nat), t.wf = true →
    Tree.alter p f t = some t1 → Tree.alter p g t = some t2 →
    (∀ x, Node.totalSize (f x) ≤ Node.totalSize (g x) + δ) →
    (∀ x rs, nodeUsage rs (f x) ≤ nodeUsage rs (g x) + δ) →
    usageAt root t1 ≤ usageAt root t2 + δ := by
  induction p with
  | nil => intro root t t1 t2 f g δ _ h; simp [Tree.alter] at h
  | cons n ns ih =>
    intro root t t1 t2 f g δ hwf h1 h2 hA hB
    cases ns with
    | nil =>
      simp only [Tree.alter, Option.some.injEq] at h1 h2
      subst h1 h2
      cases root with
      | nil =>
        simp only [usageAt]
        have e1 := totalSize_alterEntry n f t
        have e2 := totalSize_alterEntry n g t
        have := hA (t.find n)
        omega
      | cons r rs =>
        rw [usageAt_cons, usageAt_cons]
        by_cases hr : r = n
        · subst hr
          rw [find_alterEntry_self r f t hwf, find_alterEntry_self r g t hwf]
          exact hB _ rs
        · rw [find_alterEntry_ne n r f t hr, find_alterEntry_ne n r g t hr]
          omega
    | cons m ms =>
      cases hfd : t.find n with
      | none =>
        rw [alter_cons_none n (m :: ms) (by simp) _ t (by simp [hfd])] at h1
        simp at h1
      | some x =>
        cases x with
        | file i =>
          rw [alter_cons_none n (m :: ms) (by simp) _ t (by simp [hfd])] at h1
          simp at h1
        | dir d sub =>
          rw [alter_cons_dir n (m :: ms) (by simp) _ t d sub hfd] at h1 h2
          cases hs1 : Tree.alter (m :: ms) f sub with
          | none => simp [hs1] at h1
          | some s1 =>
            cases hs2 : Tree.alter (m :: ms) g sub with
            | none => simp [hs2] at h2
            | some s2 =>
              simp only [hs1, hs2, Option.map_some', Option.some.injEq] at h1 h2
              subst h1 h2
              have hsub : sub.wf = true := find_wf t n _ hwf hfd
              cases root with
              | nil =>
                simp only [usageAt]
                have e1 := totalSize_alterEntry n (fun _ => some (.dir d s1)) t
                have e2 := totalSize_alterEntry n (fun _ => some (.dir d s2)) t
                have := ih [] sub s1 s2 f g δ hsub hs1 hs2 hA hB
                simp only [usageAt, hfd, Node.totalSize] at this e1 e2
                omega
              | cons r rs =>
                rw [usageAt_cons, usageAt_cons]
                by_cases hr : r = n
                · subst hr
                  rw [find_alterEntry_self r _ t hwf, find_alterEntry_self r _ t hwf]
                  simp only [nodeUsage]
                  exact ih rs sub s1 s2 f g δ hsub hs1 hs2 hA hB
                · rw [find_alterEntry_ne n r _ t hr, find_alterEntry_ne n r _ t hr]
                  omega

theorem alterEntry_id (n : String) (t : Tree) : t.alterEntry n (fun x => x) = t := by
  induction t with
  | nil => rfl
  | file k i rest ih =>
    simp only [Tree.alterEntry]
    split_ifs with hk
    · subst hk; rfl
    · rw [ih]
  | dir k d sub rest _ ih =>
    simp only [Tree.alterEntry]
    split_ifs with hk
    · subst hk; rfl
    · rw [ih]

theorem alterEntry_same (n : String) (t : Tree) (nd : Node) (h : t.find n = some nd) :
    t.alterEntry n (fun _ => some nd) = t := by
  induction t with
  | nil => simp [Tree.find] at h
  | file k i rest ih =>
    simp only [Tree.find] at h
    simp only [Tree.alterEntry]
    split_ifs at h ⊢ with hk
    · subst hk
      simp only [Option.some.injEq] at h
      subst h; rfl
    · rw [ih h]
  | dir k d sub rest _ ih =>
    simp only [Tree.find] at h
    simp only [Tree.alterEntry]
    split_ifs at h ⊢ with hk
    · subst hk
      simp only [Option.some.injEq] at h
      subst h; rfl
    · rw [ih h]

theorem alter_id (p : Path) : ∀ (t t1 : Tree) (f : Option Node → Option Node),
    Tree.alter p f t = some t1 → Tree.alter p (fun x => x) t = some t := by
  induction p with
  | nil => intro t t1 f h; simp [Tree.alter] at h
  | cons n ns ih =>
    intro t t1 f h
    cases ns with
    | nil => simp [Tree.alter, alterEntry_id]
    | cons m ms =>
      cases hfd : t.find n with
      | none =>
        rw [alter_cons_none n (m :: ms) (by simp) _ t (by simp [hfd])] at h
        simp at h
      | some x =>
        cases x with
        | file i =>
          rw [alter_cons_none n (m :: ms) (by simp) _ t (by simp [hfd])] at h
          simp at h
        | dir d sub =>
          rw [alter_cons_dir n (m :: ms) (by simp) _ t d sub hfd] at h
          rw [alter_cons_dir n (m :: ms) (by simp) _ t d sub hfd]
          cases hs : Tree.alter (m :: ms) f sub with
          | none => simp [hs] at h
          | some s1 =>
            rw [ih sub s1 f hs]
            simp [alterEntry_same n t _ hfd]

/-- A rewrite that does not enlarge the entry does not enlarge the usage. -/
theorem usageAt_alter_mono (p root : Path) (t t1 : Tree) (f : Option Node → Option Node)
    (δ : Nat) (hwf : t.wf = true) (h : Tree.alter p f t = some t1)
    (hA : ∀ x, Node.totalSize (f x) ≤ Node.totalSize x + δ)
    (hB : ∀ x rs, nodeUsage rs (f x) ≤ nodeUsage rs x + δ) :
    usageAt root t1 ≤ usageAt root t + δ :=
  usageAt_alter_le p root t t1 t f (fun x => x) δ hwf h (alter_id p t t1 f h) hA hB

theorem usageAt_rmAt_le (p root : Path) (t : Tree) (hwf : t.wf = true) :
    usageAt root (rmAt p t) ≤ usageAt root t := by
  unfold rmAt
  cases h : Tree.alter p (fun _ => none) t with
  | none => simp
  | some t1 =>
    simpa using usageAt_alter_mono p root t t1 _ 0 hwf h (by simp [Node.totalSize])
      (by simp [nodeUsage])


theorem alter_some_of_some (p : Path) : ∀ (t t1 : Tree) (f g : Option Node → Option Node),
    Tree.alter p f t = some t1 → ∃ t2, Tree.alter p g t = some t2 := by
  induction p with
  | nil => intro t t1 f g h; simp [Tree.alter] at h
  | cons n ns ih =>
    intro t t1 f g h
    cases ns with
    | nil => exact ⟨_, rfl⟩
    | cons m ms =>
      cases hfd : t.find n with
      | none =>
        rw [alter_cons_none n (m :: ms) (by simp) _ t (by simp [hfd])] at h
        simp at h
      | some x =>
        cases x with
        | file i =>
          rw [alter_cons_none n (m :: ms) (by simp) _ t (by simp [hfd])] at h
          simp at h
        | dir d sub =>
          rw [alter_cons_dir n (m :: ms) (by simp) _ t d sub hfd] at h
          rw [alter_cons_dir n (m :: ms) (by simp) _ t d sub hfd]
          cases hs : Tree.alter (m :: ms) f sub with
          | none => simp [hs] at h
          | some s1 =>
            obtain ⟨s2, hs2⟩ := ih sub s1 f g hs
            exact ⟨_, by rw [hs2]; rfl⟩

theorem alterEntry_none_of_not_found (n : String) (t : Tree) (h : t.find n = none) :
    t.alterEntry n (fun _ => none) = t := by
  induction t with
  | nil => rfl
  | file k i rest ih =>
    simp only [Tree.find] at h
    simp only [Tree.alterEntry]
    split_ifs at h ⊢ with hk
    rw [ih h]
  | dir k d sub rest _ ih =>
    simp only [Tree.find] at h
    simp only [Tree.alterEntry]
    split_ifs at h ⊢ with hk
    rw [ih h]

theorem alterEntry_cons_none (n : String) (nd : Node) (rest : Tree) :
    (Tree.cons n nd rest).alterEntry n (fun _ => none) = rest := by
  cases nd <;> simp [Tree.cons, Tree.alterEntry]

theorem alterEntry_cons_some (n : String) (nd x : Node) (rest : Tree) :
    (Tree.cons n nd rest).alterEntry n (fun _ => some x) = Tree.cons n x rest := by
  cases nd <;> simp [Tree.cons, Tree.alterEntry]

/-- Dropping an entry after rewriting it is dropping it. -/
theorem alterEntry_none_alterEntry (n : String) (f : Option Node → Option Node) (t : Tree)
    (hwf : t.wf = true) :
    (t.alterEntry n f).alterEntry n (fun _ => none) = t.alterEntry n (fun _ => none) := by
  induction t with
  | nil =>
    simp only [Tree.alterEntry]
    cases hf : f none with
    | none => rfl
    | some nd => simp only [alterEntry_cons_none]
  | file k i rest ih =>
    simp only [Tree.wf, Bool.and_eq_true, Option.isNone_iff_eq_none] at hwf
    simp only [Tree.alterEntry]
    by_cases hk : k = n
    · subst hk
      simp only [if_true]
      cases hf : f (some (.file i)) with
      | none => exact alterEntry_none_of_not_found k rest hwf.1
      | some nd => simp only [alterEntry_cons_none]
    · simp only [hk, if_false, Tree.alterEntry, ih hwf.2]
  | dir k d sub rest _ ih =>
    simp only [Tree.wf, Bool.and_eq_true, Option.isNone_iff_eq_none] at hwf
    simp only [Tree.alterEntry]
    by_cases hk : k = n
    · subst hk
      simp only [if_true]
      cases hf : f (some (.dir d sub)) with
      | none => exact alterEntry_none_of_not_found k rest hwf.1.1
      | some nd => simp only [alterEntry_cons_none]
    · simp only [hk, if_false, Tree.alterEntry, ih hwf.2]

/-- Replacing an existing entry twice is replacing it once. -/
theorem alterEntry_some_alterEntry (n : String) (x y : Node) (t : Tree)
    (h : t.find n ≠ none) :
    (t.alterEntry n (fun _ => some y)).alterEntry n (fun _ => some x) =
      t.alterEntry n (fun _ => some x) := by
  induction t with
  | nil => simp [Tree.find] at h
  | file k i rest ih =>
    simp only [Tree.find] at h
    simp only [Tree.alterEntry]
    by_cases hk : k = n
    · subst hk
      simp only [if_true, alterEntry_cons_some]
    · simp only [hk, if_false] at h
      simp only [hk, if_false, Tree.alterEntry, ih h]
  | dir k d sub rest _ ih =>
    simp only [Tree.find] at h
    simp only [Tree.alterEntry]
    by_cases hk : k = n
    · subst hk
      simp only [if_true, alterEntry_cons_some]
    · simp only [hk, if_false] at h
      simp only [hk, if_false, Tree.alterEntry, ih h]

/-- Dropping the entry at `p` after a rewrite of `p` is dropping it. -/
theorem alter_none_alter (p : Path) : ∀ (t t1 : Tree) (f : Option Node → Option Node),
    t.wf = true → Tree.alter p f t = some t1 →
    Tree.alter p (fun _ => none) t1 = Tree.alter p (fun _ => none) t := by
  induction p with
  | nil => intro t t1 f _ h; simp [Tree.alter] at h
  | cons n ns ih =>
    intro t t1 f hwf h
    cases ns with
    | nil =>
      simp only [Tree.alter, Option.some.injEq] at h
      subst h
      simp [Tree.alter, alterEntry_none_alterEntry n f t hwf]
    | cons m ms =>
      cases hfd : t.find n with
      | none =>
        rw [alter_cons_none n (m :: ms) (by simp) _ t (by simp [hfd])] at h
        simp at h
      | some x =>
        cases x with
        | file i =>
          rw [alter_cons_none n (m :: ms) (by simp) _ t (by simp [hfd])] at h
          simp at h
        | dir d sub =>
          rw [alter_cons_dir n (m :: ms) (by simp) _ t d sub hfd] at h
          cases hs : Tree.alter (m :: ms) f sub with
          | none => simp [hs] at h
          | some s1 =>
            simp only [hs, Option.map_some', Option.some.injEq] at h
            subst h
            have hsub : sub.wf = true := find_wf t n _ hwf hfd
            rw [alter_cons_dir n (m :: ms) (by simp) _ _ d s1
                (find_alterEntry_some n _ t _ rfl),
              alter_cons_dir n (m :: ms) (by simp) _ t d sub hfd, ih sub s1 f hsub hs]
            cases hs0 : Tree.alter (m :: ms) (fun _ => none) sub with
            | none => rfl
            | some s0 =>
              simp only [Option.map_some', Option.some.injEq]
              exact alterEntry_some_alterEntry n _ _ t (by simp [hfd])

theorem rmAt_alter (p : Path) (t t1 : Tree) (f : Option Node → Option Node)
    (hwf : t.wf = true) (h : Tree.alter p f t = some t1) : rmAt p t1 = rmAt p t := by
  unfold rmAt
  rw [alter_none_alter p t t1 f hwf h]
  obtain ⟨t0, h0⟩ := alter_some_of_some p t t1 f (fun _ => none) h
  simp [h0]

/-- Writing a regular file at `p` brings the usage to at most that of the
file system without `p` plus the size of the file. -/
theorem usageAt_write_le (p root : Path) (t t1 : Tree) (w : Inode) (hwf : t.wf = true)
    (h : Tree.alter p (fun _ => some (.file w)) t = some t1) :
    usageAt root t1 ≤ usageAt root (rmAt p t) + w.st_size := by
  obtain ⟨t0, h0⟩ := alter_some_of_some p t t1 _ (fun _ => none) h
  unfold rmAt
  rw [h0]
  exact usageAt_alter_le p root t t1 t0 _ _ w.st_size hwf h h0
    (by simp [Node.totalSize]) (by simp [nodeUsage])


theorem usageAt_nil (root : Path) : usageAt root .nil = 0 := by
  cases root <;> simp [usageAt, Tree.totalSize, Tree.find]

theorem usageAt_mkdirs (q : Path) : ∀ (root : Path) (t : Tree), t.wf = true →
    usageAt root (Tree.mkdirs q t) = usageAt root t := by
  induction q with
  | nil => intro root t _; rfl
  | cons n ns ih =>
    intro root t hwf
    simp only [Tree.mkdirs]
    cases hfd : t.find n with
    | none =>
      simp only []
      cases root with
      | nil =>
        have e := totalSize_alterEntry n (fun _ => some (.dir rootStat (Tree.mkdirs ns .nil))) t
        have := ih [] .nil rfl
        simp only [usageAt, hfd, Node.totalSize, Tree.totalSize] at this e ⊢
        omega
      | cons r rs =>
        rw [usageAt_cons, usageAt_cons]
        by_cases hr : r = n
        · subst hr
          rw [find_alterEntry_self r _ t hwf, hfd]
          simp only [nodeUsage]
          rw [ih rs .nil rfl, usageAt_nil]
        · rw [find_alterEntry_ne n r _ t hr]
    | some x =>
      cases x with
      | file i => rfl
      | dir d sub =>
        simp only []
        have hsub : sub.wf = true := find_wf t n _ hwf hfd
        cases root with
        | nil =>
          have e := totalSize_alterEntry n (fun _ => some (.dir d (Tree.mkdirs ns sub))) t
          have := ih [] sub hsub
          simp only [usageAt, hfd, Node.totalSize] at this e ⊢
          omega
        | cons r rs =>
          rw [usageAt_cons, usageAt_cons]
          by_cases hr : r = n
          · subst hr
            rw [find_alterEntry_self r _ t hwf, hfd]
            simp only [nodeUsage]
            exact ih rs sub hsub
          · rw [find_alterEntry_ne n r _ t hr]

theorem wf_mkdirs (q : Path) : ∀ (t : Tree), t.wf = true → (Tree.mkdirs q t).wf = true := by
  induction q with
  | nil => intro t h; exact h
  | cons n ns ih =>
    intro t hwf
    simp only [Tree.mkdirs]
    cases hfd : t.find n with
    | none =>
      simp only []
      apply wf_alterEntry n _ t hwf
      intro nd hnd
      simp only [Option.some.injEq] at hnd
      subst hnd
      exact ih .nil rfl
    | some x =>
      cases x with
      | file i => exact hwf
      | dir d sub =>
        simp only []
        apply wf_alterEntry n _ t hwf
        intro nd hnd
        simp only [Option.some.injEq] at hnd
        subst hnd
        exact ih sub (find_wf t n _ hwf hfd)


/-! ## The quota in runs without overlapping downloads -/

theorem usage_rmAt_le (fs : Tree) (p : Path) (path : String) (hwf : fs.wf = true) :
    getFileSizeRecursive (rmAt p fs) path ≤ getFileSizeRecursive fs path := by
  rw [getFileSizeRecursive_eq, getFileSizeRecursive_eq]
  exact_mod_cast usageAt_rmAt_le p _ fs hwf

theorem unlinkAt_eq_rmAt (fs fs1 : Tree) (p : Path) (h : unlinkAt fs p = some fs1) :
    fs1 = rmAt p fs := by
  unfold unlinkAt at h
  unfold rmAt
  split at h
  · rw [h]; rfl
  · simp at h

theorem invalidate_usage_le (c : Ctx) (fs : Tree) (path root : String) (hwf : fs.wf = true) :
    getFileSizeRecursive (_invalidateCache c fs path).2 root ≤ getFileSizeRecursive fs root := by
  unfold _invalidateCache
  simp only []
  split_ifs
  · unfold removeDirRecursive
    split
    · rename_i fs1 h
      have : fs1 = rmAt (splitPath (_getCachePath c path)) fs := by
        unfold rmAt; rw [h]; rfl
      rw [this]; exact usage_rmAt_le fs _ root hwf
    · exact le_refl _
  · have hwf1 : ((unlink fs (_getCacheWorkPath c path)).getD fs).wf = true := by
      cases h : unlink fs (_getCacheWorkPath c path) with
      | none => exact hwf
      | some fs1 => exact unlinkAt_wf fs fs1 _ hwf h
    have h1 : getFileSizeRecursive ((unlink fs (_getCacheWorkPath c path)).getD fs) root ≤
        getFileSizeRecursive fs root := by
      cases h : unlink fs (_getCacheWorkPath c path) with
      | none => exact le_refl _
      | some fs1 =>
        rw [unlinkAt_eq_rmAt fs fs1 _ h]
        exact usage_rmAt_le fs _ root hwf
    split
    · exact h1
    · rename_i fs2 h
      rw [unlinkAt_eq_rmAt _ fs2 _ h]
      exact le_trans (usage_rmAt_le _ _ root hwf1) h1

/-- The quota after a request made on a well-formed file system within the
quota: the usage stays within the quota, and when a thread is created there is
room for its object. -/
theorem preloadFile_quota (c : Ctx) (s : PreloadState) (path : String)
    (stbuf : struct_stat) (pc : Int) (hwf : s.fs.wf = true)
    (hM : c.PreloadConfig.cacheMaxSize > 0) (hmin : 0 ≤ c.PreloadConfig.preloadMinSize)
    (hU : cacheUsage c s ≤ c.PreloadConfig.cacheMaxSize) :
    (preloadFile c s path stbuf pc).state.fs.wf = true ∧
    cacheUsage c (preloadFile c s path stbuf pc).state ≤ c.PreloadConfig.cacheMaxSize ∧
    ((preloadFile c s path stbuf pc).state.threads = s.threads ∨
      ∃ td, (preloadFile c s path stbuf pc).state.threads =
          s.threads ++ [{ data := td, phase := .starting }] ∧ td.stbuf = stbuf ∧
        cacheUsage c (preloadFile c s path stbuf pc).state + stbuf.st_size ≤
          c.PreloadConfig.cacheMaxSize) := by
  have hstart : ∀ (fs1 : Tree) (ea : Option Int) (ev : List (Path × struct_stat)),
      fs1.wf = true → 0 ≤ stbuf.st_size →
      getFileSizeRecursive fs1 c.PreloadConfig.cachePath + stbuf.st_size ≤
        c.PreloadConfig.cacheMaxSize →
      (preloadFile_start s fs1 (c.getiRODSPath path).2 stbuf pc ea ev).state.fs.wf = true ∧
      cacheUsage c (preloadFile_start s fs1 (c.getiRODSPath path).2 stbuf pc ea ev).state ≤
        c.PreloadConfig.cacheMaxSize ∧
      ((preloadFile_start s fs1 (c.getiRODSPath path).2 stbuf pc ea ev).state.threads =
          s.threads ∨
        ∃ td, (preloadFile_start s fs1 (c.getiRODSPath path).2 stbuf pc ea ev).state.threads =
            s.threads ++ [{ data := td, phase := .starting }] ∧ td.stbuf = stbuf ∧
          cacheUsage c (preloadFile_start s fs1 (c.getiRODSPath path).2 stbuf pc ea ev).state +
            stbuf.st_size ≤ c.PreloadConfig.cacheMaxSize) := by
    intro fs1 ea ev hwf1 hsz hroom
    refine ⟨hwf1, ?_, ?_⟩
    · simp only [cacheUsage, preloadFile_start]; omega
    · simp only [preloadFile_start, cacheUsage]
      split_ifs
      · exact Or.inr ⟨_, rfl, rfl, hroom⟩
      · exact Or.inl rfl
  by_cases h1 : (c.getiRODSPath path).1 < 0
  · rw [preloadFile_pathFailed c s path stbuf pc h1]; exact ⟨hwf, hU, Or.inl rfl⟩
  cases h2 : lookupFromHashTable s.PreloadThreadTable (c.getiRODSPath path).2 with
  | some v => rw [preloadFile_running c s path stbuf pc v h1 h2]; exact ⟨hwf, hU, Or.inl rfl⟩
  | none =>
    by_cases h3 : _hasValidCache c s.fs (c.getiRODSPath path).2 stbuf = 0
    · rw [preloadFile_preloaded c s path stbuf pc h1 h2 h3]; exact ⟨hwf, hU, Or.inl rfl⟩
    have hwf1 := invalidate_wf c s.fs (c.getiRODSPath path).2 hwf
    have hU1 := invalidate_usage_le c s.fs (c.getiRODSPath path).2 c.PreloadConfig.cachePath hwf
    simp only [cacheUsage] at hU
    by_cases h4 : stbuf.st_size < c.PreloadConfig.preloadMinSize
    · rw [preloadFile_tooSmall c s path stbuf pc h1 h2 h3 h4]
      exact ⟨hwf1, by simp only [cacheUsage]; omega, Or.inl rfl⟩
    by_cases h6 : stbuf.st_size > c.PreloadConfig.cacheMaxSize
    · rw [preloadFile_tooLarge c s path stbuf pc h1 h2 h3 h4 hM h6]
      exact ⟨hwf1, by simp only [cacheUsage]; omega, Or.inl rfl⟩
    by_cases h7 : getFileSizeRecursive (_invalidateCache c s.fs (c.getiRODSPath path).2).2
        c.PreloadConfig.cachePath + stbuf.st_size > c.PreloadConfig.cacheMaxSize
    swap
    · rw [preloadFile_fits c s path stbuf pc h1 h2 h3 h4 hM h6 h7]
      exact hstart _ _ _ hwf1 (by omega) (by omega)
    rw [preloadFile_evict c s path stbuf pc h1 h2 h3 h4 hM h6 h7]
    obtain ⟨_, hwf2, hseq, hst, _⟩ := evict_spec c
      (_invalidateCache c s.fs (c.getiRODSPath path).2).2
      (getFileSizeRecursive (_invalidateCache c s.fs (c.getiRODSPath path).2).2
        c.PreloadConfig.cachePath + stbuf.st_size - c.PreloadConfig.cacheMaxSize) hwf1
    have hsum := sizeSum_perm _ _ (evictSeq_perm _ _ _ hseq)
    rw [sizeSum_append, ← usage_eq, ← usage_eq] at hsum
    have hnn := sizeSum_nonneg _ (fun m hm => cacheFiles_size_nonneg c
      (_invalidateCache c s.fs (c.getiRODSPath path).2).2 m
      ((evictSeq_perm _ _ _ hseq).symm.subset (List.mem_append_left _ hm)))
    split_ifs with hneg
    · exact ⟨hwf2, by simp only [cacheUsage]; omega, Or.inl rfl⟩
    · apply hstart _ _ _ hwf2 (by omega)
      rcases hst with ⟨_, hge, _⟩ | ⟨hs, _, _⟩
      · omega
      · omega


theorem utime_spec (fs fs1 : Tree) (path : String) (a m : Int) (ino : Inode) (root : String)
    (hwf : fs.wf = true) (hwork : fs.lookup (splitPath path) = some (.file ino))
    (hu : utime fs path a m = some fs1) :
    fs1.wf = true ∧
    fs1.lookup (splitPath path) = some (.file { ino with st_atime := a, st_mtime := m }) ∧
    rmAt (splitPath path) fs1 = rmAt (splitPath path) fs ∧
    getFileSizeRecursive fs1 root ≤ getFileSizeRecursive fs root := by
  unfold utime at hu
  rw [hwork] at hu
  simp only [] at hu
  have ho : splitPath path ≠ [] := alter_ne_nil _ _ _ _ hu
  refine ⟨?_, ?_, rmAt_alter _ fs fs1 _ hwf hu, ?_⟩
  · apply wf_alter _ fs fs1 _ hwf hu
    intro x nd hx hy
    cases x with
    | none => simp at hx
    | some y =>
      cases y with
      | file i => simp only [Option.some.injEq] at hx; subst hx; rfl
      | dir d sub =>
        simp only [Option.some.injEq] at hx; subst hx
        exact hy (.dir d sub) rfl
  · unfold Tree.lookup at hwork ⊢
    exact node_alter_self _ fs fs1 _ rootStat _ ho hu (by rw [hwork])
  · rw [getFileSizeRecursive_eq, getFileSizeRecursive_eq]
    have := usageAt_alter_mono _ (splitPath root) fs fs1 _ 0 hwf hu
      (by
        intro x
        cases x with
        | none => simp [Node.totalSize]
        | some y => cases y <;> simp [Node.totalSize])
      (by
        intro x rs
        cases x with
        | none => simp [nodeUsage]
        | some y => cases y <;> simp [nodeUsage])
    exact_mod_cast this

/-- The usage after `_completeDownload` of a regular work file, when there was
room for it. -/
theorem completeDownload_quota (root : String) (fs : Tree) (workPath cachePath : String)
    (stbuf : struct_stat) (now : Int) (ino : Inode) (B : Int) (hwf : fs.wf = true)
    (hwork : fs.lookup (splitPath workPath) = some (.file ino))
    (hR : getFileSizeRecursive (rmAt (splitPath workPath) fs) root + ino.st_size ≤ B)
    (hU : getFileSizeRecursive fs root ≤ B) :
    (_completeDownload fs workPath cachePath stbuf now).2.wf = true ∧
    getFileSizeRecursive (_completeDownload fs workPath cachePath stbuf now).2 root ≤ B := by
  unfold _completeDownload
  cases hu : utime fs workPath now stbuf.st_mtime with
  | none => exact ⟨hwf, hU⟩
  | some fs1 =>
    obtain ⟨hwf1, hl1, hrm, hU1⟩ := utime_spec fs fs1 workPath _ _ ino root hwf hwork hu
    simp only []
    cases hr : rename fs1 workPath cachePath with
    | none => exact ⟨hwf1, le_trans hU1 hU⟩
    | some fs2 =>
      simp only []
      unfold rename at hr
      simp only [hl1] at hr
      split_ifs at hr with hsame hnil hallowed
      · simp only [Option.some.injEq] at hr
        subst hr
        exact ⟨hwf1, le_trans hU1 hU⟩
      · cases ha : Tree.alter (splitPath workPath) (fun _ => none) fs1 with
        | none => simp [ha] at hr
        | some fsA =>
          simp only [ha] at hr
          have hA : fsA = rmAt (splitPath workPath) fs1 := by unfold rmAt; rw [ha]; rfl
          have hwfA : fsA.wf = true :=
            wf_alter _ fs1 fsA _ hwf1 ha (fun x nd hx _ => by simp at hx)
          have hwf2 : fs2.wf = true :=
            wf_alter _ fsA fs2 _ hwfA hr (fun x nd hx _ => by
              simp only [Option.some.injEq] at hx; subst hx; rfl)
          refine ⟨hwf2, ?_⟩
          have h1 := usageAt_write_le _ (splitPath root) fsA fs2 _ hwfA hr
          have h2 := usageAt_rmAt_le (splitPath cachePath) (splitPath root) fsA hwfA
          rw [hA, hrm] at h1 h2
          rw [getFileSizeRecursive_eq] at hR ⊢
          simp only [] at h1
          have h3 : ((usageAt (splitPath root) fs2 : Nat) : Int) ≤
              (usageAt (splitPath root) (rmAt (splitPath workPath) fs) : Nat) + (ino.st_size : Nat) := by
            exact_mod_cast le_trans h1 (Nat.add_le_add_right h2 _)
          omega


theorem write_spec (fs fs1 : Tree) (p : Path) (w : Inode) (root : String) (hwf : fs.wf = true)
    (h : writeFileAt fs p w = some fs1) :
    fs1.wf = true ∧ rmAt p fs1 = rmAt p fs ∧ fs1.lookup p = some (.file w) ∧
    getFileSizeRecursive fs1 root ≤ getFileSizeRecursive (rmAt p fs) root + w.st_size := by
  have halt : Tree.alter p (fun _ => some (.file w)) fs = some fs1 := by
    unfold writeFileAt at h
    split at h
    · simp at h
    · exact h
  refine ⟨?_, rmAt_alter p fs fs1 _ hwf halt, ?_, ?_⟩
  · exact wf_alter p fs fs1 _ hwf halt (fun x nd hx _ => by
      simp only [Option.some.injEq] at hx; subst hx; rfl)
  · exact node_alter_self p fs fs1 _ rootStat _ (alter_ne_nil _ _ _ _ halt) halt rfl
  · rw [getFileSizeRecursive_eq, getFileSizeRecursive_eq]
    exact_mod_cast usageAt_write_le p (splitPath root) fs fs1 w hwf halt

theorem single_get (th : Thread) (i : Nat) :
    ([th] : List Thread)[i]? = if i = 0 then some th else none := by
  cases i <;> simp

theorem quotaInv_step (c : Ctx) (s : PreloadState) (e : Event)
    (hM : c.PreloadConfig.cacheMaxSize > 0) (hmin : 0 ≤ c.PreloadConfig.preloadMinSize)
    (h : QuotaInv c s) (hok : seqOk c s e = true) : QuotaInv c (step c s e) := by
  obtain ⟨hwf, hU, hth⟩ := h
  cases e with
  | request path stbuf pc =>
    simp only [seqOk, List.isEmpty_iff] at hok
    obtain ⟨h1, h2, h3⟩ := preloadFile_quota c s path stbuf pc hwf hM hmin hU
    refine ⟨h1, h2, ?_⟩
    simp only [step]
    rcases h3 with h3 | ⟨td, h3, htd, hroom⟩
    · left; rw [h3, hok]
    · right
      refine ⟨_, by rw [h3, hok]; rfl, ?_⟩
      simp only [threadRoom, htd]
      exact hroom
  | connect i e =>
    rcases hth with hnil | ⟨th, hth, hroom⟩
    · have : step c s (.connect i e) = s := by simp [step, hnil]
      rw [this]; exact ⟨hwf, hU, Or.inl hnil⟩
    · obtain ⟨td, ph⟩ := th
      by_cases hi : i = 0
      swap
      · have : step c s (.connect i e) = s := by simp [step, hth, single_get, hi]
        rw [this]; exact ⟨hwf, hU, Or.inr ⟨_, hth, hroom⟩⟩
      subst hi
      cases ph with
      | starting =>
        simp only [threadRoom] at hroom
        simp only [step, hth, List.getElem?_cons_zero, List.set_cons_zero]
        unfold _download_connect
        split_ifs
        · exact ⟨hwf, hU, Or.inr ⟨_, rfl, by simp [threadRoom, nextPhase]⟩⟩
        · exact ⟨hwf, hU, Or.inr ⟨_, rfl, by simp [threadRoom, nextPhase]⟩⟩
        · exact ⟨hwf, hU, Or.inr ⟨_, rfl, by simp [threadRoom, nextPhase]⟩⟩
        · exact ⟨hwf, hU, Or.inr ⟨_, rfl, by simp [threadRoom, nextPhase]⟩⟩
        · have hwf1 : (prepareDir s.fs (_getCachePath c td.path)).wf = true :=
            wf_mkdirs _ _ hwf
          have hU1 : getFileSizeRecursive (prepareDir s.fs (_getCachePath c td.path))
              c.PreloadConfig.cachePath = getFileSizeRecursive s.fs c.PreloadConfig.cachePath := by
            rw [getFileSizeRecursive_eq, getFileSizeRecursive_eq]
            unfold prepareDir
            rw [usageAt_mkdirs _ _ _ hwf]
          simp only [cacheUsage] at hU ⊢
          refine ⟨hwf1, by simp only [cacheUsage]; rw [hU1]; exact hU, Or.inr ⟨_, rfl, ?_⟩⟩
          simp only [threadRoom, nextPhase]
          have := usage_rmAt_le (prepareDir s.fs (_getCachePath c td.path))
            (splitPath (_getCacheWorkPath c td.path)) c.PreloadConfig.cachePath hwf1
          omega
      | transferring =>
        have : step c s (.connect 0 e) = s := by simp [step, hth]
        rw [this]; exact ⟨hwf, hU, Or.inr ⟨_, hth, hroom⟩⟩
      | publishing =>
        have : step c s (.connect 0 e) = s := by simp [step, hth]
        rw [this]; exact ⟨hwf, hU, Or.inr ⟨_, hth, hroom⟩⟩
      | returned st =>
        have : step c s (.connect 0 e) = s := by simp [step, hth]
        rw [this]; exact ⟨hwf, hU, Or.inr ⟨_, hth, hroom⟩⟩
  | progress i w =>
    rcases hth with hnil | ⟨th, hth, hroom⟩
    · have : step c s (.progress i w) = s := by simp [step, hnil]
      rw [this]; exact ⟨hwf, hU, Or.inl hnil⟩
    · obtain ⟨td, ph⟩ := th
      by_cases hi : i = 0
      swap
      · have : step c s (.progress i w) = s := by simp [step, hth, single_get, hi]
        rw [this]; exact ⟨hwf, hU, Or.inr ⟨_, hth, hroom⟩⟩
      subst hi
      cases ph with
      | transferring =>
        simp only [threadRoom] at hroom
        simp only [seqOk, hth, List.getElem?_cons_zero, decide_eq_true_eq] at hok
        simp only [step, hth, List.getElem?_cons_zero]
        cases hw : writeFileAt s.fs (splitPath (_getCacheWorkPath c td.path)) w with
        | none => exact ⟨hwf, hU, Or.inr ⟨_, rfl, hroom⟩⟩
        | some fs1 =>
          obtain ⟨h1, h2, _, h4⟩ := write_spec s.fs fs1 _ w c.PreloadConfig.cachePath hwf hw
          simp only [Option.getD_some, cacheUsage]
          refine ⟨h1, by simp only [cacheUsage]; omega, Or.inr ⟨_, rfl, ?_⟩⟩
          simp only [threadRoom, h2]
          exact hroom
      | starting =>
        have : step c s (.progress 0 w) = s := by simp [step, hth]
        rw [this]; exact ⟨hwf, hU, Or.inr ⟨_, hth, hroom⟩⟩
      | publishing =>
        have : step c s (.progress 0 w) = s := by simp [step, hth]
        rw [this]; exact ⟨hwf, hU, Or.inr ⟨_, hth, hroom⟩⟩
      | returned st =>
        have : step c s (.progress 0 w) = s := by simp [step, hth]
        rw [this]; exact ⟨hwf, hU, Or.inr ⟨_, hth, hroom⟩⟩
  | transfer i e =>
    rcases hth with hnil | ⟨th, hth, hroom⟩
    · have : step c s (.transfer i e) = s := by simp [step, hnil]
      rw [this]; exact ⟨hwf, hU, Or.inl hnil⟩
    · obtain ⟨td, ph⟩ := th
      by_cases hi : i = 0
      swap
      · have : step c s (.transfer i e) = s := by simp [step, hth, single_get, hi]
        rw [this]; exact ⟨hwf, hU, Or.inr ⟨_, hth, hroom⟩⟩
      subst hi
      cases ph with
      | transferring =>
        simp only [threadRoom] at hroom
        simp only [seqOk, hth, List.getElem?_cons_zero] at hok
        simp only [step, hth, List.getElem?_cons_zero, List.set_cons_zero]
        unfold _download_getUtil
        simp only [cacheUsage] at hU ⊢
        cases hf : e.fetched with
        | none =>
          simp only [hf, decide_eq_true_eq] at hok
          simp only [if_pos hok]
          exact ⟨hwf, hU, Or.inr ⟨_, rfl, by simp [threadRoom, nextPhase]⟩⟩
        | some ino =>
          simp only [hf, Bool.and_eq_true, Bool.or_eq_true, decide_eq_true_eq] at hok
          obtain ⟨hsz, hgw⟩ := hok
          simp only []
          cases hw : writeFileAt s.fs (splitPath (_getCacheWorkPath c td.path)) ino with
          | none =>
            simp only [hw, Option.isSome_none, Bool.false_eq_true, or_false] at hgw
            simp only [Option.getD_none, if_pos hgw]
            exact ⟨hwf, hU, Or.inr ⟨_, rfl, by simp [threadRoom, nextPhase]⟩⟩
          | some fs1 =>
            obtain ⟨h1, h2, h3, h4⟩ :=
              write_spec s.fs fs1 _ ino c.PreloadConfig.cachePath hwf hw
            simp only [Option.getD_some]
            split_ifs
            · exact ⟨h1, by simp only [cacheUsage]; omega, Or.inr ⟨_, rfl, by simp [threadRoom, nextPhase]⟩⟩
            · refine ⟨h1, by simp only [cacheUsage]; omega, Or.inr ⟨_, rfl, ?_⟩⟩
              simp only [threadRoom, nextPhase, h2]
              exact ⟨hroom, ino, h3, hsz⟩
      | starting =>
        have : step c s (.transfer 0 e) = s := by simp [step, hth]
        rw [this]; exact ⟨hwf, hU, Or.inr ⟨_, hth, hroom⟩⟩
      | publishing =>
        have : step c s (.transfer 0 e) = s := by simp [step, hth]
        rw [this]; exact ⟨hwf, hU, Or.inr ⟨_, hth, hroom⟩⟩
      | returned st =>
        have : step c s (.transfer 0 e) = s := by simp [step, hth]
        rw [this]; exact ⟨hwf, hU, Or.inr ⟨_, hth, hroom⟩⟩
  | publish i now =>
    rcases hth with hnil | ⟨th, hth, hroom⟩
    · have : step c s (.publish i now) = s := by simp [step, hnil]
      rw [this]; exact ⟨hwf, hU, Or.inl hnil⟩
    · obtain ⟨td, ph⟩ := th
      by_cases hi : i = 0
      swap
      · have : step c s (.publish i now) = s := by simp [step, hth, single_get, hi]
        rw [this]; exact ⟨hwf, hU, Or.inr ⟨_, hth, hroom⟩⟩
      subst hi
      cases ph with
      | publishing =>
        simp only [threadRoom] at hroom
        obtain ⟨hR, ino, hl, hsz⟩ := hroom
        simp only [step, hth, List.getElem?_cons_zero, List.set_cons_zero]
        simp only [cacheUsage] at hU ⊢
        obtain ⟨h1, h2⟩ := completeDownload_quota c.PreloadConfig.cachePath s.fs
          (_getCacheWorkPath c td.path) (_getCachePath c td.path) td.stbuf now ino
          c.PreloadConfig.cacheMaxSize hwf hl (by omega) hU
        exact ⟨h1, h2, Or.inr ⟨_, rfl, by simp [threadRoom]⟩⟩
      | starting =>
        have : step c s (.publish 0 now) = s := by simp [step, hth]
        rw [this]; exact ⟨hwf, hU, Or.inr ⟨_, hth, hroom⟩⟩
      | transferring =>
        have : step c s (.publish 0 now) = s := by simp [step, hth]
        rw [this]; exact ⟨hwf, hU, Or.inr ⟨_, hth, hroom⟩⟩
      | returned st =>
        have : step c s (.publish 0 now) = s := by simp [step, hth]
        rw [this]; exact ⟨hwf, hU, Or.inr ⟨_, hth, hroom⟩⟩
  | finish i =>
    rcases hth with hnil | ⟨th, hth, hroom⟩
    · have : step c s (.finish i) = s := by simp [step, hnil]
      rw [this]; exact ⟨hwf, hU, Or.inl hnil⟩
    · obtain ⟨td, ph⟩ := th
      by_cases hi : i = 0
      swap
      · have : step c s (.finish i) = s := by simp [step, hth, single_get, hi]
        rw [this]; exact ⟨hwf, hU, Or.inr ⟨_, hth, hroom⟩⟩
      subst hi
      cases ph with
      | returned st =>
        simp only [step, hth, List.getElem?_cons_zero]
        exact ⟨hwf, hU, Or.inl (by simp)⟩
      | starting =>
        have : step c s (.finish 0) = s := by simp [step, hth]
        rw [this]; exact ⟨hwf, hU, Or.inr ⟨_, hth, hroom⟩⟩
      | transferring =>
        have : step c s (.finish 0) = s := by simp [step, hth]
        rw [this]; exact ⟨hwf, hU, Or.inr ⟨_, hth, hroom⟩⟩
      | publishing =>
        have : step c s (.finish 0) = s := by simp [step, hth]
        rw [this]; exact ⟨hwf, hU, Or.inr ⟨_, hth, hroom⟩⟩


/-- C5. Eviction threshold and minimality: on a well-formed file system the
loop of `_evictOldCache` ends; when it returns 0 for `sizeNeeded > 0`, the
sizes of the files it unlinked add up to at least `sizeNeeded` while those of
all but the last one add up to less, and the unlinked files are exactly the
cached files that are gone; for `sizeNeeded <= 0` it returns 0, unlinks
nothing and leaves the file system as it is. -/
theorem C5_eviction_threshold (c : Ctx) (fs : Tree) (sizeNeeded : Int) (hwf : fs.wf = true) :
    (_evictOldCache c fs sizeNeeded).exhausted = false ∧
    (0 < sizeNeeded → (_evictOldCache c fs sizeNeeded).status = 0 →
      sizeNeeded ≤ sizeSum (_evictOldCache c fs sizeNeeded).removed ∧
      sizeSum (_evictOldCache c fs sizeNeeded).removed.dropLast < sizeNeeded ∧
      (cacheFiles c fs).Perm
        ((_evictOldCache c fs sizeNeeded).removed ++
          cacheFiles c (_evictOldCache c fs sizeNeeded).fs)) ∧
    (sizeNeeded ≤ 0 → (_evictOldCache c fs sizeNeeded).status = 0 ∧
      (_evictOldCache c fs sizeNeeded).removed = [] ∧
      (_evictOldCache c fs sizeNeeded).fs = fs) := by
  obtain ⟨hex, _, hseq, hst, hle⟩ := evict_spec c fs sizeNeeded hwf
  refine ⟨hex, ?_, ?_⟩
  · intro hpos h0
    rcases hst with ⟨_, hge, hlast⟩ | ⟨hs, _, _⟩
    · refine ⟨hge, hlast ?_, evictSeq_perm _ _ _ hseq⟩
      intro hnil
      rw [hnil] at hge
      simp [sizeSum] at hge
      omega
    · omega
  · intro hn
    refine ⟨?_, (hle hn).1, (hle hn).2⟩
    unfold _evictOldCache
    rw [if_pos hn]

/-- Witness of C5: evicting 7 bytes from the three-file cache. -/
theorem C5_eviction_threshold_witness :
    exFs3.wf = true ∧
    ((_evictOldCache exCtx exFs3 7).exhausted = false ∧
    ((0 : Int) < 7 → (_evictOldCache exCtx exFs3 7).status = 0 →
      7 ≤ sizeSum (_evictOldCache exCtx exFs3 7).removed ∧
      sizeSum (_evictOldCache exCtx exFs3 7).removed.dropLast < 7 ∧
      (cacheFiles exCtx exFs3).Perm
        ((_evictOldCache exCtx exFs3 7).removed ++
          cacheFiles exCtx (_evictOldCache exCtx exFs3 7).fs)) ∧
    ((7 : Int) ≤ 0 → (_evictOldCache exCtx exFs3 7).status = 0 ∧
      (_evictOldCache exCtx exFs3 7).removed = [] ∧
      (_evictOldCache exCtx exFs3 7).fs = exFs3)) ∧
    (0 : Int) < 7 ∧ (_evictOldCache exCtx exFs3 7).status = 0 :=
  ⟨by decide, C5_eviction_threshold exCtx exFs3 7 (by decide), by decide, by decide⟩

theorem tableInv_step (c : Ctx) (s : PreloadState) (e : Event) (h : TableInv s) :
    TableInv (step c s e) := by
  cases e with
  | request path stbuf pc =>
    simp only [step]
    rcases preloadFile_shape c s path stbuf pc with ⟨fs1, h1, _⟩ | ⟨hk, fs1, ea, ev, h1⟩
    · rw [h1]; exact tableInv_fs s fs1 h
    · rw [h1]; exact tableInv_start s fs1 _ stbuf pc ea ev h hk
  | connect i e =>
    simp only [step]
    split
    · rename_i td hi
      exact tableInv_set s _ i td _ _ h hi
    · exact h
  | progress i written =>
    simp only [step]
    split
    · exact tableInv_fs s _ h
    · exact h
  | transfer i e =>
    simp only [step]
    split
    · rename_i td hi
      exact tableInv_set s _ i td _ _ h hi
    · exact h
  | publish i now =>
    simp only [step]
    split
    · rename_i td hi
      exact tableInv_set s _ i td _ _ h hi
    · exact h
  | finish i =>
    simp only [step]
    split
    · rename_i td st hi
      exact tableInv_finish s i td _ h hi
    · exact h

theorem tableInv_init (fs : Tree) : TableInv (initState fs) :=
  ⟨rfl, List.nodup_nil, by simp [initState], by simp [initState], List.nodup_nil,
    by simp [initState], List.nodup_nil⟩

theorem tableInv_run (c : Ctx) (evs : List Event) : ∀ s, TableInv s → TableInv (run c s evs) := by
  induction evs with
  | nil => intro s h; exact h
  | cons e es ih => intro s h; exact ih _ (tableInv_step c s e h)

theorem run_request_same (c : Ctx) (path : String) (reqs : List (struct_stat × Int)) :
    ∀ s, ¬ (c.getiRODSPath path).1 < 0 →
    lookupFromHashTable s.PreloadThreadTable (c.getiRODSPath path).2 ≠ none →
    run c s (reqs.map (fun r => Event.request path r.1 r.2)) = s := by
  induction reqs with
  | nil => intro s _ _; rfl
  | cons r rs ih =>
    intro s h1 h2
    simp only [List.map_cons, run, step]
    cases hl : lookupFromHashTable s.PreloadThreadTable (c.getiRODSPath path).2 with
    | none => exact absurd hl h2
    | some v =>
      rw [preloadFile_running c s path r.1 r.2 v h1 hl]
      exact ih s h1 h2

theorem length_le_one_of_const {α : Type} (l : List α) (hnd : l.Nodup)
    (hc : ∀ x ∈ l, ∀ y ∈ l, x = y) : l.length ≤ 1 := by
  cases l with
  | nil => simp
  | cons a l =>
    cases l with
    | nil => simp
    | cons b l =>
      have := hc a (by simp) b (by simp)
      subst this
      simp at hnd

theorem threads_per_path (s : PreloadState) (h : TableInv s) (q : String) :
    (s.threads.filter (fun th => decide (th.data.path = q))).length ≤ 1 := by
  have hnd : ((s.threads.filter (fun th => decide (th.data.path = q))).map
      (fun th => th.data.threadInfo.addr)).Nodup :=
    h.thread_nodup.sublist ((List.filter_sublist _).map _)
  have := length_le_one_of_const _ hnd (by
    intro x hx y hy
    obtain ⟨t1, ht1, rfl⟩ := List.mem_map.1 hx
    obtain ⟨t2, ht2, rfl⟩ := List.mem_map.1 hy
    simp only [List.mem_filter, decide_eq_true_eq] at ht1 ht2
    have r1 := h.thread_reg t1.data (List.mem_map.2 ⟨t1, ht1.1, rfl⟩)
    have r2 := h.thread_reg t2.data (List.mem_map.2 ⟨t2, ht2.1, rfl⟩)
    have l1 := lookup_of_mem _ _ _ h.keys_nodup r1
    have l2 := lookup_of_mem _ _ _ h.keys_nodup r2
    rw [ht1.2] at l1
    rw [ht2.2, l1] at l2
    simp only [Option.some.injEq] at l2
    rw [l2])
  simpa using this

/-- C1. At most one active preload per path: in every state reached from the
initial state by admissions and steps of background threads, no path has two
records in `PreloadThreadTable` and `PreloadThreadList` holds the records of
the table; a call of `preloadFile` for a path that has a record returns 0,
leaves the state as it is and creates no thread; and while a download thread
for a path runs, any number of further requests for that path leave the state
unchanged, the threads downloading that path being exactly one. -/
theorem C1_at_most_one_preload (c : Ctx) (fs0 : Tree) (evs : List Event) :
    ((run c (initState fs0) evs).PreloadThreadTable.map Prod.fst).Nodup ∧
    (run c (initState fs0) evs).PreloadThreadList =
      (run c (initState fs0) evs).PreloadThreadTable.map Prod.snd ∧
    (∀ (path : String) (stbuf : struct_stat) (pc : Int), ¬ (c.getiRODSPath path).1 < 0 →
      lookupFromHashTable (run c (initState fs0) evs).PreloadThreadTable
        (c.getiRODSPath path).2 ≠ none →
      (preloadFile c (run c (initState fs0) evs) path stbuf pc).status = 0 ∧
      (preloadFile c (run c (initState fs0) evs) path stbuf pc).state =
        run c (initState fs0) evs ∧
      (preloadFile c (run c (initState fs0) evs) path stbuf pc).created = none) ∧
    (∀ (path : String) (reqs : List (struct_stat × Int)), ¬ (c.getiRODSPath path).1 < 0 →
      (∃ th ∈ (run c (initState fs0) evs).threads, th.data.path = (c.getiRODSPath path).2) →
      run c (run c (initState fs0) evs) (reqs.map (fun r => Event.request path r.1 r.2)) =
        run c (initState fs0) evs ∧
      ((run c (initState fs0) evs).threads.filter
        (fun th => decide (th.data.path = (c.getiRODSPath path).2))).length = 1) := by
  have hinv := tableInv_run c evs _ (tableInv_init fs0)
  refine ⟨hinv.keys_nodup, hinv.list_eq, ?_, ?_⟩
  · intro path stbuf pc h1 h2
    cases hl : lookupFromHashTable (run c (initState fs0) evs).PreloadThreadTable
        (c.getiRODSPath path).2 with
    | none => exact absurd hl h2
    | some v =>
      rw [preloadFile_running c _ path stbuf pc v h1 hl]
      exact ⟨rfl, rfl, rfl⟩
  · intro path reqs h1 ⟨th, hth, hp⟩
    have hreg := hinv.thread_reg th.data (List.mem_map.2 ⟨th, hth, rfl⟩)
    have hl := lookup_of_mem _ _ _ hinv.keys_nodup hreg
    rw [hp] at hl
    refine ⟨run_request_same c path reqs _ h1 (by rw [hl]; simp), ?_⟩
    have hle := threads_per_path _ hinv (c.getiRODSPath path).2
    have hpos : 0 < ((run c (initState fs0) evs).threads.filter
        (fun th => decide (th.data.path = (c.getiRODSPath path).2))).length := by
      apply List.length_pos_of_mem (a := th)
      simp [List.mem_filter, hth, hp]
    omega

/-- Witness of C1: after one admitted request for `/tempZone/a`, three more
requests for it change nothing and one download thread exists. -/
theorem C1_at_most_one_preload_witness :
    ((preloadFile exCtx (run exCtx (initState exFs) [Event.request "/tempZone/a" (exStat6 100) 0])
        "/tempZone/a" (exStat6 100) 0).status = 0 ∧
      (preloadFile exCtx (run exCtx (initState exFs) [Event.request "/tempZone/a" (exStat6 100) 0])
        "/tempZone/a" (exStat6 100) 0).state =
        run exCtx (initState exFs) [Event.request "/tempZone/a" (exStat6 100) 0] ∧
      (preloadFile exCtx (run exCtx (initState exFs) [Event.request "/tempZone/a" (exStat6 100) 0])
        "/tempZone/a" (exStat6 100) 0).created = none) ∧
    (run exCtx (run exCtx (initState exFs) [Event.request "/tempZone/a" (exStat6 100) 0])
        ([(exStat6 100, 0), (exStat6 200, 0), (exStat6 100, 0)].map
          (fun r => Event.request "/tempZone/a" r.1 r.2)) =
        run exCtx (initState exFs) [Event.request "/tempZone/a" (exStat6 100) 0] ∧
      ((run exCtx (initState exFs) [Event.request "/tempZone/a" (exStat6 100) 0]).threads.filter
        (fun th => decide (th.data.path = (exCtx.getiRODSPath "/tempZone/a").2))).length = 1) :=
  ⟨(C1_at_most_one_preload exCtx exFs [Event.request "/tempZone/a" (exStat6 100) 0]).2.2.1
      "/tempZone/a" (exStat6 100) 0 (by decide) (by decide),
    (C1_at_most_one_preload exCtx exFs [Event.request "/tempZone/a" (exStat6 100) 0]).2.2.2
      "/tempZone/a" [(exStat6 100, 0), (exStat6 200, 0), (exStat6 100, 0)] (by decide)
      (by decide)⟩

/-- C2. Idempotent admission: when the path has no record in the thread table
and `stat` of its cache path gives the size and the modification time of the
given attributes, `_hasValidCache` returns 0 and `preloadFile` returns 0 and
leaves the whole state as it is (tables, threads and every file), creating no
thread and evicting nothing. -/
theorem C2_idempotent_admission (c : Ctx) (s : PreloadState) (path : String)
    (stbuf stbufCache : struct_stat) (pc : Int)
    (hconv : ¬ (c.getiRODSPath path).1 < 0)
    (hidle : lookupFromHashTable s.PreloadThreadTable (c.getiRODSPath path).2 = none)
    (hstat : stat s.fs (_getCachePath c (c.getiRODSPath path).2) = some stbufCache)
    (hsize : stbufCache.st_size = stbuf.st_size)
    (hmtime : stbufCache.st_mtime = stbuf.st_mtime) :
    _hasValidCache c s.fs (c.getiRODSPath path).2 stbuf = 0 ∧
    (preloadFile c s path stbuf pc).status = 0 ∧
    (preloadFile c s path stbuf pc).state = s ∧
    (preloadFile c s path stbuf pc).created = none ∧
    (preloadFile c s path stbuf pc).evictArg = none := by
  have hv : _hasValidCache c s.fs (c.getiRODSPath path).2 stbuf = 0 := by
    unfold _hasValidCache
    rw [hstat]
    simp [hsize, hmtime]
  rw [preloadFile_preloaded c s path stbuf pc hconv hidle hv]
  exact ⟨hv, rfl, rfl, rfl, rfl⟩

/-- Witness of C2: a second request for the published object `/tempZone/a`. -/
theorem C2_idempotent_admission_witness :
    _hasValidCache exCtx exCached.fs (exCtx.getiRODSPath "/tempZone/a").2 (exStat6 100) = 0 ∧
    (preloadFile exCtx exCached "/tempZone/a" (exStat6 100) 0).status = 0 ∧
    (preloadFile exCtx exCached "/tempZone/a" (exStat6 100) 0).state = exCached ∧
    (preloadFile exCtx exCached "/tempZone/a" (exStat6 100) 0).created = none ∧
    (preloadFile exCtx exCached "/tempZone/a" (exStat6 100) 0).evictArg = none :=
  C2_idempotent_admission exCtx exCached "/tempZone/a" (exStat6 100)
    { st_isdir := false, st_size := 6291456, st_atime := 501, st_mtime := 100 } 0
    (by decide) (by decide) (by decide) (by decide) (by decide)

/-- C8. Minimum-size gate: for an admission with no record in the thread table
and no valid cache, an object smaller than `preloadMinSize` makes `preloadFile`
return 0 with the table, the list and the threads unchanged, no thread created,
and every regular file present afterwards already present before (none is
created); and the request is cancelled as too small only in that case, so an
object of exactly `preloadMinSize` passes this gate. -/
theorem C8_minimum_size_gate (c : Ctx) (s : PreloadState) (path : String)
    (stbuf : struct_stat) (pc : Int)
    (hconv : ¬ (c.getiRODSPath path).1 < 0)
    (hidle : lookupFromHashTable s.PreloadThreadTable (c.getiRODSPath path).2 = none)
    (hinvalid : _hasValidCache c s.fs (c.getiRODSPath path).2 stbuf ≠ 0) :
    (stbuf.st_size < c.PreloadConfig.preloadMinSize →
      (preloadFile c s path stbuf pc).status = 0 ∧
      (preloadFile c s path stbuf pc).state.PreloadThreadTable = s.PreloadThreadTable ∧
      (preloadFile c s path stbuf pc).state.PreloadThreadList = s.PreloadThreadList ∧
      (preloadFile c s path stbuf pc).state.threads = s.threads ∧
      (preloadFile c s path stbuf pc).created = none ∧
      ((preloadFile c s path stbuf pc).state.fs.files []).Sublist (s.fs.files [])) ∧
    ((preloadFile c s path stbuf pc).log = .tooSmall ↔
      stbuf.st_size < c.PreloadConfig.preloadMinSize) ∧
    (stbuf.st_size = c.PreloadConfig.preloadMinSize →
      (preloadFile c s path stbuf pc).log ≠ .tooSmall) := by
  have key : (preloadFile c s path stbuf pc).log = .tooSmall ↔
      stbuf.st_size < c.PreloadConfig.preloadMinSize := by
    constructor
    · intro hlog
      by_contra h4
      by_cases h5 : c.PreloadConfig.cacheMaxSize > 0
      swap
      · rw [preloadFile_unlimited c s path stbuf pc hconv hidle hinvalid h4 h5] at hlog
        simp [preloadFile_start] at hlog
      by_cases h6 : stbuf.st_size > c.PreloadConfig.cacheMaxSize
      · rw [preloadFile_tooLarge c s path stbuf pc hconv hidle hinvalid h4 h5 h6] at hlog
        simp at hlog
      by_cases h7 : getFileSizeRecursive (_invalidateCache c s.fs (c.getiRODSPath path).2).2
          c.PreloadConfig.cachePath + stbuf.st_size > c.PreloadConfig.cacheMaxSize
      swap
      · rw [preloadFile_fits c s path stbuf pc hconv hidle hinvalid h4 h5 h6 h7] at hlog
        simp [preloadFile_start] at hlog
      rw [preloadFile_evict c s path stbuf pc hconv hidle hinvalid h4 h5 h6 h7] at hlog
      split_ifs at hlog
      simp [preloadFile_start] at hlog
    · intro h4
      rw [preloadFile_tooSmall c s path stbuf pc hconv hidle hinvalid h4]
  refine ⟨?_, key, ?_⟩
  · intro h4
    rw [preloadFile_tooSmall c s path stbuf pc hconv hidle hinvalid h4]
    exact ⟨rfl, rfl, rfl, rfl, rfl, invalidate_sublist c s.fs _⟩
  · intro heq hlog
    have := key.1 hlog
    omega

/-- Witness of C8: a 500 KB object with a minimum preload size of 1 MB. -/
theorem C8_minimum_size_gate_witness :
    (preloadFile exCtx (initState exFs) "/tempZone/small" exStatSmall 0).status = 0 ∧
    (preloadFile exCtx (initState exFs) "/tempZone/small" exStatSmall 0).state.PreloadThreadTable
      = [] ∧
    (preloadFile exCtx (initState exFs) "/tempZone/small" exStatSmall 0).state.PreloadThreadList
      = [] ∧
    (preloadFile exCtx (initState exFs) "/tempZone/small" exStatSmall 0).state.threads = [] ∧
    (preloadFile exCtx (initState exFs) "/tempZone/small" exStatSmall 0).created = none ∧
    ((preloadFile exCtx (initState exFs) "/tempZone/small" exStatSmall 0).state.fs.files
      []).Sublist ((initState exFs).fs.files []) :=
  (C8_minimum_size_gate exCtx (initState exFs) "/tempZone/small" exStatSmall 0
    (by decide) (by decide) (by decide)).1 (by decide)

/-- C9. Maximum-size gate: for an admission that passed the dedup, valid-cache
and minimum-size checks, `preloadFile` cancels the request as too large exactly
when `cacheMaxSize > 0` and `st_size > cacheMaxSize`, and this is also the only
case in which it returns 0 without creating a thread; it then leaves table,
list and threads unchanged and calls no eviction.
With `cacheMaxSize <= 0` (so for 0) nothing is cancelled for its size and
`_evictOldCache` is not called: the record is registered under the path, the
thread creation is called with the path and the attributes, its status is
returned, and the download thread runs when that status is 0. -/
theorem C9_maximum_size_gate (c : Ctx) (s : PreloadState) (path : String)
    (stbuf : struct_stat) (pc : Int)
    (hconv : ¬ (c.getiRODSPath path).1 < 0)
    (hidle : lookupFromHashTable s.PreloadThreadTable (c.getiRODSPath path).2 = none)
    (hinvalid : _hasValidCache c s.fs (c.getiRODSPath path).2 stbuf ≠ 0)
    (hmin : ¬ stbuf.st_size < c.PreloadConfig.preloadMinSize) :
    ((preloadFile c s path stbuf pc).log = .tooLarge ↔
      (c.PreloadConfig.cacheMaxSize > 0 ∧ stbuf.st_size > c.PreloadConfig.cacheMaxSize)) ∧
    (((preloadFile c s path stbuf pc).status = 0 ∧
        (preloadFile c s path stbuf pc).created = none) ↔
      (c.PreloadConfig.cacheMaxSize > 0 ∧ stbuf.st_size > c.PreloadConfig.cacheMaxSize)) ∧
    ((preloadFile c s path stbuf pc).log = .tooLarge →
      (preloadFile c s path stbuf pc).status = 0 ∧
      (preloadFile c s path stbuf pc).state.PreloadThreadTable = s.PreloadThreadTable ∧
      (preloadFile c s path stbuf pc).state.PreloadThreadList = s.PreloadThreadList ∧
      (preloadFile c s path stbuf pc).state.threads = s.threads ∧
      (preloadFile c s path stbuf pc).created = none ∧
      (preloadFile c s path stbuf pc).evictArg = none ∧
      (preloadFile c s path stbuf pc).evicted = []) ∧
    (c.PreloadConfig.cacheMaxSize ≤ 0 →
      (preloadFile c s path stbuf pc).log = .startPreloading ∧
      (preloadFile c s path stbuf pc).evictArg = none ∧
      (preloadFile c s path stbuf pc).evicted = [] ∧
      (preloadFile c s path stbuf pc).status = pc ∧
      (preloadFile c s path stbuf pc).created =
        some { path := (c.getiRODSPath path).2, stbuf := stbuf,
               threadInfo := { addr := s.nextAddr, path := (c.getiRODSPath path).2,
                               running := .PRELOAD_THREAD_RUNNING } } ∧
      lookupFromHashTable (preloadFile c s path stbuf pc).state.PreloadThreadTable
          (c.getiRODSPath path).2 =
        some { addr := s.nextAddr, path := (c.getiRODSPath path).2,
               running := .PRELOAD_THREAD_RUNNING } ∧
      (pc = 0 → (preloadFile c s path stbuf pc).state.threads = s.threads ++
        [{ data := { path := (c.getiRODSPath path).2, stbuf := stbuf,
                     threadInfo := { addr := s.nextAddr, path := (c.getiRODSPath path).2,
                                     running := .PRELOAD_THREAD_RUNNING } },
           phase := .starting }])) := by
  have key : (preloadFile c s path stbuf pc).log = .tooLarge ↔
      (c.PreloadConfig.cacheMaxSize > 0 ∧ stbuf.st_size > c.PreloadConfig.cacheMaxSize) := by
    constructor
    · intro hlog
      by_cases h5 : c.PreloadConfig.cacheMaxSize > 0
      swap
      · rw [preloadFile_unlimited c s path stbuf pc hconv hidle hinvalid hmin h5] at hlog
        simp [preloadFile_start] at hlog
      by_cases h6 : stbuf.st_size > c.PreloadConfig.cacheMaxSize
      · exact ⟨h5, h6⟩
      by_cases h7 : getFileSizeRecursive (_invalidateCache c s.fs (c.getiRODSPath path).2).2
          c.PreloadConfig.cachePath + stbuf.st_size > c.PreloadConfig.cacheMaxSize
      swap
      · rw [preloadFile_fits c s path stbuf pc hconv hidle hinvalid hmin h5 h6 h7] at hlog
        simp [preloadFile_start] at hlog
      rw [preloadFile_evict c s path stbuf pc hconv hidle hinvalid hmin h5 h6 h7] at hlog
      split_ifs at hlog
      simp [preloadFile_start] at hlog
    · rintro ⟨h5, h6⟩
      rw [preloadFile_tooLarge c s path stbuf pc hconv hidle hinvalid hmin h5 h6]
  refine ⟨key, ?_, ?_, ?_⟩
  · constructor
    · rintro ⟨hst, hcr⟩
      by_cases h5 : c.PreloadConfig.cacheMaxSize > 0
      swap
      · rw [preloadFile_unlimited c s path stbuf pc hconv hidle hinvalid hmin h5] at hcr
        simp [preloadFile_start] at hcr
      by_cases h6 : stbuf.st_size > c.PreloadConfig.cacheMaxSize
      · exact ⟨h5, h6⟩
      by_cases h7 : getFileSizeRecursive (_invalidateCache c s.fs (c.getiRODSPath path).2).2
          c.PreloadConfig.cachePath + stbuf.st_size > c.PreloadConfig.cacheMaxSize
      swap
      · rw [preloadFile_fits c s path stbuf pc hconv hidle hinvalid hmin h5 h6 h7] at hcr
        simp [preloadFile_start] at hcr
      rw [preloadFile_evict c s path stbuf pc hconv hidle hinvalid hmin h5 h6 h7] at hcr hst
      split_ifs at hcr hst with hneg
      · simp only [] at hst
        omega
      · simp [preloadFile_start] at hcr
    · rintro ⟨h5, h6⟩
      rw [preloadFile_tooLarge c s path stbuf pc hconv hidle hinvalid hmin h5 h6]
      exact ⟨rfl, rfl⟩
  · intro hlog
    obtain ⟨h5, h6⟩ := key.1 hlog
    rw [preloadFile_tooLarge c s path stbuf pc hconv hidle hinvalid hmin h5 h6]
    exact ⟨rfl, rfl, rfl, rfl, rfl, rfl, rfl⟩
  · intro h0
    have h5 : ¬ c.PreloadConfig.cacheMaxSize > 0 := by omega
    rw [preloadFile_unlimited c s path stbuf pc hconv hidle hinvalid hmin h5]
    refine ⟨rfl, rfl, rfl, rfl, rfl, ?_, ?_⟩
    · exact lookup_insert_self _ _ _ hidle
    · intro hpc
      simp [preloadFile_start, hpc]

/-- Witness of C9: a 20 MB object is too large for the 10 MB cache, and is
admitted without eviction when no quota is set. -/
theorem C9_maximum_size_gate_witness :
    ((preloadFile exCtx (initState exFs) "/tempZone/big" exStatBig 0).status = 0 ∧
    (preloadFile exCtx (initState exFs) "/tempZone/big" exStatBig 0).state.PreloadThreadTable
      = (initState exFs).PreloadThreadTable ∧
    (preloadFile exCtx (initState exFs) "/tempZone/big" exStatBig 0).state.PreloadThreadList
      = (initState exFs).PreloadThreadList ∧
    (preloadFile exCtx (initState exFs) "/tempZone/big" exStatBig 0).state.threads
      = (initState exFs).threads ∧
    (preloadFile exCtx (initState exFs) "/tempZone/big" exStatBig 0).created = none ∧
    (preloadFile exCtx (initState exFs) "/tempZone/big" exStatBig 0).evictArg = none ∧
    (preloadFile exCtx (initState exFs) "/tempZone/big" exStatBig 0).evicted = []) ∧
    (preloadFile exCtxUnlimited (initState exFs) "/tempZone/big" exStatBig 0).log =
      .startPreloading ∧
    (preloadFile exCtxUnlimited (initState exFs) "/tempZone/big" exStatBig 0).evictArg = none :=
  ⟨(C9_maximum_size_gate exCtx (initState exFs) "/tempZone/big" exStatBig 0
      (by decide) (by decide) (by decide) (by decide)).2.2.1 (by decide),
    ((C9_maximum_size_gate exCtxUnlimited (initState exFs) "/tempZone/big" exStatBig 0
      (by decide) (by decide) (by decide) (by decide)).2.2.2 (by decide)).1,
    ((C9_maximum_size_gate exCtxUnlimited (initState exFs) "/tempZone/big" exStatBig 0
      (by decide) (by decide) (by decide) (by decide)).2.2.2 (by decide)).2.1⟩

/-- C7. Eviction on shortfall.  For an admission with no record in the thread
table and no valid cache, `cacheMaxSize = M > 0` and
`preloadMinSize <= st_size <= M`, with `U` the usage of the cache root after
the stale cache was invalidated: `preloadFile` calls `_evictOldCache` exactly
when `U + st_size > M`, with the argument `U + st_size - M`; when that call
returns a negative status, `preloadFile` returns the same status, leaves
table, list and threads unchanged and creates no thread.  In the example, after
the 6 MB object `/tempZone/a` was cached under a quota of 10 MB, the admission
of the 6 MB object `/tempZone/b` evicts 2 MB, which unlinks the cache file of
`/tempZone/a`, and starts the download. -/
theorem C7_eviction_on_shortfall :
    (∀ (c : Ctx) (s : PreloadState) (path : String) (stbuf : struct_stat) (pc : Int)
      (fs1 : Tree) (U : Int),
      ¬ (c.getiRODSPath path).1 < 0 →
      lookupFromHashTable s.PreloadThreadTable (c.getiRODSPath path).2 = none →
      _hasValidCache c s.fs (c.getiRODSPath path).2 stbuf ≠ 0 →
      c.PreloadConfig.cacheMaxSize > 0 →
      c.PreloadConfig.preloadMinSize ≤ stbuf.st_size →
      stbuf.st_size ≤ c.PreloadConfig.cacheMaxSize →
      fs1 = (_invalidateCache c s.fs (c.getiRODSPath path).2).2 →
      U = getFileSizeRecursive fs1 c.PreloadConfig.cachePath →
      (preloadFile c s path stbuf pc).evictArg =
        (if U + stbuf.st_size > c.PreloadConfig.cacheMaxSize
          then some (U + stbuf.st_size - c.PreloadConfig.cacheMaxSize) else none) ∧
      (U + stbuf.st_size > c.PreloadConfig.cacheMaxSize →
        (preloadFile c s path stbuf pc).evicted =
          (_evictOldCache c fs1 (U + stbuf.st_size - c.PreloadConfig.cacheMaxSize)).removed ∧
        ((_evictOldCache c fs1 (U + stbuf.st_size - c.PreloadConfig.cacheMaxSize)).status < 0 →
          (preloadFile c s path stbuf pc).status =
            (_evictOldCache c fs1 (U + stbuf.st_size - c.PreloadConfig.cacheMaxSize)).status ∧
          (preloadFile c s path stbuf pc).state.PreloadThreadTable = s.PreloadThreadTable ∧
          (preloadFile c s path stbuf pc).state.PreloadThreadList = s.PreloadThreadList ∧
          (preloadFile c s path stbuf pc).state.threads = s.threads ∧
          (preloadFile c s path stbuf pc).created = none))) ∧
    (_hasCache exCtx exCached.fs "/tempZone/a" = 0 ∧
      (preloadFile exCtx exCached "/tempZone/b" (exStat6 200) 0).evictArg = some 2097152 ∧
      (preloadFile exCtx exCached "/tempZone/b" (exStat6 200) 0).evicted =
        [(["cache", "tempZone", "a"],
          { st_isdir := false, st_size := 6291456, st_atime := 501, st_mtime := 100 })] ∧
      _hasCache exCtx (preloadFile exCtx exCached "/tempZone/b" (exStat6 200) 0).state.fs
        "/tempZone/a" = -1 ∧
      (preloadFile exCtx exCached "/tempZone/b" (exStat6 200) 0).log = .startPreloading) := by
  refine ⟨?_, by decide⟩
  intro c s path stbuf pc fs1 U hconv hidle hinvalid h5 hmin hmax hfs1 hU
  have h4 : ¬ stbuf.st_size < c.PreloadConfig.preloadMinSize := by omega
  have h6 : ¬ stbuf.st_size > c.PreloadConfig.cacheMaxSize := by omega
  subst hfs1 hU
  by_cases h7 : getFileSizeRecursive (_invalidateCache c s.fs (c.getiRODSPath path).2).2
      c.PreloadConfig.cachePath + stbuf.st_size > c.PreloadConfig.cacheMaxSize
  · rw [preloadFile_evict c s path stbuf pc hconv hidle hinvalid h4 h5 h6 h7, if_pos h7]
    refine ⟨?_, fun _ => ⟨?_, ?_⟩⟩
    · split_ifs <;> rfl
    · split_ifs <;> rfl
    · intro hneg
      rw [if_pos hneg]
      exact ⟨rfl, rfl, rfl, rfl, rfl⟩
  · rw [preloadFile_fits c s path stbuf pc hconv hidle hinvalid h4 h5 h6 h7, if_neg h7]
    exact ⟨rfl, fun h => absurd h h7⟩

/-- Witness of C7: the admission of the second 6 MB object. -/
theorem C7_eviction_on_shortfall_witness :
    (preloadFile exCtx exCached "/tempZone/b" (exStat6 200) 0).evictArg =
      (if (6291456 : Int) + (exStat6 200).st_size > exCtx.PreloadConfig.cacheMaxSize
        then some (6291456 + (exStat6 200).st_size - exCtx.PreloadConfig.cacheMaxSize)
        else none) :=
  (C7_eviction_on_shortfall.1 exCtx exCached "/tempZone/b" (exStat6 200) 0
    (_invalidateCache exCtx exCached.fs (exCtx.getiRODSPath "/tempZone/b").2).2 6291456
    (by decide) (by decide) (by decide) (by decide) (by decide) (by decide) rfl
    (by decide)).1
/-- Publishing with a work path that differs from the cache path.  On a
well-formed file system, when the work path names a regular file, the two
paths resolve to different paths, and `_completeDownload` returns 0, then
afterwards the cache path names a regular file with the content and size of
the work file and `st_mtime = stbuf.st_mtime`, and nothing exists at the work
path; consequently, when the cache path is the one of `path` and the size of
the downloaded file equals `stbuf.st_size`, `_hasValidCache (path, stbuf)`
returns 0 and a later `preloadFile (path, stbuf)` on that file system returns
0, changes nothing and creates no thread. -/
theorem publish_round_trip (fs : Tree) (workPath cachePath : String)
    (stbuf : struct_stat) (now : Int) (ino : Inode) (hwf : fs.wf = true)
    (hwork : fs.lookup (splitPath workPath) = some (.file ino))
    (hne : splitPath workPath ≠ splitPath cachePath)
    (hok : (_completeDownload fs workPath cachePath stbuf now).1 = 0) :
    (_completeDownload fs workPath cachePath stbuf now).2.lookup (splitPath cachePath) =
      some (.file { st_size := ino.st_size, st_atime := now, st_mtime := stbuf.st_mtime,
                    data := ino.data }) ∧
    stat (_completeDownload fs workPath cachePath stbuf now).2 workPath = none ∧
    (∀ (c : Ctx) (s : PreloadState) (p : String) (pc : Int),
      cachePath = _getCachePath c (c.getiRODSPath p).2 → (ino.st_size : Int) = stbuf.st_size →
      ¬ (c.getiRODSPath p).1 < 0 →
      s.fs = (_completeDownload fs workPath cachePath stbuf now).2 →
      _hasValidCache c s.fs (c.getiRODSPath p).2 stbuf = 0 ∧
      (preloadFile c s p stbuf pc).status = 0 ∧
      (preloadFile c s p stbuf pc).state = s ∧
      (preloadFile c s p stbuf pc).created = none) := by
  obtain ⟨h1, h2⟩ := completeDownload_spec fs workPath cachePath stbuf now ino hwf hwork hne hok
  refine ⟨h1, by simp [stat, h2], ?_⟩
  intro c s p pc hcp hsize hconv hs
  have hv : _hasValidCache c s.fs (c.getiRODSPath p).2 stbuf = 0 := by
    unfold _hasValidCache stat
    rw [hs, ← hcp, h1]
    simp [Node.toStat, Inode.toStat, hsize]
  refine ⟨hv, ?_⟩
  cases hl : lookupFromHashTable s.PreloadThreadTable (c.getiRODSPath p).2 with
  | some v =>
    rw [preloadFile_running c s p stbuf pc v hconv hl]
    exact ⟨rfl, rfl, rfl⟩
  | none =>
    rw [preloadFile_preloaded c s p stbuf pc hconv hl hv]
    exact ⟨rfl, rfl, rfl⟩

/-- The download of `/tempZone/a` is published: the cache file is there with
the modification time of the remote object and the work file is gone. -/
theorem publish_tempZone_a :
    (_completeDownload (_download_transfer exCtx exFs "/tempZone/a" (exEnv 1 500)).2
        "/cache/tempZone/a.part" "/cache/tempZone/a" (exStat6 100) 501).2.lookup
        (splitPath "/cache/tempZone/a") =
      some (.file { st_size := 6291456, st_atime := 501, st_mtime := 100, data := 1 }) ∧
    stat (_completeDownload (_download_transfer exCtx exFs "/tempZone/a" (exEnv 1 500)).2
        "/cache/tempZone/a.part" "/cache/tempZone/a" (exStat6 100) 501).2
        "/cache/tempZone/a.part" = none :=
  ⟨(publish_round_trip (_download_transfer exCtx exFs "/tempZone/a" (exEnv 1 500)).2
      "/cache/tempZone/a.part" "/cache/tempZone/a" (exStat6 100) 501
      { st_size := 6291456, st_atime := 500, st_mtime := 500, data := 1 }
      (by decide) (by decide) (by decide) (by decide)).1,
   (publish_round_trip (_download_transfer exCtx exFs "/tempZone/a" (exEnv 1 500)).2
      "/cache/tempZone/a.part" "/cache/tempZone/a" (exStat6 100) 501
      { st_size := 6291456, st_atime := 500, st_mtime := 500, data := 1 }
      (by decide) (by decide) (by decide) (by decide)).2.1⟩

set_option maxRecDepth 1000000 in
/-- Claim C10, evaluated where it fails.  For the iRODS path `exLongPath` of
1082 characters nothing is at the cache path before the download, and
`_getCacheWorkPath` and `_getCachePath` give the same truncated string.
`getUtil` has written the file there (`exLongFs`); `_completeDownload` on that
pair of paths returns 0, the rename of a path to itself succeeding, and a file
still exists at the work path.  So does the whole of `_download`: it returns 0
and leaves a file at the work path; the rest of the claim holds there, the
file being a valid cache of the path. -/
theorem C10_publish_truncated_path :
    stat exFs (_getCachePath exCtx exLongPath) = none ∧
    _getCacheWorkPath exCtx exLongPath = _getCachePath exCtx exLongPath ∧
    (_completeDownload exLongFs (_getCacheWorkPath exCtx exLongPath)
      (_getCachePath exCtx exLongPath) (exStat6 100) 501).1 = 0 ∧
    stat (_completeDownload exLongFs (_getCacheWorkPath exCtx exLongPath)
      (_getCachePath exCtx exLongPath) (exStat6 100) 501).2
      (_getCacheWorkPath exCtx exLongPath) =
      some { st_isdir := false, st_size := 6291456, st_atime := 501, st_mtime := 100 } ∧
    (_download exCtx exFs exLongPath (exStat6 100) (exEnv 1 500) 501).1 = 0 ∧
    stat (_download exCtx exFs exLongPath (exStat6 100) (exEnv 1 500) 501).2
      (_getCacheWorkPath exCtx exLongPath) =
      some { st_isdir := false, st_size := 6291456, st_atime := 501, st_mtime := 100 } ∧
    _hasValidCache exCtx (_download exCtx exFs exLongPath (exStat6 100) (exEnv 1 500) 501).2
      exLongPath (exStat6 100) = 0 := by
  decide!

theorem quotaInv_run (c : Ctx) (hM : c.PreloadConfig.cacheMaxSize > 0)
    (hmin : 0 ≤ c.PreloadConfig.preloadMinSize) (evs : List Event) :
    ∀ s, QuotaInv c s → seqRun c s evs = true → QuotaInv c (run c s evs) := by
  induction evs with
  | nil => intro s h _; exact h
  | cons e es ih =>
    intro s h hseq
    simp only [seqRun, Bool.and_eq_true] at hseq
    exact ih _ (quotaInv_step c s e hM hmin h hseq.1) hseq.2

/-- C3 (as amended). Quota invariant without overlapping downloads: with
`cacheMaxSize = M > 0` and `preloadMinSize >= 0`, from a state with a
well-formed file system, no background thread and a usage of the cache root of
at most `M`, after any sequence of requests, download progress steps, publishes
and thread ends in which a request is made only while no download thread
exists and a download writes no more than the `st_size` it was admitted with
(`seqRun`), the total size of the files under the cache root is at most `M`
(the work file of the download in progress included). -/
theorem C3_quota_without_overlap (c : Ctx) (s0 : PreloadState) (evs : List Event)
    (hwf : s0.fs.wf = true) (hM : c.PreloadConfig.cacheMaxSize > 0)
    (hmin : 0 ≤ c.PreloadConfig.preloadMinSize) (hidle : s0.threads = [])
    (h0 : cacheUsage c s0 ≤ c.PreloadConfig.cacheMaxSize)
    (hseq : seqRun c s0 evs = true) :
    cacheUsage c (run c s0 evs) ≤ c.PreloadConfig.cacheMaxSize :=
  (quotaInv_run c hM hmin evs s0 ⟨hwf, h0, Or.inl hidle⟩ hseq).2.1

/-- Witness of C3 as amended: two 6 MB objects downloaded one after the other
under a quota of 10 MB. -/
theorem C3_quota_without_overlap_witness :
    seqRun exCtx (initState exFs) exSequential = true ∧
    cacheUsage exCtx (run exCtx (initState exFs) exSequential) ≤
      exCtx.PreloadConfig.cacheMaxSize :=
  ⟨by decide, C3_quota_without_overlap exCtx (initState exFs) exSequential
    (by decide) (by decide) (by decide) (by decide) (by decide) (by decide)⟩

/-- Counterexample to C3 as stated: with a quota of 10 MB, two 6 MB objects
requested one right after the other, before either download has written
anything, both complete; when no download is in flight any more the cache root
holds 12 MB. -/
theorem C3_counterexample :
    exCtx.PreloadConfig.cacheMaxSize = 10485760 ∧
    (run exCtx (initState exFs) exRace).threads = [] ∧
    cacheUsage exCtx (run exCtx (initState exFs) exRace) = 12582912 := by
  decide

/-! ## The table of open cache files -/

theorem lookup_delete_self {α : Type} (T : List (String × α)) (k : String)
    (hk : (T.map Prod.fst).Nodup) : lookupFromHashTable (deleteFromHashTable T k) k = none := by
  induction T with
  | nil => rfl
  | cons e T ih =>
    obtain ⟨k1, v1⟩ := e
    simp only [List.map_cons, List.nodup_cons] at hk
    by_cases h : k1 = k
    · subst h
      simp only [deleteFromHashTable, if_true]
      exact (lookup_none_iff T k1).2 hk.1
    · simp only [deleteFromHashTable, if_neg h, lookupFromHashTable]
      exact ih hk.2

theorem lookup_delete_ne {α : Type} (T : List (String × α)) (k q : String) (hq : q ≠ k) :
    lookupFromHashTable (deleteFromHashTable T k) q = lookupFromHashTable T q := by
  induction T with
  | nil => rfl
  | cons e T ih =>
    obtain ⟨k1, v1⟩ := e
    by_cases h : k1 = k
    · subst h
      simp only [deleteFromHashTable, if_true, lookupFromHashTable, if_neg (Ne.symm hq)]
    · simp only [deleteFromHashTable, if_neg h, lookupFromHashTable, ih]

theorem setHandle_keys (T : List (String × preloadFileHandleInfo_t)) (k : String) (d : Int) :
    (setHandle T k d).map Prod.fst = T.map Prod.fst := by
  induction T with
  | nil => rfl
  | cons e T ih =>
    obtain ⟨k1, v1⟩ := e
    by_cases h : k1 = k
    · simp [setHandle, h]
    · simp [setHandle, h, ih]

theorem lookup_setHandle (T : List (String × preloadFileHandleInfo_t)) (k : String) (d : Int)
    (v : preloadFileHandleInfo_t) (h : lookupFromHashTable T k = some v) :
    lookupFromHashTable (setHandle T k d) k = some { v with handle := d } := by
  induction T with
  | nil => simp [lookupFromHashTable] at h
  | cons e T ih =>
    obtain ⟨k1, v1⟩ := e
    by_cases hk : k1 = k
    · simp only [lookupFromHashTable, if_pos hk, Option.some.injEq] at h
      subst h
      simp [setHandle, hk, lookupFromHashTable]
    · simp only [lookupFromHashTable, if_neg hk] at h
      simp [setHandle, hk, lookupFromHashTable, ih h]

theorem insert_keys_nodup {α : Type} (T : List (String × α)) (k : String) (v : α)
    (hk : (T.map Prod.fst).Nodup) (h : lookupFromHashTable T k = none) :
    ((insertIntoHashTable T k v).map Prod.fst).Nodup := by
  have hn := (lookup_none_iff T k).1 h
  simp only [insertIntoHashTable, List.map_append, List.map_cons, List.map_nil]
  rw [List.nodup_append]
  refine ⟨hk, List.nodup_singleton _, ?_⟩
  intro a ha hb
  simp only [List.mem_singleton] at hb
  subst hb
  exact hn ha

/-- What `openPreloadedFile` does when the path conversion succeeds and the
table holds an open descriptor for the path. -/
theorem open_reuse (c : Ctx) (s : PreloadState) (path : String) (fd : Int)
    (info : preloadFileHandleInfo_t) (hconv : 0 ≤ (c.getiRODSPath path).1)
    (hl : lookupFromHashTable s.PreloadFileHandleTable (c.getiRODSPath path).2 = some info)
    (hh : 0 < info.handle) :
    openPreloadedFile c s path fd = { desc := info.handle, state := s, opened := none } := by
  unfold openPreloadedFile
  simp only []
  rw [if_neg (not_lt.2 hconv), hl]
  simp only []
  rw [if_pos hh]

/-- What `openPreloadedFile` does when the path conversion succeeds, the table
holds no open descriptor for the path and the cache path does not exist. -/
theorem open_absent (c : Ctx) (s : PreloadState) (path : String) (fd : Int)
    (hconv : 0 ≤ (c.getiRODSPath path).1)
    (hl : ∀ info, lookupFromHashTable s.PreloadFileHandleTable (c.getiRODSPath path).2 =
      some info → info.handle ≤ 0)
    (hc : _hasCache c s.fs (c.getiRODSPath path).2 < 0) :
    openPreloadedFile c s path fd = { desc := -1, state := s, opened := none } := by
  unfold openPreloadedFile
  simp only []
  rw [if_neg (not_lt.2 hconv)]
  cases hlk : lookupFromHashTable s.PreloadFileHandleTable (c.getiRODSPath path).2 with
  | none => simp only []; rw [if_neg (not_le.2 hc)]
  | some info =>
    simp only []
    rw [if_neg (not_lt.2 (hl info hlk)), if_neg (not_le.2 hc)]

theorem hasCache_neg (c : Ctx) (fs : Tree) (p : String) (h : stat fs (_getCachePath c p) = none) :
    _hasCache c fs p < 0 := by
  simp [_hasCache, h]

/-- What `openPreloadedFile` does when the path conversion succeeds, the table
holds no entry for the path and the cache path exists: it calls `open`, and
files the descriptor when it is positive. -/
theorem open_new (c : Ctx) (s : PreloadState) (path : String) (fd : Int)
    (hconv : 0 ≤ (c.getiRODSPath path).1)
    (hl : lookupFromHashTable s.PreloadFileHandleTable (c.getiRODSPath path).2 = none)
    (hc : _hasCache c s.fs (c.getiRODSPath path).2 ≥ 0) (hfd : 0 < fd) :
    openPreloadedFile c s path fd =
      { desc := fd
        state :=
          { s with
            PreloadFileHandleTable :=
              insertIntoHashTable s.PreloadFileHandleTable (c.getiRODSPath path).2
                { path := (c.getiRODSPath path).2, handle := fd } }
        opened := some (_getCachePath c (c.getiRODSPath path).2) } := by
  unfold openPreloadedFile
  simp only []
  rw [if_neg (not_lt.2 hconv), hl]
  simp only []
  rw [if_pos hc, if_pos hfd]

/-- What `openPreloadedFile` does when the table holds an entry without an
open descriptor for the path and the cache path exists. -/
theorem open_again (c : Ctx) (s : PreloadState) (path : String) (fd : Int)
    (info : preloadFileHandleInfo_t) (hconv : 0 ≤ (c.getiRODSPath path).1)
    (hl : lookupFromHashTable s.PreloadFileHandleTable (c.getiRODSPath path).2 = some info)
    (hh : info.handle ≤ 0)
    (hc : _hasCache c s.fs (c.getiRODSPath path).2 ≥ 0) (hfd : 0 < fd) :
    openPreloadedFile c s path fd =
      { desc := fd
        state :=
          { s with
            PreloadFileHandleTable :=
              setHandle s.PreloadFileHandleTable (c.getiRODSPath path).2 fd }
        opened := some (_getCachePath c (c.getiRODSPath path).2) } := by
  unfold openPreloadedFile
  simp only []
  rw [if_neg (not_lt.2 hconv), hl]
  simp only []
  rw [if_neg (not_lt.2 hh), if_pos hc, if_pos hfd]

/-- After a call of `openPreloadedFile` that returns a positive descriptor the
table holds that descriptor for the path, the file system is the same, and
no key occurs twice in the table if none did before. -/
theorem open_positive (c : Ctx) (s : PreloadState) (path : String) (fd : Int)
    (hconv : 0 ≤ (c.getiRODSPath path).1)
    (hc : _hasCache c s.fs (c.getiRODSPath path).2 ≥ 0) (hfd : 0 < fd)
    (hk : (s.PreloadFileHandleTable.map Prod.fst).Nodup) :
    0 < (openPreloadedFile c s path fd).desc ∧
    (∃ info, lookupFromHashTable (openPreloadedFile c s path fd).state.PreloadFileHandleTable
        (c.getiRODSPath path).2 = some info ∧
      info.handle = (openPreloadedFile c s path fd).desc) ∧
    (openPreloadedFile c s path fd).state.fs = s.fs ∧
    (((openPreloadedFile c s path fd).state.PreloadFileHandleTable).map Prod.fst).Nodup := by
  cases hl : lookupFromHashTable s.PreloadFileHandleTable (c.getiRODSPath path).2 with
  | none =>
    rw [open_new c s path fd hconv hl hc hfd]
    exact ⟨hfd, ⟨_, lookup_insert_self _ _ _ hl, rfl⟩, rfl, insert_keys_nodup _ _ _ hk hl⟩
  | some info =>
    by_cases hh : 0 < info.handle
    · rw [open_reuse c s path fd info hconv hl hh]
      exact ⟨hh, ⟨info, hl, rfl⟩, rfl, hk⟩
    · rw [open_again c s path fd info hconv hl (not_lt.1 hh) hc hfd]
      refine ⟨hfd, ⟨_, lookup_setHandle _ _ fd info hl, rfl⟩, rfl, ?_⟩
      show ((setHandle s.PreloadFileHandleTable (c.getiRODSPath path).2 fd).map Prod.fst).Nodup
      rw [setHandle_keys]; exact hk

/-- What `closePreloadedFile` does when the path conversion succeeds and the
table holds an entry for the path. -/
theorem close_entry (c : Ctx) (s : PreloadState) (path : String)
    (info : preloadFileHandleInfo_t) (hconv : 0 ≤ (c.getiRODSPath path).1)
    (hl : lookupFromHashTable s.PreloadFileHandleTable (c.getiRODSPath path).2 = some info) :
    closePreloadedFile c s path =
      { status := (c.getiRODSPath path).1
        state :=
          { s with
            PreloadFileHandleTable :=
              deleteFromHashTable s.PreloadFileHandleTable (c.getiRODSPath path).2 }
        closed := if info.handle > 0 then some info.handle else none } := by
  unfold closePreloadedFile
  simp only []
  rw [if_neg (not_lt.2 hconv), hl]

theorem invalidate_table (c : Ctx) (s : PreloadState) (path : String) :
    (invalidatePreloadedCache c s path).2.PreloadFileHandleTable = s.PreloadFileHandleTable := by
  unfold invalidatePreloadedCache
  simp only []
  split_ifs <;> rfl

theorem close_fs (c : Ctx) (s : PreloadState) (path : String) :
    (closePreloadedFile c s path).state.fs = s.fs := by
  unfold closePreloadedFile
  simp only []
  split_ifs
  · rfl
  · split <;> rfl

/-! ## Claim C11 -/

/-- Claim C11, as amended.  In a state where nothing exists at the final cache
path of the path and the table of open cache files holds no open descriptor
for it (whether or not the work file exists), `isPreloaded` returns a negative
status and `openPreloadedFile` returns a negative status, `-1` when the path
conversion succeeds, without calling `open` and without changing the state:
no `preloadFileHandleInfo_t` is created. -/
theorem C11_download_invisible (c : Ctx) (s : PreloadState) (path : String) (fd : Int)
    (hnone : stat s.fs (_getCachePath c (c.getiRODSPath path).2) = none)
    (hnoh : ∀ info, lookupFromHashTable s.PreloadFileHandleTable (c.getiRODSPath path).2 =
      some info → info.handle ≤ 0) :
    isPreloaded c s path < 0 ∧
    (openPreloadedFile c s path fd).desc < 0 ∧
    (0 ≤ (c.getiRODSPath path).1 → (openPreloadedFile c s path fd).desc = -1) ∧
    (openPreloadedFile c s path fd).state = s ∧
    (openPreloadedFile c s path fd).opened = none := by
  have hc := hasCache_neg c s.fs _ hnone
  by_cases hconv : (c.getiRODSPath path).1 < 0
  · refine ⟨?_, ?_, ?_, ?_, ?_⟩
    · simp only [isPreloaded]; rw [if_pos hconv]; exact hconv
    · unfold openPreloadedFile; simp only []; rw [if_pos hconv]; exact hconv
    · intro h; omega
    · unfold openPreloadedFile; simp only []; rw [if_pos hconv]
    · unfold openPreloadedFile; simp only []; rw [if_pos hconv]
  · have h0 := not_lt.1 hconv
    rw [open_absent c s path fd h0 hnoh hc]
    refine ⟨?_, by show (-1 : Int) < 0; decide, fun _ => rfl, rfl, rfl⟩
    simp only [isPreloaded]; rw [if_neg hconv]; exact hc

/-- Witness of C11 as amended: the download of `/tempZone/a` has written half of
its work file and the path was never read before. -/
theorem C11_download_invisible_witness :
    stat exDownloading.fs "/cache/tempZone/a" = none ∧
    (stat exDownloading.fs "/cache/tempZone/a.part").isSome = true ∧
    isPreloaded exCtx exDownloading "/tempZone/a" < 0 ∧
    (openPreloadedFile exCtx exDownloading "/tempZone/a" 7).desc = -1 :=
  ⟨by decide, by decide,
    (C11_download_invisible exCtx exDownloading "/tempZone/a" 7 (by decide)
      (fun info h => by
        have hn : lookupFromHashTable exDownloading.PreloadFileHandleTable
            (exCtx.getiRODSPath "/tempZone/a").2 = none := by decide
        rw [hn] at h; cases h)).1,
    (C11_download_invisible exCtx exDownloading "/tempZone/a" 7 (by decide)
      (fun info h => by
        have hn : lookupFromHashTable exDownloading.PreloadFileHandleTable
            (exCtx.getiRODSPath "/tempZone/a").2 = none := by decide
        rw [hn] at h; cases h)).2.2.1 (by decide)⟩

/-- Counterexample to C11 as stated.  The cache of `/tempZone/a` was read
(descriptor 5), then invalidated, and a new download of the path is writing
its work file: only the work file exists, and `openPreloadedFile` returns the
old descriptor 5 instead of `-1`. -/
theorem C11_counterexample :
    stat exStale.fs (_getCachePath exCtx "/tempZone/a") = none ∧
    (stat exStale.fs (_getCacheWorkPath exCtx "/tempZone/a")).isSome = true ∧
    (openPreloadedFile exCtx exStale "/tempZone/a" 7).desc = 5 := by
  decide

/-! ## Claims C14, C15 and C16 -/

/-- What the code does with the table of open cache files on an invalidation:
`invalidatePreloadedCache` leaves it as it is.  When the table (without a key
occurring twice) holds an open descriptor for the path, it still does
afterwards and a following `openPreloadedFile` returns that descriptor without
calling `open`; `closePreloadedFile` is what removes the entry and closes the
descriptor, and after it, if nothing exists at the cache path,
`openPreloadedFile` returns `-1`. -/
theorem invalidate_keeps_handle (c : Ctx) (s : PreloadState) (path : String) (fd : Int)
    (info : preloadFileHandleInfo_t) (hconv : 0 ≤ (c.getiRODSPath path).1)
    (hl : lookupFromHashTable s.PreloadFileHandleTable (c.getiRODSPath path).2 = some info)
    (hh : 0 < info.handle) (hk : (s.PreloadFileHandleTable.map Prod.fst).Nodup) :
    (invalidatePreloadedCache c s path).2.PreloadFileHandleTable = s.PreloadFileHandleTable ∧
    (openPreloadedFile c (invalidatePreloadedCache c s path).2 path fd).desc = info.handle ∧
    (openPreloadedFile c (invalidatePreloadedCache c s path).2 path fd).opened = none ∧
    (closePreloadedFile c (invalidatePreloadedCache c s path).2 path).closed =
      some info.handle ∧
    lookupFromHashTable
      (closePreloadedFile c (invalidatePreloadedCache c s path).2 path).state.PreloadFileHandleTable
      (c.getiRODSPath path).2 = none ∧
    (stat (invalidatePreloadedCache c s path).2.fs (_getCachePath c (c.getiRODSPath path).2) =
        none →
      (openPreloadedFile c
        (closePreloadedFile c (invalidatePreloadedCache c s path).2 path).state path fd).desc =
        -1) := by
  have ht := invalidate_table c s path
  have hl1 : lookupFromHashTable (invalidatePreloadedCache c s path).2.PreloadFileHandleTable
      (c.getiRODSPath path).2 = some info := by rw [ht]; exact hl
  have hcl := close_entry c (invalidatePreloadedCache c s path).2 path info hconv hl1
  have hnone : lookupFromHashTable
      (closePreloadedFile c (invalidatePreloadedCache c s path).2 path).state.PreloadFileHandleTable
      (c.getiRODSPath path).2 = none := by
    rw [hcl]
    show lookupFromHashTable (deleteFromHashTable _ _) _ = none
    rw [ht]
    exact lookup_delete_self _ _ hk
  refine ⟨ht, ?_, ?_, ?_, hnone, ?_⟩
  · rw [open_reuse c _ path fd info hconv hl1 hh]
  · rw [open_reuse c _ path fd info hconv hl1 hh]
  · rw [hcl]; show (if info.handle > 0 then some info.handle else none) = _; rw [if_pos hh]
  · intro hgone
    have hfs := close_fs c (invalidatePreloadedCache c s path).2 path
    rw [open_absent c _ path fd hconv (fun i hi => by rw [hnone] at hi; cases hi)
      (hasCache_neg c _ _ (by rw [hfs]; exact hgone))]

/-- Claim C15, evaluated where it fails.  The table holds descriptor 5 for
`/tempZone/a` (state `exOpened`).  `invalidatePreloadedCache` returns 0 and
removes the cache file, but the table still holds the entry and
`openPreloadedFile` returns 5, not `-1`.  `irodsRelease` does not remove it
either: `isPreloadedFile` is negative now, so `closePreloadedFile` is not
called.  After the object was downloaded again and its new cache file
published (state `exRefreshed`), `openPreloadedFile` still returns descriptor 5
of the unlinked file and does not open the new one.  The entry is destroyed
where the code means to destroy it, in `closePreloadedFile`: on `exOpened` it
closes descriptor 5 and leaves no entry for the path. -/
theorem C15_stale_descriptor :
    lookupFromHashTable exOpened.PreloadFileHandleTable "/tempZone/a" =
      some { path := "/tempZone/a", handle := 5 } ∧
    (invalidatePreloadedCache exCtx exOpened "/tempZone/a").1 = 0 ∧
    stat exInvalidated.fs (_getCachePath exCtx "/tempZone/a") = none ∧
    lookupFromHashTable exInvalidated.PreloadFileHandleTable "/tempZone/a" =
      some { path := "/tempZone/a", handle := 5 } ∧
    (openPreloadedFile exCtx exInvalidated "/tempZone/a" 7).desc = 5 ∧
    isPreloadedFile exCtx exInvalidated "/tempZone/a" = -1 ∧
    lookupFromHashTable
      (irodsRelease_hook exCtx exInvalidated "/tempZone/a").PreloadFileHandleTable
      "/tempZone/a" = some { path := "/tempZone/a", handle := 5 } ∧
    stat exRefreshed.fs (_getCachePath exCtx "/tempZone/a") =
      some { st_isdir := false, st_size := 6291456, st_atime := 601, st_mtime := 200 } ∧
    exRefreshed.threads = [] ∧
    (openPreloadedFile exCtx exRefreshed "/tempZone/a" 7).desc = 5 ∧
    (openPreloadedFile exCtx exRefreshed "/tempZone/a" 7).opened = none ∧
    (closePreloadedFile exCtx exOpened "/tempZone/a").closed = some 5 ∧
    lookupFromHashTable
      (closePreloadedFile exCtx exOpened "/tempZone/a").state.PreloadFileHandleTable
      "/tempZone/a" = none := by
  decide

/-- Claim C16.  For a path with an existing cache path, a table in which no key
occurs twice, and `open` returning positive descriptors: the first
`openPreloadedFile` returns a positive descriptor (the one `open` returns,
from a single call on the cache path, when the table has no entry yet); a
second call returns the same descriptor without calling `open` and changes
nothing; `closePreloadedFile` then closes that descriptor and leaves the table
without an entry for the path and with the entries of other paths as they
were; and the next `openPreloadedFile` calls `open` on the cache path again. -/
theorem C16_descriptor_reuse (c : Ctx) (s : PreloadState) (path : String) (fd1 fd2 fd3 : Int)
    (hconv : 0 ≤ (c.getiRODSPath path).1)
    (hc : _hasCache c s.fs (c.getiRODSPath path).2 ≥ 0)
    (hk : (s.PreloadFileHandleTable.map Prod.fst).Nodup)
    (hfd1 : 0 < fd1) (hfd3 : 0 < fd3) :
    0 < (openPreloadedFile c s path fd1).desc ∧
    (lookupFromHashTable s.PreloadFileHandleTable (c.getiRODSPath path).2 = none →
      (openPreloadedFile c s path fd1).desc = fd1 ∧
      (openPreloadedFile c s path fd1).opened =
        some (_getCachePath c (c.getiRODSPath path).2)) ∧
    (openPreloadedFile c (openPreloadedFile c s path fd1).state path fd2).desc =
      (openPreloadedFile c s path fd1).desc ∧
    (openPreloadedFile c (openPreloadedFile c s path fd1).state path fd2).opened = none ∧
    (openPreloadedFile c (openPreloadedFile c s path fd1).state path fd2).state =
      (openPreloadedFile c s path fd1).state ∧
    (closePreloadedFile c (openPreloadedFile c s path fd1).state path).closed =
      some (openPreloadedFile c s path fd1).desc ∧
    lookupFromHashTable
      (closePreloadedFile c (openPreloadedFile c s path fd1).state path).state.PreloadFileHandleTable
      (c.getiRODSPath path).2 = none ∧
    (∀ q, q ≠ (c.getiRODSPath path).2 →
      lookupFromHashTable
        (closePreloadedFile c (openPreloadedFile c s path fd1).state
          path).state.PreloadFileHandleTable q =
      lookupFromHashTable (openPreloadedFile c s path fd1).state.PreloadFileHandleTable q) ∧
    (openPreloadedFile c (closePreloadedFile c (openPreloadedFile c s path fd1).state path).state
      path fd3).desc = fd3 ∧
    (openPreloadedFile c (closePreloadedFile c (openPreloadedFile c s path fd1).state path).state
      path fd3).opened = some (_getCachePath c (c.getiRODSPath path).2) := by
  obtain ⟨hpos, ⟨info, hinfo, hdesc⟩, hfs, hk1⟩ := open_positive c s path fd1 hconv hc hfd1 hk
  have hre := open_reuse c (openPreloadedFile c s path fd1).state path fd2 info hconv hinfo
    (by rw [hdesc]; exact hpos)
  have hcl := close_entry c (openPreloadedFile c s path fd1).state path info hconv hinfo
  have hnone : lookupFromHashTable
      (closePreloadedFile c (openPreloadedFile c s path fd1).state path).state.PreloadFileHandleTable
      (c.getiRODSPath path).2 = none := by
    rw [hcl]; exact lookup_delete_self _ _ hk1
  have hc3 : _hasCache c
      (closePreloadedFile c (openPreloadedFile c s path fd1).state path).state.fs
      (c.getiRODSPath path).2 ≥ 0 := by
    rw [close_fs, hfs]; exact hc
  have h3 := open_new c _ path fd3 hconv hnone hc3 hfd3
  refine ⟨hpos, ?_, ?_, ?_, ?_, ?_, hnone, ?_, ?_, ?_⟩
  · intro hl
    rw [open_new c s path fd1 hconv hl hc hfd1]
    exact ⟨rfl, rfl⟩
  · rw [hre]; exact hdesc
  · rw [hre]
  · rw [hre]
  · rw [hcl]
    show (if info.handle > 0 then some info.handle else none) = _
    rw [if_pos (by rw [hdesc]; exact hpos), hdesc]
  · intro q hq
    rw [hcl]; exact lookup_delete_ne _ _ q hq
  · rw [h3]
  · rw [h3]

/-- Witness of C16: the completed cache of `/tempZone/a` is read twice. -/
theorem C16_descriptor_reuse_witness :
    _hasCache exCtx exCached.fs "/tempZone/a" = 0 ∧
    (openPreloadedFile exCtx exCached "/tempZone/a" 5).desc = 5 ∧
    (openPreloadedFile exCtx (openPreloadedFile exCtx exCached "/tempZone/a" 5).state
      "/tempZone/a" 6).desc = (openPreloadedFile exCtx exCached "/tempZone/a" 5).desc :=
  ⟨by decide, by decide,
    (C16_descriptor_reuse exCtx exCached "/tempZone/a" 5 6 7 (by decide) (by decide)
      (by decide) (by decide) (by decide)).2.2.1⟩

/-- Claim C14, evaluated where it fails.  `/tempZone/a` has a completed cache
and is renamed to `/tempZone/sub/a`, a directory the cache has no directory
for: `renamePreloadedCache` returns `-1`, the cache file is still at the old
cache path and nothing is at the new one; `irodsRename`, whose remote rename
succeeded, returns that `-1`. -/
theorem C14_rename_into_new_directory :
    isPreloaded exCtx exCached "/tempZone/a" = 0 ∧
    (renamePreloadedCache exCtx exCached "/tempZone/a" "/tempZone/sub/a").1 = -1 ∧
    (stat (renamePreloadedCache exCtx exCached "/tempZone/a" "/tempZone/sub/a").2.fs
      (_getCachePath exCtx "/tempZone/a")).isSome = true ∧
    stat (renamePreloadedCache exCtx exCached "/tempZone/a" "/tempZone/sub/a").2.fs
      (_getCachePath exCtx "/tempZone/sub/a") = none ∧
    (irodsRename exOperEnv exCtx exCached "/tempZone/a" "/tempZone/sub/a").calls =
      [.remote .rcDataObjRename, .renmeLocalPath "/tempZone/a" "/tempZone/sub/a"] ∧
    (irodsRename exOperEnv exCtx exCached "/tempZone/a" "/tempZone/sub/a").status = -1 := by
  decide

/-! ## Claim C13: removing incomplete caches -/

theorem alterEntry_not_found (n : String) (f : Option Node → Option Node) (t : Tree)
    (h : t.find n = none) (hf : f none = none) : t.alterEntry n f = t := by
  induction t with
  | nil => simp [Tree.alterEntry, hf]
  | file k i rest ih =>
    simp only [Tree.find] at h
    by_cases hk : k = n
    · simp [hk] at h
    · simp only [if_neg hk] at h
      simp [Tree.alterEntry, hk, ih h]
  | dir k d sub rest _ ih =>
    simp only [Tree.find] at h
    by_cases hk : k = n
    · simp [hk] at h
    · simp only [if_neg hk] at h
      simp [Tree.alterEntry, hk, ih h]

/-- A rewrite at `p` that keeps a missing entry missing, a file a file and a
directory a directory with its listing leaves every path that resolved to
nothing resolving to nothing. -/
theorem node_none_alter (p : Path) : ∀ (t t1 : Tree) (f : Option Node → Option Node) (q : Path)
    (d0 : DirStat), Tree.alter p f t = some t1 → f none = none →
    (∀ i, ∃ j, f (some (.file i)) = some (.file j)) →
    (∀ d sub, ∃ d1, f (some (.dir d sub)) = some (.dir d1 sub)) →
    Tree.node q d0 t = none → Tree.node q d0 t1 = none := by
  induction p with
  | nil => intro t t1 f q d0 h; simp [Tree.alter] at h
  | cons a ps ih =>
    intro t t1 f q d0 h hnone hfile hdir hq
    cases q with
    | nil => simp [Tree.node] at hq
    | cons b qs =>
      cases ps with
      | nil =>
        simp only [Tree.alter, Option.some.injEq] at h
        subst h
        by_cases hab : b = a
        · subst hab
          cases hfd : t.find b with
          | none =>
            rw [alterEntry_not_found b f t hfd hnone]; exact hq
          | some x =>
            cases x with
            | file i =>
              obtain ⟨j, hj⟩ := hfile i
              have := find_alterEntry_some b f t (.file j) (by rw [hfd]; exact hj)
              simp only [Tree.node, hfd] at hq
              simp only [Tree.node, this]
              by_cases hqs : qs = []
              · simp [hqs] at hq
              · simp [hqs]
            | dir d sub =>
              obtain ⟨d1, hd1⟩ := hdir d sub
              have := find_alterEntry_some b f t (.dir d1 sub) (by rw [hfd]; exact hd1)
              simp only [Tree.node, hfd] at hq
              simp only [Tree.node, this]
              cases qs with
              | nil => simp [Tree.node] at hq
              | cons x xs => simpa [Tree.node] using hq
        · simp only [Tree.node, find_alterEntry_ne a b f t hab] at hq ⊢
          exact hq
      | cons m ms =>
        cases hfd : t.find a with
        | none =>
          rw [alter_cons_none a (m :: ms) (by simp) _ t (by simp [hfd])] at h
          simp at h
        | some x =>
          cases x with
          | file i =>
            rw [alter_cons_none a (m :: ms) (by simp) _ t (by simp [hfd])] at h
            simp at h
          | dir d sub =>
            rw [alter_cons_dir a (m :: ms) (by simp) _ t d sub hfd] at h
            cases hs : Tree.alter (m :: ms) f sub with
            | none => simp [hs] at h
            | some s1 =>
              simp only [hs, Option.map_some', Option.some.injEq] at h
              subst h
              by_cases hab : b = a
              · subst hab
                have := find_alterEntry_some b (fun _ => some (.dir d s1)) t (.dir d s1) rfl
                simp only [Tree.node, hfd] at hq
                simp only [Tree.node, this]
                exact ih sub s1 f qs d hs hnone hfile hdir hq
              · simp only [Tree.node, find_alterEntry_ne a b _ t hab] at hq ⊢
                exact hq

theorem node_nil (q : Path) (d0 : DirStat) (hq : q ≠ []) : Tree.node q d0 .nil = none := by
  cases q with
  | nil => exact absurd rfl hq
  | cons b qs => simp [Tree.node, Tree.find]

/-- Creating the directories that lead to a path does not create the path. -/
theorem node_none_mkdirs (q : Path) : ∀ (t : Tree) (d0 : DirStat),
    Tree.node q d0 t = none → Tree.node q d0 (Tree.mkdirs q.dropLast t) = none := by
  induction q with
  | nil => intro t d0 h; simp [Tree.node] at h
  | cons b qs ih =>
    intro t d0 h
    cases qs with
    | nil => simpa [Tree.mkdirs] using h
    | cons m ms =>
      have hdl : (b :: m :: ms).dropLast = b :: (m :: ms).dropLast := by simp [List.dropLast]
      rw [hdl]
      cases hfd : t.find b with
      | none =>
        simp only [Tree.mkdirs, hfd]
        have := find_alterEntry_some b
          (fun _ => some (.dir rootStat (Tree.mkdirs (m :: ms).dropLast .nil))) t _ rfl
        simp only [Tree.node, this]
        exact ih .nil rootStat (node_nil _ _ (by simp))
      | some x =>
        cases x with
        | file i => simp only [Tree.mkdirs, hfd]; exact h
        | dir d sub =>
          simp only [Tree.mkdirs, hfd]
          have := find_alterEntry_some b
            (fun _ => some (.dir d (Tree.mkdirs (m :: ms).dropLast sub))) t _ rfl
          simp only [Tree.node, this]
          simp only [Tree.node, hfd] at h
          exact ih sub d h

theorem stat_none_iff (fs : Tree) (p : String) :
    stat fs p = none ↔ fs.lookup (splitPath p) = none := by
  simp [stat]

theorem lookup_none_write (fs : Tree) (w q : Path) (ino : Inode) (hne : w ≠ q)
    (h : fs.lookup q = none) : ((writeFileAt fs w ino).getD fs).lookup q = none := by
  cases hw : writeFileAt fs w ino with
  | none => simpa using h
  | some fs1 =>
    simp only [Option.getD_some]
    unfold writeFileAt at hw
    have hal : fs.alter w (fun _ => some (.file ino)) = some fs1 := by
      split at hw
      · cases hw
      · exact hw
    exact node_alter_file_other w fs fs1 ino q rootStat hal (Ne.symm hne) h

theorem lookup_none_utime (fs fs1 : Tree) (w : String) (q : Path) (a m : Int)
    (hu : utime fs w a m = some fs1) (h : fs.lookup q = none) : fs1.lookup q = none := by
  unfold utime at hu
  split at hu
  · cases hu
  · exact node_none_alter _ fs fs1 _ q rootStat hu rfl (fun i => ⟨_, rfl⟩) (fun d sub => ⟨_, rfl⟩) h

theorem completeDownload_failure (fs1 : Tree) (w p : String) (stbuf : struct_stat) (now : Int)
    (q : Path) (h1 : fs1.lookup q = none) (hst : (_completeDownload fs1 w p stbuf now).1 ≠ 0) :
    (_completeDownload fs1 w p stbuf now).2.lookup q = none := by
  unfold _completeDownload at hst ⊢
  cases hu : utime fs1 w now stbuf.st_mtime with
  | none => exact h1
  | some fs2 =>
    have h2 := lookup_none_utime fs1 fs2 _ _ _ _ hu h1
    rw [hu] at hst
    simp only [] at hst ⊢
    cases hr : rename fs2 w p with
    | none => exact h2
    | some fs3 => rw [hr] at hst; simp at hst

/-- When the work path and the cache path resolve to different paths, a run of
`_download` that does not return 0 leaves the cache path unresolved if it was
before. -/
theorem download_failure_clean (c : Ctx) (fs : Tree) (path : String) (stbuf : struct_stat)
    (e : DownloadEnv) (now : Int)
    (hne : splitPath (_getCacheWorkPath c path) ≠ splitPath (_getCachePath c path))
    (hst : (_download c fs path stbuf e now).1 ≠ 0)
    (h : stat fs (_getCachePath c path) = none) :
    stat (_download c fs path stbuf e now).2 (_getCachePath c path) = none := by
  rw [stat_none_iff] at h ⊢
  have hprep : (prepareDir fs (_getCachePath c path)).lookup (splitPath (_getCachePath c path)) =
      none := node_none_mkdirs _ fs rootStat h
  have hconn : (_download_connect c fs path e).2.lookup (splitPath (_getCachePath c path)) =
      none := by
    unfold _download_connect
    split_ifs <;> first | exact h | exact hprep
  have hget : ∀ fs0 : Tree, fs0.lookup (splitPath (_getCachePath c path)) = none →
      (_download_getUtil c fs0 path e).2.lookup (splitPath (_getCachePath c path)) = none := by
    intro fs0 h0
    have hw : ∀ ino, ((writeFileAt fs0 (splitPath (_getCacheWorkPath c path)) ino).getD
        fs0).lookup (splitPath (_getCachePath c path)) = none :=
      fun ino => lookup_none_write fs0 _ _ ino hne h0
    unfold _download_getUtil
    cases hf : e.fetched with
    | none => simp only []; split_ifs <;> exact h0
    | some ino => simp only []; split_ifs <;> exact hw ino
  have htr : (_download_transfer c fs path e).2.lookup (splitPath (_getCachePath c path)) =
      none := by
    unfold _download_transfer
    cases hc : _download_connect c fs path e with
    | mk r fs1 =>
      have h1 : fs1.lookup (splitPath (_getCachePath c path)) = none := by
        have := hconn; rw [hc] at this; exact this
      cases r with
      | some st => exact h1
      | none => exact hget fs1 h1
  unfold _download at hst ⊢
  cases ht : _download_transfer c fs path e with
  | mk r fs1 =>
    have h1 : fs1.lookup (splitPath (_getCachePath c path)) = none := by
      have := htr; rw [ht] at this; exact this
    rw [ht] at hst
    cases r with
    | some st => exact h1
    | none =>
      simp only [] at hst ⊢
      have hcd := completeDownload_failure fs1 (_getCacheWorkPath c path) (_getCachePath c path)
        stbuf now _ h1
      by_cases hneg : (_completeDownload fs1 (_getCacheWorkPath c path) (_getCachePath c path)
          stbuf now).1 < 0
      · rw [if_pos hneg]; exact hcd (by omega)
      · rw [if_neg hneg] at hst; exact absurd rfl hst

/-- After the locked tail of `_preloadThread` for a registered thread, the
table and the list hold no record for the path of the thread. -/
theorem finish_unregistered (s : PreloadState) (td : preloadThreadData_t) (h : TableInv s)
    (hreg : (td.path, td.threadInfo) ∈ s.PreloadThreadTable) :
    lookupFromHashTable (_preloadThread_finish s td).PreloadThreadTable td.path = none ∧
    ∀ x ∈ (_preloadThread_finish s td).PreloadThreadList, x.path ≠ td.path := by
  have hpath : td.threadInfo.path = td.path := h.key_path _ hreg
  have hnone : lookupFromHashTable (deleteFromHashTable s.PreloadThreadTable td.path) td.path =
      none := lookup_delete_self _ _ h.keys_nodup
  have hlist : (_preloadThread_finish s td).PreloadThreadList =
      (deleteFromHashTable s.PreloadThreadTable td.path).map Prod.snd := by
    show removeFromConcurrentList2 s.PreloadThreadList td.threadInfo = _
    rw [h.list_eq]
    exact (delete_eq_remove _ _ _ h.keys_nodup h.addr_nodup hreg).symm
  refine ⟨?_, ?_⟩
  · show lookupFromHashTable (deleteFromHashTable s.PreloadThreadTable td.threadInfo.path) _ = _
    rw [hpath]; exact hnone
  · intro x hx
    rw [hlist] at hx
    obtain ⟨e, he, rfl⟩ := List.mem_map.1 hx
    have hmem : e ∈ s.PreloadThreadTable := (delete_sublist _ _).subset he
    rw [h.key_path e hmem]
    intro heq
    have hk := (lookup_none_iff _ _).1 hnone
    exact hk (List.mem_map.2 ⟨e, he, heq⟩)

/-- In every state the engine reaches from its initial state, after a
registered thread has run `_preloadThread` to its end, whatever `_download`
returned, the table and the list hold no record for its path and
`isPreloading` returns `-1` for a path that converts to it. -/
theorem preloadThread_unregisters (c : Ctx) (fs0 : Tree) (evs : List Event)
    (e1 : DownloadEnv) (now1 : Int) (td : preloadThreadData_t) (p : String)
    (hth : td ∈ (run c (initState fs0) evs).threads.map (fun th => th.data))
    (hp : 0 ≤ (c.getiRODSPath p).1 ∧ (c.getiRODSPath p).2 = td.path) :
    lookupFromHashTable
      (_preloadThread c (run c (initState fs0) evs) td e1 now1).PreloadThreadTable td.path =
      none ∧
    (∀ x ∈ (_preloadThread c (run c (initState fs0) evs) td e1 now1).PreloadThreadList,
      x.path ≠ td.path) ∧
    isPreloading c (_preloadThread c (run c (initState fs0) evs) td e1 now1) p = -1 := by
  have hinv : TableInv (run c (initState fs0) evs) := tableInv_run c evs _ (tableInv_init fs0)
  have hreg := hinv.thread_reg td hth
  have hfin := finish_unregistered
    { run c (initState fs0) evs with
      fs := (_download c (run c (initState fs0) evs).fs td.path td.stbuf e1 now1).2 } td
    (tableInv_fs _ _ hinv) hreg
  refine ⟨hfin.1, hfin.2, ?_⟩
  unfold isPreloading
  simp only []
  rw [if_neg (not_lt.2 hp.1), hp.2]
  have := hfin.1
  unfold _preloadThread
  simp only []
  rw [this]

/-- The download of `/tempZone/a` is interrupted in `getUtil`: `_download`
returns `-1`, nothing is at the cache path, and after `_preloadThread` the path
is not preloading. -/
theorem download_interrupted_tempZone_a :
    (_download exCtx exFs "/tempZone/a" (exStat6 100) exInterrupted 501).1 = -1 ∧
    stat (_download exCtx exFs "/tempZone/a" (exStat6 100) exInterrupted 501).2
      (_getCachePath exCtx "/tempZone/a") = none ∧
    isPreloading exCtx
      (_preloadThread exCtx (run exCtx (initState exFs) [.request "/tempZone/a" (exStat6 100) 0])
        { path := "/tempZone/a", stbuf := exStat6 100,
          threadInfo := { addr := 0, path := "/tempZone/a", running := .PRELOAD_THREAD_RUNNING } }
        exInterrupted 501) "/tempZone/a" = -1 :=
  ⟨by decide,
    download_failure_clean exCtx exFs "/tempZone/a" (exStat6 100) exInterrupted 501
      (by decide) (by decide) (by decide),
    (preloadThread_unregisters exCtx exFs [.request "/tempZone/a" (exStat6 100) 0]
      exInterrupted 501
      { path := "/tempZone/a", stbuf := exStat6 100,
        threadInfo := { addr := 0, path := "/tempZone/a", running := .PRELOAD_THREAD_RUNNING } }
      "/tempZone/a" (by decide) (by decide)).2.2⟩

set_option maxRecDepth 1000000 in
/-- Claim C12, evaluated where it fails.  For the iRODS path `exLongPath` of
1082 characters the work path and the cache path are the same 1087
characters.  Nothing is at the cache path before; `getUtil` fails after
writing half of the object, `_download` returns `-1`, and the file it has
created is at the final cache path, where `_hasCache` finds it. -/
theorem C12_failed_download_truncated_path :
    stat exFs (_getCachePath exCtx exLongPath) = none ∧
    (_download exCtx exFs exLongPath (exStat6 100) exInterrupted 501).1 = -1 ∧
    stat (_download exCtx exFs exLongPath (exStat6 100) exInterrupted 501).2
      (_getCachePath exCtx exLongPath) = some exPartial.toStat ∧
    _hasCache exCtx (_download exCtx exFs exLongPath (exStat6 100) exInterrupted 501).2
      exLongPath = 0 := by
  decide!

/-! ## Claims C17 to C20: the file operations -/

theorem hook_calls (env : OperEnv) (c : Ctx) (s : PreloadState) (path : String) (flags : Nat)
    (preload1 preload2 : PreloadState → String → struct_stat → Int × PreloadState)
    (st : struct_stat) :
    (irodsOpen_hook env c preload1 s path flags st).2 =
      (irodsOpen_hook env c preload2 s path flags st).2 := by
  unfold irodsOpen_hook
  split_ifs <;> rfl

/-- The three parts of the result of `irodsOpenWith` that the dispatcher and
the rest of the client see do not depend on what stands for `preloadFile`. -/
theorem irodsOpenWith_result (env : OperEnv) (c : Ctx) (s : PreloadState) (path : String)
    (flags : Nat) (stbuf0 : struct_stat)
    (preload1 preload2 : PreloadState → String → struct_stat → Int × PreloadState) :
    (irodsOpenWith env c preload1 s path flags stbuf0).status =
      (irodsOpenWith env c preload2 s path flags stbuf0).status ∧
    (irodsOpenWith env c preload1 s path flags stbuf0).fh =
      (irodsOpenWith env c preload2 s path flags stbuf0).fh ∧
    (irodsOpenWith env c preload1 s path flags stbuf0).calls =
      (irodsOpenWith env c preload2 s path flags stbuf0).calls := by
  unfold irodsOpenWith
  by_cases h1 : env.isLazyUploadEnabled = 0 ∧ env.isFileLazyUploading path ≥ 0
  · rw [if_pos h1, if_pos h1]; exact ⟨rfl, rfl, rfl⟩
  rw [if_neg h1, if_neg h1]
  by_cases h2 : isPreloadEnabled c = 0 ∧
      (Nat.land flags O_ACCMODE = O_WRONLY ∨ Nat.land flags O_ACCMODE = O_RDWR) ∧
      isFilePreloading c s path ≥ 0
  · rw [if_pos h2, if_pos h2]; exact ⟨rfl, rfl, rfl⟩
  rw [if_neg h2, if_neg h2]
  cases hm : Option.filter (fun fc => decide (fc.state ≠ FileCacheState.NO_FILE_CACHE))
      ((env.matchAndLockPathCache path).bind (fun pc => pc.fileCache)) with
  | some fc =>
    simp only []
    rw [hook_calls env c s path flags preload1 preload2 stbuf0]
    split_ifs <;> exact ⟨rfl, rfl, rfl⟩
  | none =>
    simp only []
    rw [hook_calls env c s path flags preload1 preload2 (_irodsGetattr env path).2.1]
    split_ifs <;> exact ⟨rfl, rfl, rfl⟩

/-- Claim C17.  The value `irodsOpen` returns, the descriptor index it stores in
`fi` and the calls it makes to the remote service and the tables of the client
are the same whatever the call of `preloadFile` returns and whatever state it
leaves the preload engine in: two runs of `irodsOpenWith` from the same state
and environment that differ only in what stands for `preloadFile` agree on
them; in particular the runs of `irodsOpen` with two different outcomes of the
thread creation do. -/
theorem C17_preload_failure_not_surfaced (env : OperEnv) (c : Ctx) (s : PreloadState)
    (path : String) (flags : Nat) (stbuf0 : struct_stat)
    (preload1 preload2 : PreloadState → String → struct_stat → Int × PreloadState)
    (pthread_create1 pthread_create2 : Int) :
    ((irodsOpenWith env c preload1 s path flags stbuf0).status =
        (irodsOpenWith env c preload2 s path flags stbuf0).status ∧
      (irodsOpenWith env c preload1 s path flags stbuf0).fh =
        (irodsOpenWith env c preload2 s path flags stbuf0).fh ∧
      (irodsOpenWith env c preload1 s path flags stbuf0).calls =
        (irodsOpenWith env c preload2 s path flags stbuf0).calls) ∧
    ((irodsOpen env c s path flags stbuf0 pthread_create1).status =
        (irodsOpen env c s path flags stbuf0 pthread_create2).status ∧
      (irodsOpen env c s path flags stbuf0 pthread_create1).fh =
        (irodsOpen env c s path flags stbuf0 pthread_create2).fh ∧
      (irodsOpen env c s path flags stbuf0 pthread_create1).calls =
        (irodsOpen env c s path flags stbuf0 pthread_create2).calls) :=
  ⟨irodsOpenWith_result env c s path flags stbuf0 preload1 preload2,
    irodsOpenWith_result env c s path flags stbuf0 _ _⟩

/-- Claim C18.  With preload enabled and a preload of the path in flight
(`isPreloading` returns 0), `irodsMknod`, `irodsUnlink`, `irodsChmod`,
`irodsTruncate`, `irodsRename` with the path as source or as destination, and
`irodsOpen` with `O_WRONLY` or `O_RDWR` return `-EBUSY`, make no call to the
remote service or to the attribute cache, and leave the state of the preload
engine as it is. -/
theorem C18_busy_instead_of_blocking (env : OperEnv) (c : Ctx) (s : PreloadState) (path other : String)
    (mode flags : Nat) (size now : Int) (stbuf0 : struct_stat) (pthread_create : Int)
    (hen : isPreloadEnabled c = 0) (hpre : isPreloading c s path = 0) :
    irodsMknod env c s path mode = { status := -EBUSY, preload := s, calls := [], fh := none } ∧
    irodsUnlink env c s path = { status := -EBUSY, preload := s, calls := [], fh := none } ∧
    irodsChmod env c s path mode =
      some { status := -EBUSY, preload := s, calls := [], fh := none } ∧
    irodsTruncate env c s path size now =
      some { status := -EBUSY, preload := s, calls := [], fh := none } ∧
    irodsRename env c s path other = { status := -EBUSY, preload := s, calls := [], fh := none } ∧
    irodsRename env c s other path = { status := -EBUSY, preload := s, calls := [], fh := none } ∧
    (Nat.land flags O_ACCMODE = O_WRONLY ∨ Nat.land flags O_ACCMODE = O_RDWR →
      irodsOpen env c s path flags stbuf0 pthread_create =
        { status := -EBUSY, preload := s, calls := [], fh := none }) := by
  have hg : isPreloadEnabled c = 0 ∧ isFilePreloading c s path ≥ 0 :=
    ⟨hen, by simp [isFilePreloading, hpre]⟩
  refine ⟨?_, ?_, ?_, ?_, ?_, ?_, ?_⟩
  · unfold irodsMknod
    by_cases h1 : env.isLazyUploadEnabled = 0 ∧ env.isFileLazyUploading path ≥ 0
    · rw [if_pos h1]
    · rw [if_neg h1, if_pos hg]
  · unfold irodsUnlink
    by_cases h1 : env.isLazyUploadEnabled = 0 ∧ env.isFileLazyUploading path ≥ 0
    · rw [if_pos h1]
    · rw [if_neg h1, if_pos hg]
  · unfold irodsChmod
    by_cases h1 : env.isLazyUploadEnabled = 0 ∧ env.isFileLazyUploading path ≥ 0
    · rw [if_pos h1]
    · rw [if_neg h1, if_pos hg]
  · unfold irodsTruncate
    by_cases h1 : env.isLazyUploadEnabled = 0 ∧ env.isFileLazyUploading path ≥ 0
    · rw [if_pos h1]
    · rw [if_neg h1, if_pos hg]
  · unfold irodsRename
    by_cases h1 : env.isLazyUploadEnabled = 0 ∧
        (env.isFileLazyUploading path ≥ 0 ∨ env.isFileLazyUploading other ≥ 0)
    · rw [if_pos h1]
    · rw [if_neg h1, if_pos ⟨hen, Or.inl hg.2⟩]
  · unfold irodsRename
    by_cases h1 : env.isLazyUploadEnabled = 0 ∧
        (env.isFileLazyUploading other ≥ 0 ∨ env.isFileLazyUploading path ≥ 0)
    · rw [if_pos h1]
    · rw [if_neg h1, if_pos ⟨hen, Or.inr hg.2⟩]
  · intro hf
    unfold irodsOpen irodsOpenWith
    by_cases h1 : env.isLazyUploadEnabled = 0 ∧ env.isFileLazyUploading path ≥ 0
    · rw [if_pos h1]
    · rw [if_neg h1, if_pos ⟨hen, hf, hg.2⟩]

/-- Witness of C18: `/tempZone/a` is unlinked while its download is in flight. -/
theorem C18_busy_instead_of_blocking_witness :
    isPreloadEnabled exCtx = 0 ∧ isPreloading exCtx exBusy "/tempZone/a" = 0 ∧
    (irodsUnlink exOperEnv exCtx exBusy "/tempZone/a").status = -16 ∧
    (irodsUnlink exOperEnv exCtx exBusy "/tempZone/a").calls = [] :=
  ⟨by decide, by decide,
    by rw [(C18_busy_instead_of_blocking exOperEnv exCtx exBusy "/tempZone/a" "/tempZone/b" 420 1 0 0 zeroStat 0
        (by decide) (by decide)).2.1]; decide,
    by rw [(C18_busy_instead_of_blocking exOperEnv exCtx exBusy "/tempZone/a" "/tempZone/b" 420 1 0 0 zeroStat 0
        (by decide) (by decide)).2.1]⟩

/-- Claim C19, as amended.  When `checkFuseDesc` is negative for the descriptor
index carried in `fi` and the read is not served from a preloaded cache
(preload is disabled, or `openPreloadedFile` returns no positive descriptor),
`irodsRead` returns `-EBADF`. -/
theorem C19_bad_handle_on_read (env : OperEnv) (c : Ctx) (s : PreloadState) (path : String) (size offset : Int)
    (fh fd : Int) (hbad : env.checkFuseDesc fh < 0)
    (hno : isPreloadEnabled c ≠ 0 ∨ (openPreloadedFile c s path fd).desc ≤ 0) :
    (irodsRead env c s path size offset fh fd).status = -EBADF := by
  unfold irodsRead
  simp only []
  rcases hno with h | h
  · rw [if_neg h, if_neg (fun hh => h hh.1), if_pos hbad]
  · by_cases he : isPreloadEnabled c = 0
    · rw [if_pos he, if_neg (fun hh => absurd hh.2 (not_lt.2 h)), if_pos hbad]
    · rw [if_neg he, if_neg (fun hh => he hh.1), if_pos hbad]

/-- Witness of C19 as amended: `/tempZone/c` has no preload cache and `fi`
carries the index 9. -/
theorem C19_bad_handle_on_read_witness :
    exFailEnv.checkFuseDesc 9 < 0 ∧
    (irodsRead exFailEnv exCtx exCached "/tempZone/c" 4096 0 9 5).status = -EBADF :=
  ⟨by decide,
    C19_bad_handle_on_read exFailEnv exCtx exCached "/tempZone/c" 4096 0 9 5 (by decide)
      (Or.inr (by decide))⟩

/-- Counterexample to C19 as stated.  `/tempZone/a` has a completed preload
cache and `fi` carries the index 9, for which `checkFuseDesc` is negative:
`irodsRead` reads from the cache file and returns the 4096 bytes read. -/
theorem C19_counterexample :
    exFailEnv.checkFuseDesc 9 < 0 ∧
    (irodsRead exFailEnv exCtx exCached "/tempZone/a" 4096 0 9 5).status = 4096 := by
  decide

/-- Claim C20, evaluated where it fails.  `/tempZone/a` has a completed preload
cache and the remote service answers `-1`, which is not a read-message error:
`irodsRename` issues the remote rename once and returns 0, the status of
`renamePreloadedFile`; `irodsTruncate` returns 0, the status of
`truncatePreloadedFile`. -/
theorem C20_remote_error_masked :
    exFailEnv.reply .rcDataObjRename 0 < 0 ∧
    exFailEnv.isReadMsgError (exFailEnv.reply .rcDataObjRename 0) = false ∧
    (irodsRename exFailEnv exCtx exCached "/tempZone/a" "/tempZone/b").calls =
      [.remote .rcDataObjRename] ∧
    (irodsRename exFailEnv exCtx exCached "/tempZone/a" "/tempZone/b").status = 0 ∧
    exFailEnv.reply .rcDataObjTruncate 0 < 0 ∧
    (irodsTruncate exFailEnv exCtx exCached "/tempZone/a" 10 700).map (fun r => r.status) =
      some 0 := by
  decide

/-! ## Claims C21, C22, C27, C28 and C30 -/

theorem remoteTrace_append (a b : List Call) :
    remoteTrace (a ++ b) = remoteTrace a ++ remoteTrace b := by
  simp [remoteTrace]

theorem retried_macro (env : OperEnv) (r : Remote) (post : List Call)
    (hpost : remoteTrace post = []) :
    RetriedOnce env r ((RECONNECT_IF_NECESSARY env r).2 ++ post) := by
  unfold RECONNECT_IF_NECESSARY RetriedOnce
  rw [remoteTrace_append, hpost]
  by_cases h : env.isReadMsgError (env.reply r 0) = true
  · rw [if_pos h]
    exact Or.inr (Or.inr ⟨by simp [remoteTrace, Call.isRemote], h⟩)
  · rw [if_neg h]
    exact Or.inr (Or.inl (by simp [remoteTrace, Call.isRemote]))

theorem retried_inline (env : OperEnv) (r : Remote) (post : List Call)
    (hpost : remoteTrace post = []) :
    RetriedOnce env r ((retryIfNegative env r 0).2.1 ++ post) := by
  unfold retryIfNegative RetriedOnce
  rw [remoteTrace_append, hpost]
  by_cases h : env.reply r 0 < 0 ∧ env.isReadMsgError (env.reply r 0) = true
  · rw [if_pos h]
    exact Or.inr (Or.inr ⟨by simp [remoteTrace, Call.isRemote], h.2⟩)
  · rw [if_neg h]
    exact Or.inr (Or.inl (by simp [remoteTrace, Call.isRemote]))

theorem retried_macro_between (env : OperEnv) (r : Remote) (pre post : List Call)
    (hpre : remoteTrace pre = []) (hpost : remoteTrace post = []) :
    RetriedOnce env r (pre ++ (RECONNECT_IF_NECESSARY env r).2 ++ post) := by
  have h := retried_macro env r post hpost
  unfold RetriedOnce at h ⊢
  rw [List.append_assoc, remoteTrace_append, hpre, List.nil_append]
  exact h

/-- Counterexample to C21 as stated: the path has a newly created file cache
and `truncate` of the local backing file returns `-1`; `irodsTruncate` goes on
to issue the remote truncate and does not refresh the snapshot from the local
file. -/
theorem C21_counterexample :
    (irodsTruncate (exNewEnv (-1)) exCtx (initState exFs) "/tempZone/n" 10 700).map
      (fun r => r.calls) =
      some [.truncateLocal "/tmp/fuseCache.2" 10, .remote .rcDataObjTruncate,
        .setCachedSize "/tempZone/n" 10] := by
  decide

/-- Claim C21, as amended.  For a path with no lazy upload and no preload in
flight whose entry of the attribute cache has a file cache in state
`HAVE_NEWLY_CREATED_CACHE`, `irodsTruncate` first truncates the local backing
file.  When that succeeds it refreshes the snapshot of the entry from the
local file, makes no other call (no remote call) and returns 0.  When it fails
the snapshot is not refreshed and, the path being parsed, the remote truncate
is issued. -/
theorem C21_truncate_newly_created (env : OperEnv) (c : Ctx) (s : PreloadState) (path : String)
    (size now : Int) (tmpPathCache : pathCache_t) (fileCache : fileCache_t)
    (hlazy : ¬ (env.isLazyUploadEnabled = 0 ∧ env.isFileLazyUploading path ≥ 0))
    (hpre : ¬ (isPreloadEnabled c = 0 ∧ isFilePreloading c s path ≥ 0))
    (hm : env.matchAndLockPathCache path = some tmpPathCache)
    (hfc : tmpPathCache.fileCache = some fileCache)
    (hst : fileCache.state = .HAVE_NEWLY_CREATED_CACHE) :
    ∃ r, irodsTruncate env c s path size now = some r ∧
      r.calls.head? = some (.truncateLocal fileCache.fileCachePath size) ∧
      (env.localTruncate fileCache.fileCachePath size ≥ 0 →
        r.status = 0 ∧
        r.calls = [.truncateLocal fileCache.fileCachePath size,
          ._updatePathCacheStatFromFileCache path]) ∧
      (env.localTruncate fileCache.fileCachePath size < 0 →
        ._updatePathCacheStatFromFileCache path ∉ r.calls ∧
        (env.parseRodsPathStr (path.drop 1) ≥ 0 → .remote .rcDataObjTruncate ∈ r.calls)) := by
  have hnew : Option.filter (fun fc => decide (fc.state = FileCacheState.HAVE_NEWLY_CREATED_CACHE))
      tmpPathCache.fileCache = some fileCache := by
    rw [hfc]; simp [Option.filter, hst]
  unfold irodsTruncate
  rw [if_neg hlazy, if_neg hpre, hm]
  simp only [hnew]
  by_cases hl : env.localTruncate fileCache.fileCachePath size ≥ 0
  · have hf : Option.filter (fun fc => decide (env.localTruncate fc.fileCachePath size ≥ 0))
        (some fileCache) = some fileCache := by simp [Option.filter, hl]
    rw [hf]
    refine ⟨_, rfl, rfl, fun _ => ⟨rfl, rfl⟩, fun h => absurd hl (not_le.2 h)⟩
  · have hf : Option.filter (fun fc => decide (env.localTruncate fc.fileCachePath size ≥ 0))
        (some fileCache) = none := by simp [Option.filter, hl]
    rw [hf]
    simp only []
    by_cases hp : env.parseRodsPathStr (path.drop 1) < 0
    · rw [if_pos hp]
      refine ⟨_, rfl, rfl, fun h => absurd h hl, fun _ => ⟨by simp, fun h => absurd hp (not_lt.2 h)⟩⟩
    · rw [if_neg hp]
      have hrem : Call.remote Remote.rcDataObjTruncate ∈
          (RECONNECT_IF_NECESSARY env .rcDataObjTruncate).2 := by
        unfold RECONNECT_IF_NECESSARY; split_ifs <;> simp
      have hno : Call._updatePathCacheStatFromFileCache path ∉
          (RECONNECT_IF_NECESSARY env .rcDataObjTruncate).2 := by
        unfold RECONNECT_IF_NECESSARY; split_ifs <;> simp
      split_ifs <;>
        refine ⟨_, rfl, rfl, fun h => absurd h hl, fun _ => ⟨?_, fun _ => ?_⟩⟩ <;>
        simp [hrem, hno]

/-- Witness of C21 as amended: the local truncate succeeds. -/
theorem C21_truncate_newly_created_witness :
    (irodsTruncate (exNewEnv 0) exCtx (initState exFs) "/tempZone/n" 10 700).map
      (fun r => r.calls) =
      some [.truncateLocal "/tmp/fuseCache.2" 10, ._updatePathCacheStatFromFileCache "/tempZone/n"] := by
  obtain ⟨r, hr, _, h1, _⟩ := C21_truncate_newly_created (exNewEnv 0) exCtx (initState exFs)
    "/tempZone/n" 10 700 _ _ (by decide) (by decide) rfl rfl rfl
  rw [hr, Option.map_some', (h1 (by decide)).2]

set_option maxRecDepth 1000000 in
/-- Claim C27, evaluated where it fails: for the iRODS path `exLongPath` of 1082
characters under the cache root `/cache`, with `MAX_NAME_LEN` 1088, the cache
path is cut to 1087 characters and the work path is the same string. -/
theorem C27_work_path_truncated :
    exLongPath.length = 1082 ∧ (_getCachePath exCtx exLongPath).length = 1087 ∧
    _getCacheWorkPath exCtx exLongPath = _getCachePath exCtx exLongPath := by
  decide!

/-- Claim C28, evaluated where it fails: `pthread_create` returns 11 (`EAGAIN`).
`preloadFile` returns 11, no thread runs, and the record it added to the list
and to the table before the call is still there: `isPreloading` returns 0 for
the path. -/
theorem C28_thread_creation_failure :
    lookupFromHashTable (initState exFs).PreloadThreadTable "/tempZone/a" = none ∧
    (preloadFile exCtx (initState exFs) "/tempZone/a" (exStat6 100) 11).status = 11 ∧
    (preloadFile exCtx (initState exFs) "/tempZone/a" (exStat6 100) 11).state.threads = [] ∧
    (preloadFile exCtx (initState exFs) "/tempZone/a" (exStat6 100) 11).state.PreloadThreadList =
      [{ addr := 0, path := "/tempZone/a", running := .PRELOAD_THREAD_RUNNING }] ∧
    lookupFromHashTable
      (preloadFile exCtx (initState exFs) "/tempZone/a" (exStat6 100) 11).state.PreloadThreadTable
      "/tempZone/a" = some { addr := 0, path := "/tempZone/a", running := .PRELOAD_THREAD_RUNNING } ∧
    isPreloading exCtx (preloadFile exCtx (initState exFs) "/tempZone/a" (exStat6 100) 11).state
      "/tempZone/a" = 0 := by
  decide

/-- Claim C30, evaluated where it fails: the open is served from a file cache in
state `HAVE_READ_CACHE`.  `irodsOpen` makes no attribute lookup (its only call
is `newIFuseDesc`), and what the local variable `stbuf` happened to hold
decides on the preload and is handed to `preloadFile`: with `exGarbage` a
download is started with these attributes, with zeroes none is. -/
theorem C30_uninitialised_attributes :
    (irodsOpen exReadCacheEnv exCtx (initState exFs) "/tempZone/a" O_RDONLY exGarbage 0).status =
      0 ∧
    (irodsOpen exReadCacheEnv exCtx (initState exFs) "/tempZone/a" O_RDONLY exGarbage 0).calls =
      [.newIFuseDesc "/tempZone/a"] ∧
    (irodsOpen exReadCacheEnv exCtx (initState exFs) "/tempZone/a" O_RDONLY exGarbage
      0).preload.threads.map (fun th => th.data.stbuf) = [exGarbage] ∧
    (irodsOpen exReadCacheEnv exCtx (initState exFs) "/tempZone/a" O_RDONLY zeroStat
      0).preload.threads = [] := by
  decide

/-! ## Start-up clean-up: claims C23, C25 and C26 -/

theorem cacheFiles_filesUnder (c : Ctx) (fs : Tree) :
    cacheFiles c fs = filesUnder fs (splitPath c.PreloadConfig.cachePath) := rfl

/-- Claim C29, as amended.  Every file `_evictOldCache` unlinks is a regular
file under the cache root, whatever its name; so no file whose name ends with
the in-download suffix is unlinked when the cache tree holds no such file. -/
theorem C29_eviction_candidates (c : Ctx) (fs : Tree) (sizeNeeded : Int) (hwf : fs.wf = true) :
    (∀ m ∈ (_evictOldCache c fs sizeNeeded).removed, m ∈ cacheFiles c fs) ∧
    ((∀ x ∈ cacheFiles c fs, ¬ endsWithExt c x.1) →
      ∀ m ∈ (_evictOldCache c fs sizeNeeded).removed, ¬ endsWithExt c m.1) := by
  have hseq := (evict_spec c fs sizeNeeded hwf).2.2.1
  have hperm := evictSeq_perm _ _ _ hseq
  have hmem : ∀ m ∈ (_evictOldCache c fs sizeNeeded).removed, m ∈ cacheFiles c fs :=
    fun m hm => hperm.symm.subset (List.mem_append_left _ hm)
  exact ⟨hmem, fun h m hm => h m (hmem m hm)⟩

/-- Witness of C29 as amended: 6 bytes are evicted from `exFs3`, which holds no
work file. -/
theorem C29_eviction_candidates_witness :
    (_evictOldCache exCtx exFs3 6).removed =
      [(["cache", "d", "b"], { st_isdir := false, st_size := 5, st_atime := 10, st_mtime := 2 }),
       (["cache", "c"], { st_isdir := false, st_size := 3, st_atime := 20, st_mtime := 3 })] ∧
    ∀ m ∈ (_evictOldCache exCtx exFs3 6).removed, m ∈ cacheFiles exCtx exFs3 :=
  ⟨by decide, (C29_eviction_candidates exCtx exFs3 6 (by decide)).1⟩

/-- Counterexample to C29 as stated: the work file `a.part` of a download in
flight has the oldest access time of the cache, and an eviction of one byte
unlinks it. -/
theorem C29_counterexample :
    (_evictOldCache exCtx exWorkFs 1).status = 0 ∧
    (_evictOldCache exCtx exWorkFs 1).removed =
      [(["cache", "a.part"],
        { st_isdir := false, st_size := 3145728, st_atime := 100, st_mtime := 100 })] ∧
    List.IsSuffix exCtx.PRELOAD_FILES_IN_DOWNLOADING_EXT.data "a.part".data := by
  decide

end IFuse
